import Mathlib

/-!
# Unified storage SQL backend: write path, version ledger, read and list engine, change feed

A shallow embedding of `pkg/storage/unified/sql/backend.go`.

The database is an external collaborator.  Every call the backend makes on it is
appended to a chronological log (`List Op`), and what the database answers is read
from an environment `Env` whose answers may depend on the whole log so far, so an
environment can describe any deterministic database.  `int64` values are integers,
and the arithmetic steps that can leave the `int64` range (`res.ResourceVersion+1`
in the version ledger, `l.offset++` in the list cursor) wrap explicitly.
-/

namespace UnifiedSql

/-! ## Go values -/

/-- Go `error` values: a bare value (`errors.New`, a driver error, `sql.ErrNoRows`),
`fmt.Errorf` without `%w`, `fmt.Errorf("msg: %w", inner)`, and
`apierrors.NewBadRequest`. -/
inductive GoError where
  | sentinel (name : String)
  | errorf (msg : String)
  | wrap (msg : String) (inner : GoError)
  | badRequest (msg : String)
  deriving DecidableEq, Repr

/-- The `errors.Is` walk: the error itself or any error it wraps with `%w`. -/
def errorsIs : GoError → GoError → Bool
  | .wrap msg inner, target =>
    decide (GoError.wrap msg inner = target) || errorsIs inner target
  | e, target => decide (e = target)

/-- The value `sql.ErrNoRows`. -/
def ErrNoRows : GoError := .sentinel "sql: no rows in result set"

/-- Smallest `int64`. -/
def minInt64 : Int := -(2 ^ 63)

/-- Largest `int64` (`math.MaxInt64`). -/
def maxInt64 : Int := 2 ^ 63 - 1

/-- Membership in the `int64` range. -/
def isInt64 (x : Int) : Prop := minInt64 ≤ x ∧ x ≤ maxInt64

instance (x : Int) : Decidable (isInt64 x) := by
  unfold isInt64; exact inferInstance

/-- Two's-complement reduction of an integer to `int64`. -/
def wrap64 (x : Int) : Int := (x + 2 ^ 63) % 2 ^ 64 - 2 ^ 63

/-- A byte slice. -/
abbrev Bytes := List Nat

/-! ## Data model -/

/-- The `resource.ResourceKey`. -/
structure ResourceKey where
  Namespace : String
  Group : String
  Resource : String
  Name : String
  deriving DecidableEq, Repr

/-- The `resource.WatchEvent_Type` tags; `other` stands for every tag that is
none of the three write kinds. -/
inductive WatchEventType where
  | ADDED
  | MODIFIED
  | DELETED
  | other (tag : Int)
  deriving DecidableEq, Repr

/-- The `resource.WriteEvent`. -/
structure WriteEvent where
  Type_ : WatchEventType
  Key : ResourceKey
  Value : Bytes
  PreviousRV : Int
  deriving DecidableEq, Repr

/-- The `resource.ReadRequest`. -/
structure ReadRequest where
  Key : ResourceKey
  ResourceVersion : Int
  deriving DecidableEq, Repr

/-- The `resource.ErrorResult` payloads built by `resource.NewNotFoundError` and
`resource.AsErrorResult`. -/
inductive ErrorResult where
  | NewNotFoundError (key : ResourceKey)
  | AsErrorResult (err : GoError)
  deriving DecidableEq, Repr

/-- The `resource.ReadResponse`. -/
structure ReadResponse where
  Error : Option ErrorResult
  ResourceVersion : Int
  Value : Bytes
  deriving DecidableEq, Repr

/-- The row type scanned by the read queries; it embeds the response. -/
structure readResponse where
  ReadResponse : ReadResponse
  deriving DecidableEq, Repr

/-- The `resource.ListOptions`, reduced to the key the backend looks at. -/
structure ListOptions where
  Key : ResourceKey
  deriving DecidableEq, Repr

/-- The `resource.ListRequest`; `Options` is a pointer and may be nil. -/
structure ListRequest where
  NextPageToken : String
  ResourceVersion : Int
  Limit : Int
  Options : Option ListOptions
  deriving DecidableEq, Repr

/-- The `ContinueToken` value. -/
structure ContinueToken where
  ResourceVersion : Int
  StartOffset : Int
  deriving DecidableEq, Repr

/-- The row scanned from the counter table (`resourceVersionResponse`). -/
structure resourceVersionResponse where
  ResourceVersion : Int
  CurrentEpoch : Int
  deriving DecidableEq, Repr

/-- One row of a listing as `rows.Scan` fills it in. -/
structure ListRow where
  rv : Int
  namespace_ : String
  name : String
  value : Bytes
  deriving DecidableEq, Repr

/-- A row on which `rows.Scan` fails.  `Scan` converts the columns into its
destinations one after the other, in the order `rv`, `namespace`, `name`, `value`,
and returns at the first column it cannot convert: the destinations of the
`assigned` columns before it hold the columns of this row, and the others are not
written. -/
structure ScanFailure where
  err : GoError
  assigned : Nat
  row : ListRow
  deriving DecidableEq, Repr

/-- The `resource.WrittenEvent`: a write event and the version assigned to it. -/
structure WrittenEvent where
  WriteEvent : WriteEvent
  ResourceVersion : Int
  deriving DecidableEq, Repr

/-- One record scanned by the history poll query (`historyPollResponse`).
`PreviousRV` is a pointer and may be nil.  `Action` is the event type the stored
number converts to with `resource.WatchEvent_Type(rec.Action)`. -/
structure historyPollResponse where
  Key : ResourceKey
  ResourceVersion : Int
  PreviousRV : Option Int
  Value : Bytes
  Action : WatchEventType
  deriving DecidableEq, Repr

/-- One row scanned by the version list query (`groupResourceVersion`). -/
structure groupResourceVersion where
  Group : String
  Resource : String
  ResourceVersion : Int
  deriving DecidableEq, Repr

/-! ## Statements and the operation log -/

/-- Transaction options passed to `WithTx`. -/
inductive Isolation where
  | ReadCommitted
  | ReadCommittedRO
  deriving DecidableEq, Repr

/-- The SQL templates, each with the request fields the backend fills in. -/
inductive Stmt where
  | sqlResourceInsert (event : WriteEvent) (guid : String)
  | sqlResourceUpdate (event : WriteEvent) (guid : String)
  | sqlResourceDelete (event : WriteEvent) (guid : String)
  | sqlResourceHistoryInsert (event : WriteEvent) (guid : String)
  | sqlResourceHistoryUpdateRV (guid : String) (rv : Int)
  | sqlResourceUpdateRV (guid : String) (rv : Int)
  | sqlResourceVersionGet (group resource : String) (shard : Nat) (readOnly : Bool)
  | sqlResourceVersionInsert (group resource : String) (shard : Nat)
  | sqlResourceVersionUpdate (group resource : String) (shard : Nat) (rv : Int)
  | sqlResourceVersionLockShards (resource group : String)
  | sqlResourceVersionBatchUpdate (shards : List Int)
  | sqlResourceVersionMin (group resource : String)
  | sqlResourceRead (req : ReadRequest)
  | sqlResourceHistoryRead (req : ReadRequest)
  | sqlResourceList (req : ListRequest)
  | sqlResourceHistoryList (rv limit offset : Int) (options : ListOptions)
  | sqlResourceVersionList
  | sqlResourceHistoryPoll (resource group : String) (since : Int)
  deriving DecidableEq, Repr

/-- One entry of the log: the database calls, and the in-process steps whose
position relative to them matters (the mutex, the contention delay, error logs,
the call of a list callback, the sends on the watch stream and its close). -/
inductive Op where
  | begin (iso : Isolation)
  | commit
  | rollback
  | exec (s : Stmt)
  | queryRow (s : Stmt)
  | queryRows (s : Stmt)
  | lock
  | unlock
  | sleep
  | logError (msg : String) (err : GoError)
  | query (s : Stmt)
  | callback
  | send (event : WrittenEvent)
  | closeStream
  deriving DecidableEq, Repr

/-- The log entries that reach the database. -/
def Op.isDatabase : Op → Bool
  | .begin _ | .commit | .rollback | .exec _ | .queryRow _ | .queryRows _ | .query _ => true
  | _ => false

/-- The log entries that are SQL statements. -/
def Op.isStatement : Op → Bool
  | .exec _ | .queryRow _ | .queryRows _ | .query _ => true
  | _ => false

/-- What lies outside the file: the answers of the database to each call, given the
log up to that call, the identifiers `uuid.New` hands out, and the continuation
token codec. -/
structure Env where
  uuidNew : List Op → String
  beginTx : List Op → Isolation → Option GoError
  commitTx : List Op → Option GoError
  exec : List Op → Stmt → Option GoError
  queryRowVersion : List Op → Stmt → Except GoError resourceVersionResponse
  queryRowRead : List Op → Stmt → Except GoError readResponse
  queryRowsShards : List Op → Stmt → Except GoError (List (Except GoError Int))
  queryRowsList : List Op → Stmt → Except GoError (List (Except ScanFailure ListRow))
  queryPoll : List Op → Stmt → Except GoError (List historyPollResponse)
  queryVersionList : List Op → Stmt → Except GoError (List groupResourceVersion)
  tokenString : ContinueToken → String
  GetContinueToken : String → Except GoError ContinueToken

/-- Modelled from the spec: `db.WithTx` is not part of the source. It begins a
transaction with the given options, runs the callback, rolls back and returns the
callback's error when it fails, and commits otherwise.  The second component is
the state the callback captures from its enclosing function. -/
def WithTx {α : Type} (env : Env) (t : List Op) (iso : Isolation) (captured : α)
    (f : List Op → List Op × α × Option GoError) : List Op × α × Option GoError :=
  match env.beginTx t iso with
  | some e => (t ++ [Op.begin iso], captured, some e)
  | none =>
    match f (t ++ [Op.begin iso]) with
    | (t1, a, some e) => (t1 ++ [Op.rollback], a, some e)
    | (t1, a, none) => (t1 ++ [Op.commit], a, env.commitTx t1)

/-! ## Version ledger -/

/-- The shard count (`var NumberOfShards = 100`). -/
def NumberOfShards : Nat := 100

/-- The 32-bit FNV-1a hash of a byte sequence (`fnv.New32a`, `Write`, `Sum32`). -/
def fnv32a (bytes : List Nat) : Nat :=
  bytes.foldl (fun h b => ((h ^^^ b) * 16777619) % 2 ^ 32) 2166136261

/-- The UTF-8 bytes of a string (`[]byte(namespace)`). -/
def stringBytes (s : String) : List Nat :=
  s.toUTF8.data.toList.map (fun b => b.toNat)

/-- Embedding of `computeShard`: a shard number based on the namespace. -/
def computeShard (namespace_ : String) : Nat :=
  fnv32a (stringBytes namespace_) % NumberOfShards

/-- Embedding of `resourceVersionAtomicInc`: the locking read of the counter row,
then either the insert and re-read of a fresh row, or the update of the existing
row to `max(CurrentEpoch, ResourceVersion+1)`. -/
def resourceVersionAtomicInc (env : Env) (t : List Op) (key : ResourceKey) :
    List Op × Int × Option GoError :=
  let shard := computeShard key.Namespace
  let get := Stmt.sqlResourceVersionGet key.Group key.Resource shard false
  let t1 := t ++ [Op.lock, Op.queryRow get]
  let insertRow : List Op × Int × Option GoError :=
    let ins := Stmt.sqlResourceVersionInsert key.Group key.Resource shard
    match env.exec t1 ins with
    | some err =>
      (t1 ++ [Op.exec ins, Op.unlock], 0, some (.wrap "insert into resource_version" err))
    | none =>
      let reread := Stmt.sqlResourceVersionGet key.Group key.Resource shard true
      let t2 := t1 ++ [Op.exec ins]
      match env.queryRowVersion t2 reread with
      | .error _ =>
        (t2 ++ [Op.queryRow reread, Op.unlock], 0, some (.errorf "fetching RV after read"))
      | .ok res => (t2 ++ [Op.queryRow reread, Op.unlock], res.ResourceVersion, none)
  match env.queryRowVersion (t ++ [Op.lock]) get with
  | .error err =>
    if errorsIs err ErrNoRows then insertRow
    else (t1 ++ [Op.unlock], 0, some (.wrap "lock the resource version" err))
  | .ok res =>
    if res.ResourceVersion = 0 then insertRow
    else
      let nextRV := max res.CurrentEpoch (wrap64 (res.ResourceVersion + 1))
      let upd := Stmt.sqlResourceVersionUpdate key.Group key.Resource shard nextRV
      let t2 := t1 ++ [Op.unlock, Op.sleep]
      match env.exec t2 upd with
      | some err => (t2 ++ [Op.exec upd], 0, some (.wrap "increase resource version" err))
      | none => (t2 ++ [Op.exec upd], nextRV, none)

/-- Embedding of `backend.IncreaseRVs`: inside one transaction, lock the shard rows
of the (group, resource), collect the shard numbers, and issue the batch update
when at least one shard was found.  The `shard` and `resourceVersion` arguments
are received and, as in the source, passed on to neither statement. -/
def backend.IncreaseRVs (env : Env) (t : List Op) (resource group : String) (_shard : Nat)
    (_resourceVersion : Int) : List Op × Option GoError :=
  let lockShards := Stmt.sqlResourceVersionLockShards resource group
  let scanAll : List (Except GoError Int) → Except GoError (List Int) :=
    fun rows => rows.foldl (fun acc row =>
      match acc, row with
      | .error e, _ => .error e
      | .ok _, .error e => .error (.wrap "scan shard" e)
      | .ok shards, .ok s => .ok (shards ++ [s])) (.ok [])
  let r := WithTx env t .ReadCommitted () (fun t0 =>
    let t1 := t0 ++ [Op.queryRows lockShards]
    match env.queryRowsShards t0 lockShards with
    | .error err => (t1, (), some (.wrap "lock shards" err))
    | .ok rows =>
      match scanAll rows with
      | .error e => (t1, (), some e)
      | .ok shards =>
        if shards.length = 0 then (t1, (), none)
        else
          let upd := Stmt.sqlResourceVersionBatchUpdate shards
          match env.exec t1 upd with
          | some err =>
            (t1 ++ [Op.exec upd], (), some (.wrap "batch update resource version" err))
          | none => (t1 ++ [Op.exec upd], (), none))
  (r.1, r.2.2)

/-! ## Write pipeline -/

/-- Embedding of `backend.create`. -/
def backend.create (env : Env) (t : List Op) (event : WriteEvent) :
    List Op × Int × Option GoError :=
  let guid := env.uuidNew t
  WithTx env t .ReadCommitted 0 (fun t0 =>
    let ins := Stmt.sqlResourceInsert event guid
    match env.exec t0 ins with
    | some err => (t0 ++ [Op.exec ins], 0, some (.wrap "insert into resource" err))
    | none =>
      let hist := Stmt.sqlResourceHistoryInsert event guid
      match env.exec (t0 ++ [Op.exec ins]) hist with
      | some err =>
        (t0 ++ [Op.exec ins, Op.exec hist], 0, some (.wrap "insert into resource history" err))
      | none =>
        match resourceVersionAtomicInc env (t0 ++ [Op.exec ins, Op.exec hist]) event.Key with
        | (t1, _, some err) => (t1, 0, some (.wrap "increment resource version" err))
        | (t1, rv, none) =>
          let h := Stmt.sqlResourceHistoryUpdateRV guid rv
          match env.exec t1 h with
          | some err => (t1 ++ [Op.exec h], 0, some (.wrap "update resource_history rv" err))
          | none =>
            let u := Stmt.sqlResourceUpdateRV guid rv
            match env.exec (t1 ++ [Op.exec h]) u with
            | some err =>
              (t1 ++ [Op.exec h, Op.exec u], 0, some (.wrap "update resource rv" err))
            | none => (t1 ++ [Op.exec h, Op.exec u], rv, none))

/-- Embedding of `backend.update`. -/
def backend.update (env : Env) (t : List Op) (event : WriteEvent) :
    List Op × Int × Option GoError :=
  let guid := env.uuidNew t
  WithTx env t .ReadCommitted 0 (fun t0 =>
    let upd := Stmt.sqlResourceUpdate event guid
    match env.exec t0 upd with
    | some err => (t0 ++ [Op.exec upd], 0, some (.wrap "initial resource update" err))
    | none =>
      let hist := Stmt.sqlResourceHistoryInsert event guid
      match env.exec (t0 ++ [Op.exec upd]) hist with
      | some err =>
        (t0 ++ [Op.exec upd, Op.exec hist], 0, some (.wrap "insert into resource history" err))
      | none =>
        match resourceVersionAtomicInc env (t0 ++ [Op.exec upd, Op.exec hist]) event.Key with
        | (t1, _, some err) => (t1, 0, some (.wrap "increment resource version" err))
        | (t1, rv, none) =>
          let h := Stmt.sqlResourceHistoryUpdateRV guid rv
          match env.exec t1 h with
          | some err => (t1 ++ [Op.exec h], 0, some (.wrap "update history rv" err))
          | none =>
            let u := Stmt.sqlResourceUpdateRV guid rv
            match env.exec (t1 ++ [Op.exec h]) u with
            | some err =>
              (t1 ++ [Op.exec h, Op.exec u], 0, some (.wrap "update resource rv" err))
            | none => (t1 ++ [Op.exec h, Op.exec u], rv, none))

/-- Embedding of `backend.delete`. -/
def backend.delete (env : Env) (t : List Op) (event : WriteEvent) :
    List Op × Int × Option GoError :=
  let guid := env.uuidNew t
  WithTx env t .ReadCommitted 0 (fun t0 =>
    let del := Stmt.sqlResourceDelete event guid
    match env.exec t0 del with
    | some err => (t0 ++ [Op.exec del], 0, some (.wrap "delete resource" err))
    | none =>
      let hist := Stmt.sqlResourceHistoryInsert event guid
      match env.exec (t0 ++ [Op.exec del]) hist with
      | some err =>
        (t0 ++ [Op.exec del, Op.exec hist], 0, some (.wrap "insert into resource history" err))
      | none =>
        match resourceVersionAtomicInc env (t0 ++ [Op.exec del, Op.exec hist]) event.Key with
        | (t1, _, some err) => (t1, 0, some (.wrap "increment resource version" err))
        | (t1, rv, none) =>
          let h := Stmt.sqlResourceHistoryUpdateRV guid rv
          match env.exec t1 h with
          | some err => (t1 ++ [Op.exec h], 0, some (.wrap "update history rv" err))
          | none => (t1 ++ [Op.exec h], rv, none))

/-- Embedding of `backend.WriteEvent`: the dispatch on the event type, then the
deferred function, which does nothing when the write failed and otherwise runs the
shard synchronization, whose failure is only logged. -/
def backend.WriteEvent (env : Env) (t : List Op) (event : WriteEvent) :
    List Op × Int × Option GoError :=
  let ret : List Op × Int × Option GoError :=
    match event.Type_ with
    | .ADDED => backend.create env t event
    | .MODIFIED => backend.update env t event
    | .DELETED => backend.delete env t event
    | .other _ => (t, 0, some (.errorf "unsupported event type"))
  match ret with
  | (t1, rv, some err) => (t1, rv, some err)
  | (t1, rv, none) =>
    match backend.IncreaseRVs env t1 event.Key.Resource event.Key.Group
        (computeShard event.Key.Namespace) rv with
    | (t2, some err) => (t2 ++ [Op.logError "failed to increase resource version" err], rv, none)
    | (t2, none) => (t2, rv, none)

/-! ## Read and list engine -/

/-- Embedding of `backend.ReadResource`.  The result is a pointer: `none` is nil. -/
def backend.ReadResource (env : Env) (t : List Op) (req : ReadRequest) :
    List Op × Option ReadResponse :=
  let sr := if req.ResourceVersion > 0 then Stmt.sqlResourceHistoryRead req
    else Stmt.sqlResourceRead req
  match WithTx env t .ReadCommittedRO (none : Option readResponse) (fun t0 =>
    match env.queryRowRead t0 sr with
    | .ok res => (t0 ++ [Op.queryRow sr], some res, none)
    | .error err => (t0 ++ [Op.queryRow sr], none, some err)) with
  | (t1, _, some err) =>
    if errorsIs err ErrNoRows then
      (t1, some { Error := some (.NewNotFoundError req.Key), ResourceVersion := 0, Value := [] })
    else
      (t1, some { Error := some (.AsErrorResult err), ResourceVersion := 0, Value := [] })
  | (t1, res, none) => (t1, res.map (fun r => r.ReadResponse))

/-- The `listIter` cursor: the rows still to be read, the offset and list version,
the last scan error, and the last scanned row. -/
structure listIter where
  rows : List (Except ScanFailure ListRow)
  offset : Int
  listRV : Int
  err : Option GoError
  rv : Int
  value : Bytes
  namespace_ : String
  name : String

/-- Embedding of `listIter.ContinueToken`. -/
def listIter.ContinueToken (env : Env) (l : listIter) : String :=
  env.tokenString { ResourceVersion := l.listRV, StartOffset := l.offset }

/-- Embedding of `listIter.Next`: when a row is left, count it with the int64
increment `l.offset++`, scan it, keep the scan error, and report `true`.  A scan
that fails has written the destinations of the columns before the failing one, so
the cursor holds these columns of the new row and keeps the others of the row
before; the last column, `value`, is never written by a failing scan. -/
def listIter.Next (l : listIter) : Bool × listIter :=
  match l.rows with
  | [] => (false, l)
  | .ok row :: rest =>
    (true, { l with rows := rest, offset := wrap64 (l.offset + 1), err := none, rv := row.rv,
                    namespace_ := row.namespace_, name := row.name, value := row.value })
  | .error f :: rest =>
    (true, { l with rows := rest, offset := wrap64 (l.offset + 1), err := some f.err,
                    rv := if 0 < f.assigned then f.row.rv else l.rv,
                    namespace_ := if 1 < f.assigned then f.row.namespace_ else l.namespace_,
                    name := if 2 < f.assigned then f.row.name else l.name })

/-- The zero `listIter` with the given list version. -/
def listIter.zero (listRV : Int) : listIter :=
  { rows := [], offset := 0, listRV := listRV, err := none, rv := 0, value := [],
    namespace_ := "", name := "" }

/-- Embedding of `fetchLatestRV`: the counter of the namespace shard, or 1 when the
shard has no counter row. -/
def fetchLatestRV (env : Env) (t : List Op) (group resource namespace_ : String) :
    List Op × Int × Option GoError :=
  let get := Stmt.sqlResourceVersionGet group resource (computeShard namespace_) true
  match env.queryRowVersion t get with
  | .error err =>
    if errorsIs err ErrNoRows then (t ++ [Op.queryRow get], 1, none)
    else (t ++ [Op.queryRow get], 0, some (.wrap "get resource version" err))
  | .ok res => (t ++ [Op.queryRow get], res.ResourceVersion, none)

/-- A list callback: it drives the cursor and returns its error.  Each call of a
callback is recorded in the log as `Op.callback`. -/
abbrev ListCallback := listIter → listIter × Option GoError

/-- Embedding of `backend.listLatest`; `opts` is `req.Options`, which the caller has
checked to be non-nil. -/
def backend.listLatest (env : Env) (t : List Op) (req : ListRequest) (opts : ListOptions)
    (cb : ListCallback) : List Op × Int × Option GoError :=
  if req.NextPageToken ≠ "" then (t, 0, some (.errorf "only works for the first page"))
  else if req.ResourceVersion > 0 then
    (t, 0, some (.errorf "only works for the 'latest' resource version"))
  else if opts.Key.Namespace ≠ "" then
    (t, 0, some (.errorf "namespace is not supported in this mode"))
  else
    WithTx env t .ReadCommittedRO 0 (fun t0 =>
      match fetchLatestRV env t0 opts.Key.Group opts.Key.Resource opts.Key.Namespace with
      | (t1, listRV, some err) => (t1, listRV, some err)
      | (t1, listRV, none) =>
        let listReq := Stmt.sqlResourceList req
        match env.queryRowsList t1 listReq with
        | .error err => (t1 ++ [Op.queryRows listReq], listRV, some err)
        | .ok rows =>
          (t1 ++ [Op.queryRows listReq, Op.callback], listRV,
            (cb { listIter.zero listRV with rows := rows }).2))

/-- Embedding of `backend.listAtRevision`; `opts` is `req.Options`, which the caller
has checked to be non-nil. -/
def backend.listAtRevision (env : Env) (t : List Op) (req : ListRequest) (opts : ListOptions)
    (cb : ListCallback) : List Op × Int × Option GoError :=
  let afterToken : Except GoError listIter :=
    if req.NextPageToken ≠ "" then
      match env.GetContinueToken req.NextPageToken with
      | .error err => .error (.wrap "get continue token" err)
      | .ok continueToken =>
        if req.ResourceVersion ≠ 0 ∧ req.ResourceVersion ≠ continueToken.ResourceVersion then
          .error (.badRequest "request resource version does not math token")
        else
          .ok { listIter.zero continueToken.ResourceVersion with
                offset := continueToken.StartOffset }
    else .ok (listIter.zero req.ResourceVersion)
  match afterToken with
  | .error err => (t, 0, some err)
  | .ok iter0 =>
    let afterMin : List Op × Except GoError listIter :=
      if opts.Key.Namespace = "" then
        let minStmt := Stmt.sqlResourceVersionMin opts.Key.Group opts.Key.Resource
        match WithTx env t .ReadCommittedRO (0 : Int) (fun t0 =>
          match env.queryRowVersion t0 minStmt with
          | .ok resp => (t0 ++ [Op.queryRow minStmt], resp.ResourceVersion, none)
          | .error err =>
            if errorsIs err ErrNoRows then (t0 ++ [Op.queryRow minStmt], 0, none)
            else (t0 ++ [Op.queryRow minStmt], 0, some (.wrap "get resource version" err))) with
        | (t1, _, some err) => (t1, .error err)
        | (t1, minRV, none) => (t1, .ok { iter0 with listRV := minRV })
      else (t, .ok iter0)
    match afterMin with
    | (t1, .error err) => (t1, 0, some err)
    | (t1, .ok iter) =>
      if iter.listRV < 1 then
        (t1, 0, some (.badRequest "expecting an explicit resource version query"))
      else
        WithTx env t1 .ReadCommittedRO iter.listRV (fun t0 =>
          let limit : Int := if iter.offset > 0 then maxInt64 else 0
          let listReq := Stmt.sqlResourceHistoryList iter.listRV limit iter.offset opts
          match env.queryRowsList t0 listReq with
          | .error err => (t0 ++ [Op.queryRows listReq], iter.listRV, some err)
          | .ok rows =>
            (t0 ++ [Op.queryRows listReq, Op.callback], iter.listRV,
              (cb { iter with rows := rows }).2))

/-- Embedding of `backend.ListIterator`. -/
def backend.ListIterator (env : Env) (t : List Op) (req : ListRequest) (cb : ListCallback) :
    List Op × Int × Option GoError :=
  match req.Options with
  | none => (t, 0, some (.errorf "missing group or resource"))
  | some opts =>
    if opts.Key.Group = "" ∨ opts.Key.Resource = "" then
      (t, 0, some (.errorf "missing group or resource"))
    else if opts.Key.Namespace = "" ∨ req.ResourceVersion > 0 ∨ req.NextPageToken ≠ "" then
      backend.listAtRevision env t req opts cb
    else backend.listLatest env t req opts cb

/-! ## Change feed -/

/-- A Go map with string keys, as an association list with one entry per key: the
value stored under a key, if any. -/
def goMapGet {β : Type} : List (String × β) → String → Option β
  | [], _ => none
  | (k1, v) :: rest, k => if k1 = k then some v else goMapGet rest k

/-- Assignment `m[k] = v` on a Go map: the entry of `k` is replaced where it
stands, or added. -/
def goMapSet {β : Type} : List (String × β) → String → β → List (String × β)
  | [], k, v => [(k, v)]
  | (k1, v1) :: rest, k, v =>
    if k1 = k then (k, v) :: rest else (k1, v1) :: goMapSet rest k v

/-- The `groupResourceRV` map, `map[string]map[string]int64`: group, then resource,
to version. -/
abbrev groupResourceRV := List (String × List (String × Int))

/-- The lookup of `since[group][resource]` with its presence flag. -/
def groupResourceRV.get (m : groupResourceRV) (group resource : String) : Option Int :=
  (goMapGet m group).bind (fun items => goMapGet items resource)

/-- The assignment `since[group][resource] = rv`, the map of the group being the
stored one, or a fresh one when the group has none. -/
def groupResourceRV.set (m : groupResourceRV) (group resource : String) (rv : Int) :
    groupResourceRV :=
  goMapSet m group (goMapSet ((goMapGet m group).getD []) resource rv)

/-- The (group, resource) pairs that `for group, items := range grv` with
`for resource := range items` inside visits.  Go fixes no order for a `range`
over a map; the order here is that of the entries, which is the order in which
the version list query returned the pairs, and is arbitrary. -/
def groupResourceRV.pairs (m : groupResourceRV) : List (String × String) :=
  m.flatMap (fun entry => entry.2.map (fun item => (entry.1, item.1)))

/-- The value read by `since[group][resource]`: the stored version, or the zero
value when the pair has no entry.  This is the pair's last delivered version. -/
def lastDelivered (since : groupResourceRV) (group resource : String) : Int :=
  (groupResourceRV.get since group resource).getD 0

/-- How a call ends: it returns, or it panics. -/
inductive Outcome (α : Type) where
  | returned (a : α)
  | panic (msg : String)

/-- Embedding of `backend.listLatestRVs`: the version list query in a read-only
transaction, then one map assignment per row, in the order of the rows. -/
def backend.listLatestRVs (env : Env) (t : List Op) : List Op × Except GoError groupResourceRV :=
  match WithTx env t .ReadCommittedRO ([] : List groupResourceVersion) (fun t0 =>
    match env.queryVersionList t0 .sqlResourceVersionList with
    | .ok grvs => (t0 ++ [Op.query .sqlResourceVersionList], grvs, none)
    | .error err => (t0 ++ [Op.query .sqlResourceVersionList], [], some err)) with
  | (t1, _, some err) => (t1, .error err)
  | (t1, grvs, none) =>
    (t1, .ok (grvs.foldl (fun since grv =>
      groupResourceRV.set since grv.Group grv.Resource grv.ResourceVersion) []))

/-- The event `poll` builds from a record whose previous version is `prev`. -/
def historyPollResponse.event (rec : historyPollResponse) (prev : Int) : WrittenEvent :=
  { WriteEvent :=
      { Value := rec.Value,
        Key := { Namespace := rec.Key.Namespace, Group := rec.Key.Group,
                 Resource := rec.Key.Resource, Name := rec.Key.Name },
        Type_ := rec.Action,
        PreviousRV := prev },
    ResourceVersion := rec.ResourceVersion }

/-- The loop of `backend.poll` over the records: a record without group, resource or
name ends the call with an error and the version reached so far; a record whose
`PreviousRV` is nil makes `*prevRV = int64(0)` dereference a nil pointer; any
other record is sent on the stream. -/
def backend.poll.loop (t : List Op) (nextRV : Int) :
    List historyPollResponse → List Op × Outcome (Int × Option GoError)
  | [] => (t, .returned (nextRV, none))
  | rec :: rest =>
    if rec.Key.Group = "" ∨ rec.Key.Resource = "" ∨ rec.Key.Name = "" then
      (t, .returned (nextRV, some (.errorf "missing key in response")))
    else
      match rec.PreviousRV with
      | none => (t, .panic "invalid memory address or nil pointer dereference")
      | some prev =>
        backend.poll.loop (t ++ [Op.send (rec.event prev)]) rec.ResourceVersion rest

/-- Embedding of `backend.poll`: the history poll query for the pair since the given
version, in a read-only transaction, then the loop over the records. -/
def backend.poll (env : Env) (t : List Op) (grp res : String) (since : Int) :
    List Op × Outcome (Int × Option GoError) :=
  match WithTx env t .ReadCommittedRO ([] : List historyPollResponse) (fun t0 =>
    match env.queryPoll t0 (.sqlResourceHistoryPoll res grp since) with
    | .ok records => (t0 ++ [Op.query (.sqlResourceHistoryPoll res grp since)], records, none)
    | .error err => (t0 ++ [Op.query (.sqlResourceHistoryPoll res grp since)], [], some err)) with
  | (t1, _, some err) => (t1, .returned (0, some (.wrap "poll history" err)))
  | (t1, records, none) => backend.poll.loop t1 0 records

/-- The state of the poller goroutine: the log, the `since` map, and whether the
goroutine has panicked. -/
structure pollerState where
  log : List Op
  since : groupResourceRV
  panicked : Bool

/-- The body of the inner loop of `backend.poller` for one (group, resource) pair:
the entries of `since` are created when missing, the pair is polled from
`since[group][resource]`, a failure is logged, and a greater version returned by
the poll is stored. -/
def backend.poller.pollPair (env : Env) (st : pollerState) (pair : String × String) :
    pollerState :=
  if st.panicked then st
  else
    let since1 := if (goMapGet st.since pair.1).isNone then goMapSet st.since pair.1 []
      else st.since
    let since2 := if (groupResourceRV.get since1 pair.1 pair.2).isNone
      then groupResourceRV.set since1 pair.1 pair.2 0 else since1
    match backend.poll env st.log pair.1 pair.2 (lastDelivered since2 pair.1 pair.2) with
    | (t1, .panic _) => { log := t1, since := since2, panicked := true }
    | (t1, .returned (_, some err)) =>
      { log := t1 ++ [Op.logError "polling for resource" err], since := since2,
        panicked := false }
    | (t1, .returned (next, none)) =>
      if next > lastDelivered since2 pair.1 pair.2 then
        { log := t1, since := groupResourceRV.set since2 pair.1 pair.2 next,
          panicked := false }
      else { log := t1, since := since2, panicked := false }

/-- One tick of `backend.poller`: list the latest versions, and poll every listed
pair; a failure of the listing is logged and ends the tick. -/
def backend.poller.tick (env : Env) (st : pollerState) : pollerState :=
  if st.panicked then st
  else
    match backend.listLatestRVs env st.log with
    | (t1, .error err) =>
      { log := t1 ++ [Op.logError "get the latest resource version" err],
        since := st.since, panicked := false }
    | (t1, .ok grv) =>
      (groupResourceRV.pairs grv).foldl (backend.poller.pollPair env)
        { log := t1, since := st.since, panicked := false }

/-- Embedding of `backend.poller` for a run in which the ticker fires `ticks` times
before `b.done` is closed.  The deferred `close(stream)` runs when the loop
returns, and also when a panic unwinds the goroutine. -/
def backend.poller (env : Env) (st : pollerState) : Nat → pollerState
  | 0 => { log := st.log ++ [Op.closeStream], since := st.since, panicked := st.panicked }
  | ticks + 1 =>
    if (backend.poller.tick env st).panicked then
      { log := (backend.poller.tick env st).log ++ [Op.closeStream],
        since := (backend.poller.tick env st).since, panicked := true }
    else backend.poller env (backend.poller.tick env st) ticks

/-- Embedding of `backend.WatchWriteEvents`: the latest versions are listed, and the
poller is started from them; `ticks` is the number of ticks of that poller.  The
state returned with an error is that of a call that started no poller. -/
def backend.WatchWriteEvents (env : Env) (t : List Op) (ticks : Nat) :
    pollerState × Option GoError :=
  match backend.listLatestRVs env t with
  | (t1, .error err) =>
    ({ log := t1, since := [], panicked := false },
      some (.wrap "get the latest resource version" err))
  | (t1, .ok since) =>
    (backend.poller env { log := t1, since := since, panicked := false } ticks, none)

/-! ## API group runner

A shallow embedding of `pkg/services/apiserver/builder/runner/runner.go`.  The app SDK
(`app.Provider`, `app.App`, `resource.Kind`) is outside the source: a provider is
what `Init` reads from it, an app is its name and its managed kinds, a kind is its
group, version and kind name. -/

/-- The `schema.GroupVersion`. -/
structure GroupVersion where
  Group : String
  Version : String
  deriving DecidableEq, Repr

/-- A `resource.Kind`, reduced to its group, version and kind name. -/
structure Kind where
  Group : String
  Version : String
  Kind_ : String
  deriving DecidableEq, Repr

/-- The group-version of a kind (`kind.GroupVersionKind().GroupVersion()`). -/
def Kind.GroupVersion (kind : Kind) : UnifiedSql.GroupVersion :=
  { Group := kind.Group, Version := kind.Version }

/-- An `app.App`: a name that identifies it, and its managed kinds. -/
structure App where
  name : String
  ManagedKinds : List Kind
  deriving DecidableEq, Repr

/-- The runnable of an app (`a.Runner()`), identified by the app. -/
structure Runnable where
  app : String
  deriving DecidableEq, Repr

/-- The runnable `a.Runner()` returns. -/
def App.Runner (a : App) : Runnable := { app := a.name }

/-- The `manifest.Location.Type`: embedded, or another type known by its name. -/
inductive ManifestLocationType where
  | embedded
  | other (name : String)
  deriving DecidableEq, Repr

/-- The `app.Config` handed to `provider.NewApp`. -/
structure AppSDKConfig where
  KubeConfig : String
  ManifestData : String
  SpecificConfig : String
  deriving DecidableEq, Repr

/-- The runner `Config`, reduced to the REST configuration. -/
structure Config where
  RestConfig : String
  deriving DecidableEq, Repr

/-- An `app.Provider`: the location type and the data pointer of its manifest, its
specific configuration, and what `NewApp` answers to a configuration. -/
structure Provider where
  LocationType : ManifestLocationType
  ManifestData : Option String
  SpecificConfig : String
  NewApp : AppSDKConfig → Except GoError App

/-- The `AppBuilder`, reduced to the fields `Init` sets. -/
structure AppBuilder where
  app : App
  gv : GroupVersion
  kinds : List Kind
  deriving DecidableEq, Repr

/-- The `APIGroupRunner`. -/
structure APIGroupRunner where
  providers : List Provider
  builders : List AppBuilder
  apps : List App

/-- Embedding of `NewAPIGroupRunner`. -/
def NewAPIGroupRunner (providers : List Provider) : APIGroupRunner :=
  { providers := providers, builders := [], apps := [] }

/-- The statement `groups[gv] = append(groups[gv], kind)` on the map from
group-version to kinds, an association list with one entry per key. -/
def appendKind : List (GroupVersion × List Kind) → GroupVersion → Kind →
    List (GroupVersion × List Kind)
  | [], gv, kind => [(gv, [kind])]
  | (gv1, kinds) :: rest, gv, kind =>
    if gv1 = gv then (gv1, kinds ++ [kind]) :: rest
    else (gv1, kinds) :: appendKind rest gv kind

/-- The map `groups` that `Init` builds from the managed kinds of an app.  Go fixes no
order for the `range` over it; the order here is that of the first occurrence of
each group-version. -/
def groupKinds (kinds : List Kind) : List (GroupVersion × List Kind) :=
  kinds.foldl (fun groups kind => appendKind groups kind.GroupVersion kind) []

/-- The loop of `APIGroupRunner.Init` over the providers, on the local slices
`builders` and `apps`. -/
def APIGroupRunner.Init.loop (cfg : Config) :
    List Provider → List AppBuilder → List App →
      Outcome (Except GoError (List AppBuilder × List App))
  | [], builders, apps => .returned (.ok (builders, apps))
  | provider :: rest, builders, apps =>
    match provider.LocationType with
    | .other name =>
      .returned (.error (.errorf ("unsupported manifest location type: " ++ name)))
    | .embedded =>
      match provider.ManifestData with
      | none => .panic "invalid memory address or nil pointer dereference"
      | some data =>
        match provider.NewApp { KubeConfig := cfg.RestConfig, ManifestData := data,
                                SpecificConfig := provider.SpecificConfig } with
        | .error err => .returned (.error err)
        | .ok app =>
          APIGroupRunner.Init.loop cfg rest
            (builders ++ (groupKinds app.ManagedKinds).map
              (fun entry => { app := app, gv := entry.1, kinds := entry.2 }))
            (apps ++ [app])

/-- Embedding of `APIGroupRunner.Init`: the loop over the providers, then the
assignment `r.builders = builders`. -/
def APIGroupRunner.Init (r : APIGroupRunner) (cfg : Config) :
    Outcome (APIGroupRunner × Option GoError) :=
  match APIGroupRunner.Init.loop cfg r.providers [] [] with
  | .panic msg => .panic msg
  | .returned (.error err) => .returned (r, some err)
  | .returned (.ok (builders, _)) =>
    .returned ({ providers := r.providers, builders := builders, apps := r.apps }, none)

/-- Embedding of `APIGroupRunner.Run`, as the runnables it adds to the multi-runner
before running it. -/
def APIGroupRunner.Run (r : APIGroupRunner) : List Runnable :=
  r.apps.map (fun a => a.Runner)

/-- Embedding of `APIGroupRunner.GetBuilders`. -/
def APIGroupRunner.GetBuilders (r : APIGroupRunner) : List AppBuilder :=
  r.builders

/-- The playlist kind. -/
def playlistKind : Kind :=
  { Group := "playlist.grafana.app", Version := "v0alpha1", Kind_ := "Playlist" }

/-- The playlist app, which manages the playlist kind. -/
def playlistApp : App := { name := "playlist", ManagedKinds := [playlistKind] }

/-- A provider with an embedded manifest whose `NewApp` returns the playlist app. -/
def playlistProvider : Provider :=
  { LocationType := .embedded, ManifestData := some "playlist-manifest", SpecificConfig := "",
    NewApp := fun _ => .ok playlistApp }

/-- A provider whose manifest is at a file path. -/
def fileProvider : Provider :=
  { LocationType := .other "filepath", ManifestData := none, SpecificConfig := "",
    NewApp := fun _ => .ok playlistApp }

/-! ## Concrete databases used to evaluate the code -/

/-- A database in which every call succeeds and every read of the counter table
returns `row`. -/
def envCounter (row : resourceVersionResponse) : Env where
  uuidNew := fun _ => "guid-1"
  beginTx := fun _ _ => none
  commitTx := fun _ => none
  exec := fun _ _ => none
  queryRowVersion := fun _ _ => .ok row
  queryRowRead := fun _ _ => .error ErrNoRows
  queryRowsShards := fun _ _ => .ok []
  queryRowsList := fun _ _ => .ok []
  queryPoll := fun _ _ => .ok []
  queryVersionList := fun _ _ => .ok []
  tokenString := fun _ => ""
  GetContinueToken := fun _ => .error (.errorf "invalid token")

/-- A database whose locking read of the counter finds no row, whose statements all
succeed, and whose read-only re-read of the counter fails with a driver error. -/
def envRereadFails : Env where
  uuidNew := fun _ => "guid-1"
  beginTx := fun _ _ => none
  commitTx := fun _ => none
  exec := fun _ _ => none
  queryRowVersion := fun _ stmt =>
    match stmt with
    | .sqlResourceVersionGet _ _ _ false => .error ErrNoRows
    | _ => .error (.sentinel "driver: bad connection")
  queryRowRead := fun _ _ => .error ErrNoRows
  queryRowsShards := fun _ _ => .ok []
  queryRowsList := fun _ _ => .ok []
  queryPoll := fun _ _ => .ok []
  queryVersionList := fun _ _ => .ok []
  tokenString := fun _ => ""
  GetContinueToken := fun _ => .error (.errorf "invalid token")

/-- A database like `envCounter ⟨41, 7⟩` except that the shard-locking query of the
synchronization step fails. -/
def envSyncFails : Env :=
  { envCounter ⟨41, 7⟩ with
    queryRowsShards := fun _ _ => .error (.sentinel "driver: bad connection") }

/-- A database in which every call succeeds and every read query returns `row`. -/
def envRead (row : readResponse) : Env :=
  { envCounter ⟨41, 7⟩ with queryRowRead := fun _ _ => .ok row }

/-- A list callback that does not touch the cursor. -/
def cbNone : ListCallback := fun l => (l, none)

/-- A database in which every call succeeds, whose counter reads (among them the
minimum over the shards) return version 9, and a token codec that decodes every
token to version 5 at offset 2. -/
def envTokenMin : Env :=
  { envCounter ⟨9, 0⟩ with
    tokenString := fun _ => "tok"
    GetContinueToken := fun _ => .ok { ResourceVersion := 5, StartOffset := 2 } }

/-- The key `grp/res` with no namespace and no name: a cross-namespace listing. -/
def keyAll : ResourceKey := { Namespace := "", Group := "grp", Resource := "res", Name := "" }

/-- Three history rows of a snapshot. -/
def rowsABC : List (Except ScanFailure ListRow) :=
  [.ok { rv := 3, namespace_ := "ns1", name := "a", value := [1] },
   .ok { rv := 4, namespace_ := "ns2", name := "b", value := [2] },
   .ok { rv := 5, namespace_ := "ns1", name := "c", value := [3] }]

/-- A database seen at two moments.  While the log is short (the first page of a
listing) the minimum version over the shards is 5; later, after further writes, it
is 9.  History list queries return the rows of `rowsABC` from the requested
offset, and the token codec maps version 5 at offset 2 to `tok` and back. -/
def envTwoPages : Env :=
  { envCounter ⟨5, 0⟩ with
    queryRowVersion := fun log _ => if log.length < 4 then .ok ⟨5, 0⟩ else .ok ⟨9, 0⟩
    queryRowsList := fun _ stmt =>
      match stmt with
      | .sqlResourceHistoryList _ _ offset _ => .ok (rowsABC.drop offset.toNat)
      | _ => .ok []
    tokenString := fun _ => "tok"
    GetContinueToken := fun _ => .ok { ResourceVersion := 5, StartOffset := 2 } }

/-- The cursor after `k` calls of `Next`. -/
def listIter.nextTimes : Nat → listIter → listIter
  | 0, l => l
  | k + 1, l => listIter.nextTimes k l.Next.2

/-- A list callback that consumes two rows. -/
def cbTwo : ListCallback := fun l => (listIter.nextTimes 2 l, none)

/-- The key `ns1/grp/res/a`. -/
def keyA : ResourceKey := { Namespace := "ns1", Group := "grp", Resource := "res", Name := "a" }

/-- An ADDED event for `keyA`. -/
def addA : WriteEvent := { Type_ := .ADDED, Key := keyA, Value := [1, 2, 3], PreviousRV := 0 }

/-- A MODIFIED event for `keyA`. -/
def modA : WriteEvent := { Type_ := .MODIFIED, Key := keyA, Value := [4, 5], PreviousRV := 1 }

/-- A DELETED event for `keyA`. -/
def delA : WriteEvent := { Type_ := .DELETED, Key := keyA, Value := [], PreviousRV := 2 }

/-- Two history records of the pair (`grp`, `res`), at versions 5 and 6. -/
def recordsAB : List historyPollResponse :=
  [{ Key := keyA, ResourceVersion := 5, PreviousRV := some 0, Value := [1], Action := .ADDED },
   { Key := keyA, ResourceVersion := 6, PreviousRV := some 5, Value := [2], Action := .MODIFIED }]

/-- A database in which every call succeeds, whose version list holds the pair
(`grp`, `res`) at version 4, and whose history poll returns the records of
`recordsAB` that are newer than the version asked for. -/
def envFeed : Env :=
  { envCounter ⟨4, 0⟩ with
    queryVersionList := fun _ _ => .ok [{ Group := "grp", Resource := "res", ResourceVersion := 4 }]
    queryPoll := fun _ stmt =>
      match stmt with
      | .sqlResourceHistoryPoll resource group since =>
        if group = "grp" ∧ resource = "res" then
          .ok (recordsAB.filter (fun rec => decide (since < rec.ResourceVersion)))
        else .ok []
      | _ => .ok [] }

/-- A database like `envFeed` whose history poll query fails. -/
def envPollFails : Env :=
  { envFeed with queryPoll := fun _ _ => .error (.sentinel "driver: bad connection") }

/-- A poller state on an empty log whose `since` map holds (`grp`, `res`) at
version 4. -/
def stateAt4 : pollerState :=
  { log := [], since := [("grp", [("res", 4)])], panicked := false }

/-- The events of the pair (`g`, `r`) among the log entries are all newer than `v0`:
an entry that sends an event whose key has group `g` and resource `r` sends it
with a resource version above `v0`. -/
def NewerThan (g r : String) (v0 : Int) (op : Op) : Prop :=
  ∀ ev, op = Op.send ev → ev.WriteEvent.Key.Group = g → ev.WriteEvent.Key.Resource = r →
    v0 < ev.ResourceVersion

/-- The invariant of a watch started on log `t1` with the pair (`g`, `r`) listed at
version `v0`: the log has grown from `t1` by entries that send, for this pair, only
events newer than `v0`, and the pair's last delivered version is at least `v0`. -/
def FeedInv (t1 : List Op) (g r : String) (v0 : Int) (st : pollerState) : Prop :=
  (∃ ext, st.log = t1 ++ ext ∧ ∀ op ∈ ext, NewerThan g r v0 op)
  ∧ v0 ≤ lastDelivered st.since g r

/-- What the history poll query is specified to return: for a poll of a pair since a
version, records of that pair with a resource version above it. -/
def PollContract (env : Env) : Prop :=
  ∀ log g r since records,
    env.queryPoll log (.sqlResourceHistoryPoll r g since) = .ok records →
    ∀ rec ∈ records,
      since < rec.ResourceVersion ∧ rec.Key.Group = g ∧ rec.Key.Resource = r

/-- A database like `envFeed` whose history poll returns one record of `keyA` at
version 5 that has no previous resource version. -/
def envNilPrev : Env :=
  { envFeed with
    queryPoll := fun _ _ =>
      .ok [{ Key := keyA, ResourceVersion := 5, PreviousRV := none, Value := [1],
             Action := .ADDED }] }

/-- A database in which every call succeeds and the shard-locking query of the
synchronization step finds the shards 3 and 77. -/
def envShards : Env :=
  { envCounter ⟨41, 7⟩ with queryRowsShards := fun _ _ => .ok [.ok 3, .ok 77] }

/-- A database like `envFeed` whose version list query returns two rows for the pair
(`grp`, `res`): version 9, then version 4. -/
def envDescending : Env :=
  { envFeed with
    queryVersionList := fun _ _ =>
      .ok [{ Group := "grp", Resource := "res", ResourceVersion := 9 },
           { Group := "grp", Resource := "res", ResourceVersion := 4 }] }

/-- The log entries that send an event on the stream. -/
def Op.isSend : Op → Bool
  | .send _ => true
  | _ => false

/-- A history record of (`grp`, `res`) at version 6 whose name is empty. -/
def recordNoName : historyPollResponse :=
  { Key := { Namespace := "ns1", Group := "grp", Resource := "res", Name := "" },
    ResourceVersion := 6, PreviousRV := some 5, Value := [2], Action := .MODIFIED }

/-- The history record of `keyA` at version 5. -/
def recordA5 : historyPollResponse :=
  { Key := keyA, ResourceVersion := 5, PreviousRV := some 0, Value := [1], Action := .ADDED }

/-- The history record of `keyA` at version 7. -/
def recordA7 : historyPollResponse :=
  { Key := keyA, ResourceVersion := 7, PreviousRV := some 6, Value := [3], Action := .MODIFIED }

/-- A database like `envFeed` whose history poll returns, each time, the record at
version 5, then the record without name at version 6, then the record at
version 7. -/
def envBadRecord : Env :=
  { envFeed with queryPoll := fun _ _ => .ok ([recordA5] ++ recordNoName :: [recordA7]) }

/-- The counter a ledger database holds after the statements of a log: the initial
value `init` once a counter row has been inserted, and the last value an update
statement has written since. -/
def storedCounter (init : Int) (log : List Op) : Option Int :=
  log.foldl (fun acc op =>
    match op with
    | .exec (.sqlResourceVersionInsert _ _ _) => some init
    | .exec (.sqlResourceVersionUpdate _ _ _ rv) => some rv
    | _ => acc) none

/-- A database in which every call succeeds and whose counter table remembers what
the log has written to it: a counter read finds no row before the first insert, and
afterwards the stored counter together with the epoch hint `epoch`; a new counter
row starts at `init`. -/
def envLedger (init epoch : Int) : Env :=
  { envCounter ⟨0, 0⟩ with
    queryRowVersion := fun log _ =>
      match storedCounter init log with
      | some v => .ok { ResourceVersion := v, CurrentEpoch := epoch }
      | none => .error ErrNoRows }

/-- The log at which the write of `event` on log `t` issues the locking read of the
counter row: the transaction has begun, the current-state statement of the event
type and the history insert have been issued with the guid of the write, and the
mutex is held. -/
def ledgerReadLog (env : Env) (t : List Op) (event : WriteEvent) : List Op :=
  t ++ [Op.begin .ReadCommitted,
    Op.exec (match event.Type_ with
      | .MODIFIED => .sqlResourceUpdate event (env.uuidNew t)
      | .DELETED => .sqlResourceDelete event (env.uuidNew t)
      | _ => .sqlResourceInsert event (env.uuidNew t)),
    Op.exec (.sqlResourceHistoryInsert event (env.uuidNew t)),
    Op.lock]

/-- The locking read of the counter row of a key, and its read-only form. -/
def ledgerGet (key : ResourceKey) (readOnly : Bool) : Stmt :=
  .sqlResourceVersionGet key.Group key.Resource (computeShard key.Namespace) readOnly

/-- Modelled from the spec: a row of the current-state table, which the source only
reaches through SQL templates that are not part of it: the key, the guid of the
write that last touched the row, the value and the resource version. -/
structure CurrentRow where
  key : ResourceKey
  guid : String
  value : Bytes
  rv : Int
  deriving DecidableEq, Repr

/-- Modelled from the spec: the effect of a statement on the rows of the current-state
table, one row per live key.  The insert puts the row of the key with the guid and
value of the write; the update overwrites guid and value of the row of the key; the
delete removes it; the version stamp sets the version of the row with the guid.
No other statement touches the table. -/
def applyCurrent (rows : List CurrentRow) : Stmt → List CurrentRow
  | .sqlResourceInsert event guid =>
    { key := event.Key, guid := guid, value := event.Value, rv := 0 } ::
      rows.filter (fun row => decide (row.key ≠ event.Key))
  | .sqlResourceUpdate event guid =>
    rows.map (fun row =>
      if row.key = event.Key then
        { key := row.key, guid := guid, value := event.Value, rv := row.rv }
      else row)
  | .sqlResourceDelete event _ => rows.filter (fun row => decide (row.key ≠ event.Key))
  | .sqlResourceUpdateRV guid rv =>
    rows.map (fun row =>
      if row.guid = guid then { key := row.key, guid := row.guid, value := row.value, rv := rv }
      else row)
  | _ => rows

/-- Modelled from the spec: one log entry applied to the committed rows and the rows
the open transaction sees.  A transaction starts from the committed rows, its
statements change what it sees, a commit makes that the committed rows and a
rollback drops it. -/
def tableStep (s : List CurrentRow × List CurrentRow) (op : Op) :
    List CurrentRow × List CurrentRow :=
  match op with
  | .begin _ => (s.1, s.1)
  | .commit => (s.2, s.2)
  | .rollback => (s.1, s.1)
  | .exec stmt => (s.1, applyCurrent s.2 stmt)
  | _ => s

/-- Modelled from the spec: the current-state table after a log, as the committed
rows and the rows seen by the transaction in progress. -/
def currentTable (log : List Op) : List CurrentRow × List CurrentRow :=
  log.foldl tableStep ([], [])

/-- Modelled from the spec: the answer of the current-state read for a key on given
rows: the row of the key, or no row. -/
def readCurrent (rows : List CurrentRow) (key : ResourceKey) : Except GoError readResponse :=
  match rows.find? (fun row => decide (row.key = key)) with
  | some row => .ok { ReadResponse := { Error := none, ResourceVersion := row.rv, Value := row.value } }
  | none => .error ErrNoRows

/-- The log entries that change the rows of the current-state table. -/
def Op.writesCurrent : Op → Bool
  | .exec (.sqlResourceInsert _ _) | .exec (.sqlResourceUpdate _ _)
  | .exec (.sqlResourceDelete _ _) | .exec (.sqlResourceUpdateRV _ _) => true
  | _ => false

/-- The log entries that begin or end a transaction. -/
def Op.isTxBoundary : Op → Bool
  | .begin _ | .commit | .rollback => true
  | _ => false

/-- A database in which every call succeeds and whose current-state reads answer from
the current-state table after the log. -/
def envTables : Env :=
  { envCounter ⟨41, 7⟩ with
    queryRowRead := fun log stmt =>
      match stmt with
      | .sqlResourceRead req => readCurrent (currentTable log).2 req.Key
      | _ => .error ErrNoRows }

/-- The history record of `keyA` at version 9. -/
def recordA9 : historyPollResponse :=
  { Key := keyA, ResourceVersion := 9, PreviousRV := some 5, Value := [4], Action := .MODIFIED }

/-- A database like `envFeed` whose history poll returns the record at version 9 and
then the record at version 5. -/
def envOutOfOrder : Env :=
  { envFeed with queryPoll := fun _ _ => .ok ([recordA9] ++ [recordA5]) }

/-- The history record of `keyA` at version 6, the second record of `recordsAB`. -/
def recordA6 : historyPollResponse :=
  { Key := keyA, ResourceVersion := 6, PreviousRV := some 5, Value := [2], Action := .MODIFIED }

/-- A database like `envFeed` whose history poll returns no record. -/
def envNoRecords : Env :=
  { envFeed with queryPoll := fun _ _ => .ok [] }

/-- A poller state on an empty log whose `since` map holds (`grp`, `res`) at
version -5. -/
def stateBelowZero : pollerState :=
  { log := [], since := [("grp", [("res", -5)])], panicked := false }

/-- The history record of the object `b` of (`grp`, `res2`) at version 5. -/
def recordB5 : historyPollResponse :=
  { Key := { Namespace := "ns1", Group := "grp", Resource := "res2", Name := "b" },
    ResourceVersion := 5, PreviousRV := some 0, Value := [7], Action := .ADDED }

/-- A database in which every call succeeds but the history poll of (`grp`, `res`):
the version list holds (`grp`, `res`) and then (`grp`, `res2`), both at version 4;
the history poll of `res` fails, and that of any other resource returns the record
of `res2` at version 5. -/
def envOneFails : Env :=
  { envFeed with
    queryVersionList := fun _ _ =>
      .ok [{ Group := "grp", Resource := "res", ResourceVersion := 4 },
           { Group := "grp", Resource := "res2", ResourceVersion := 4 }]
    queryPoll := fun _ stmt =>
      match stmt with
      | .sqlResourceHistoryPoll resource _ _ =>
        if resource = "res" then .error (.sentinel "driver: bad connection")
        else .ok [recordB5]
      | _ => .ok [] }

/-- A poller state on an empty log whose `since` map holds (`grp`, `res`) and
(`grp`, `res2`), both at version 4. -/
def stateTwoPairs : pollerState :=
  { log := [], since := [("grp", [("res", 4), ("res2", 4)])], panicked := false }

/-- The log entries that stamp a version on the current-state table. -/
def Op.isCurrentStamp : Op → Bool
  | .exec (.sqlResourceUpdateRV _ _) => true
  | _ => false

/-- The shape of the log of a write on log `t` whose current-state statement is `m`:
the transaction begins, `m` and the history insert are issued with `guid`, the
version increment then runs and yields `rv`, and the next statement is the history
version stamp for `guid` with `rv`. -/
def StampedWrite (env : Env) (t : List Op) (event : WriteEvent) (guid : String) (m : Stmt)
    (final : List Op) (rv : Int) : Prop :=
  ∃ tinc rest,
    resourceVersionAtomicInc env
        (t ++ [Op.begin .ReadCommitted, Op.exec m,
          Op.exec (.sqlResourceHistoryInsert event guid)]) event.Key = (tinc, rv, none)
    ∧ final = tinc ++ Op.exec (.sqlResourceHistoryUpdateRV guid rv) :: rest

/-- The log of the first page of the cross-namespace listing on `envTwoPages`. -/
def logFirstPage : List Op :=
  [Op.begin .ReadCommittedRO,
   Op.queryRow (.sqlResourceVersionMin "grp" "res"),
   Op.commit,
   Op.begin .ReadCommittedRO,
   Op.queryRows (.sqlResourceHistoryList 5 0 0 ⟨keyAll⟩),
   Op.callback,
   Op.commit]

/-! ## Version ledger: the existing-row path -/

theorem wrap64_succ (r : Int) (h0 : 0 < r) (h1 : r < maxInt64) : wrap64 (r + 1) = r + 1 := by
  unfold wrap64
  unfold maxInt64 at h1
  have h : (r + 1 + 2 ^ 63) % 2 ^ 64 = r + 1 + 2 ^ 63 := by
    apply Int.emod_eq_of_lt <;> omega
  omega

theorem atomicInc_existing (env : Env) (t : List Op) (key : ResourceKey) (r e : Int)
    (hread : env.queryRowVersion (t ++ [Op.lock])
      (Stmt.sqlResourceVersionGet key.Group key.Resource (computeShard key.Namespace) false)
        = .ok { ResourceVersion := r, CurrentEpoch := e })
    (hr : r ≠ 0)
    (hupd : env.exec
      (t ++ [Op.lock, Op.queryRow (Stmt.sqlResourceVersionGet key.Group key.Resource
        (computeShard key.Namespace) false), Op.unlock, Op.sleep])
      (Stmt.sqlResourceVersionUpdate key.Group key.Resource (computeShard key.Namespace)
        (max e (wrap64 (r + 1)))) = none) :
    resourceVersionAtomicInc env t key =
      (t ++ [Op.lock, Op.queryRow (Stmt.sqlResourceVersionGet key.Group key.Resource
          (computeShard key.Namespace) false), Op.unlock, Op.sleep,
          Op.exec (Stmt.sqlResourceVersionUpdate key.Group key.Resource
            (computeShard key.Namespace) (max e (wrap64 (r + 1))))],
        max e (wrap64 (r + 1)), none) := by
  simp [resourceVersionAtomicInc, hread, hr, hupd]

theorem atomicInc_existing_version (env : Env) (t : List Op) (key : ResourceKey) (r e : Int)
    (hread : env.queryRowVersion (t ++ [Op.lock])
      (Stmt.sqlResourceVersionGet key.Group key.Resource (computeShard key.Namespace) false)
        = .ok { ResourceVersion := r, CurrentEpoch := e })
    (hr : r ≠ 0)
    (hok : (resourceVersionAtomicInc env t key).2.2 = none) :
    (resourceVersionAtomicInc env t key).2.1 = max e (wrap64 (r + 1)) := by
  simp only [resourceVersionAtomicInc, hread, hr, if_false] at hok ⊢
  split at hok <;> simp_all

/-- C1 (as amended): on the existing-row path, with a stored version `r > 0` below the
largest `int64`, a successful `resourceVersionAtomicInc` returns a version strictly
greater than `r`, whatever the epoch hint. -/
theorem atomicInc_strictly_increases (env : Env) (t : List Op) (key : ResourceKey) (r e : Int)
    (hread : env.queryRowVersion (t ++ [Op.lock])
      (Stmt.sqlResourceVersionGet key.Group key.Resource (computeShard key.Namespace) false)
        = .ok { ResourceVersion := r, CurrentEpoch := e })
    (hr : 0 < r) (hmax : r < maxInt64)
    (hok : (resourceVersionAtomicInc env t key).2.2 = none) :
    r < (resourceVersionAtomicInc env t key).2.1 := by
  rw [atomicInc_existing_version env t key r e hread (by omega) hok, wrap64_succ r hr hmax]
  have := le_max_right e (r + 1)
  omega

/-- Witness for C1: a counter row at version 41 with epoch hint 7 yields 42. -/
theorem atomicInc_strictly_increases_witness :
    (41 : Int) < (resourceVersionAtomicInc (envCounter ⟨41, 7⟩) [] keyA).2.1 :=
  atomicInc_strictly_increases (envCounter ⟨41, 7⟩) [] keyA 41 7 rfl (by decide)
    (by decide) rfl

/-- Counterexample to C1 as stated: with the stored version at the largest `int64`
and an epoch hint of 1700000000000000, the existing-row path succeeds and returns
the epoch hint, which is not greater than the stored version. -/
theorem atomicInc_at_maxInt64_not_increasing :
    (envCounter ⟨maxInt64, 1700000000000000⟩).queryRowVersion [Op.lock]
        (Stmt.sqlResourceVersionGet keyA.Group keyA.Resource (computeShard keyA.Namespace) false)
      = .ok { ResourceVersion := maxInt64, CurrentEpoch := 1700000000000000 }
    ∧ isInt64 maxInt64 ∧ 0 < maxInt64
    ∧ (resourceVersionAtomicInc (envCounter ⟨maxInt64, 1700000000000000⟩) [] keyA).2
        = (1700000000000000, none)
    ∧ ¬ (maxInt64 <
        (resourceVersionAtomicInc (envCounter ⟨maxInt64, 1700000000000000⟩) [] keyA).2.1) := by
  refine ⟨rfl, by decide, by decide, ?_, ?_⟩
  · simp [resourceVersionAtomicInc, envCounter, maxInt64, wrap64]
  · simp [resourceVersionAtomicInc, envCounter, maxInt64, wrap64]

/-- C2 (as amended): when the locking read finds a row with version `r > 0` and epoch
hint `e` and the call succeeds, the call returns `max(e, r+1)` with `r+1` computed in
`int64`, the last statement issued is the counter update for (group, resource, shard)
carrying that same value, and when `r` is below the largest `int64` the result is
`max e (r + 1)`, which is `r + 1` when `e ≤ r`. -/
theorem atomicInc_returns_max (env : Env) (t : List Op) (key : ResourceKey) (r e : Int)
    (hread : env.queryRowVersion (t ++ [Op.lock])
      (Stmt.sqlResourceVersionGet key.Group key.Resource (computeShard key.Namespace) false)
        = .ok { ResourceVersion := r, CurrentEpoch := e })
    (hr : 0 < r)
    (hok : (resourceVersionAtomicInc env t key).2.2 = none) :
    resourceVersionAtomicInc env t key =
      (t ++ [Op.lock, Op.queryRow (Stmt.sqlResourceVersionGet key.Group key.Resource
          (computeShard key.Namespace) false), Op.unlock, Op.sleep,
          Op.exec (Stmt.sqlResourceVersionUpdate key.Group key.Resource
            (computeShard key.Namespace) (max e (wrap64 (r + 1))))],
        max e (wrap64 (r + 1)), none)
    ∧ (r < maxInt64 → (resourceVersionAtomicInc env t key).2.1 = max e (r + 1))
    ∧ (r < maxInt64 → e ≤ r → (resourceVersionAtomicInc env t key).2.1 = r + 1) := by
  have hr0 : r ≠ 0 := by omega
  have hv := atomicInc_existing_version env t key r e hread hr0 hok
  refine ⟨?_, ?_, ?_⟩
  · apply atomicInc_existing env t key r e hread hr0
    simp only [resourceVersionAtomicInc, hread, hr0, if_false] at hok
    split at hok
    · simp at hok
    · rename_i heq
      simpa using heq
  · intro hmax
    rw [hv, wrap64_succ r hr hmax]
  · intro hmax hle
    rw [hv, wrap64_succ r hr hmax]
    exact max_eq_right (by omega)

/-- Witness for C2: a counter row at version 9 with epoch hint 3 yields 10. -/
theorem atomicInc_returns_max_witness :
    (resourceVersionAtomicInc (envCounter ⟨9, 3⟩) [] keyA).2.1 = 9 + 1 :=
  (atomicInc_returns_max (envCounter ⟨9, 3⟩) [] keyA 9 3 rfl (by decide) rfl).2.2
    (by decide) (by decide)

/-- Counterexample to C2 as stated: with the stored version `r` at the largest `int64`
and an epoch hint `e = 5 ≤ r`, the call succeeds and returns 5, which is neither
`r + 1` nor its `int64` wrap-around. -/
theorem atomicInc_at_maxInt64_not_successor :
    (envCounter ⟨maxInt64, 5⟩).queryRowVersion [Op.lock]
        (Stmt.sqlResourceVersionGet keyA.Group keyA.Resource (computeShard keyA.Namespace) false)
      = .ok { ResourceVersion := maxInt64, CurrentEpoch := 5 }
    ∧ (0 : Int) < maxInt64 ∧ (5 : Int) ≤ maxInt64
    ∧ (resourceVersionAtomicInc (envCounter ⟨maxInt64, 5⟩) [] keyA).2 = (5, none)
    ∧ (resourceVersionAtomicInc (envCounter ⟨maxInt64, 5⟩) [] keyA).2.1 ≠ maxInt64 + 1
    ∧ (resourceVersionAtomicInc (envCounter ⟨maxInt64, 5⟩) [] keyA).2.1
        ≠ wrap64 (maxInt64 + 1) := by
  refine ⟨rfl, by decide, by decide, ?_, ?_, ?_⟩ <;>
    simp [resourceVersionAtomicInc, envCounter, maxInt64, wrap64]

/-! ## Write pipeline: dispatch -/

/-- C3: a write event whose type is none of ADDED, MODIFIED, DELETED is answered with
version 0 and an error, and the log is left as it was: no transaction is begun, no
statement is issued, and the shard synchronization (whose first step begins a
transaction) is not run. -/
theorem writeEvent_unsupported_type (env : Env) (t : List Op) (event : WriteEvent)
    (hA : event.Type_ ≠ .ADDED) (hM : event.Type_ ≠ .MODIFIED) (hD : event.Type_ ≠ .DELETED) :
    (backend.WriteEvent env t event).1 = t
    ∧ (backend.WriteEvent env t event).2.1 = 0
    ∧ (backend.WriteEvent env t event).2.2 = some (.errorf "unsupported event type")
    ∧ (backend.WriteEvent env t event).2.2 ≠ none := by
  unfold backend.WriteEvent
  cases hty : event.Type_ with
  | ADDED => exact absurd hty hA
  | MODIFIED => exact absurd hty hM
  | DELETED => exact absurd hty hD
  | other tag => simp

/-- Witness for C3: an event tagged 4 (a bookmark) on an empty log. -/
theorem writeEvent_unsupported_type_witness :
    (backend.WriteEvent (envCounter ⟨1, 1⟩) []
      { Type_ := .other 4, Key := keyA, Value := [], PreviousRV := 0 }).1 = [] :=
  (writeEvent_unsupported_type (envCounter ⟨1, 1⟩) []
    { Type_ := .other 4, Key := keyA, Value := [], PreviousRV := 0 }
    (by decide) (by decide) (by decide)).1

/-! ## Write pipeline: what a successful write has done -/

theorem WithTx_ok {α : Type} (env : Env) (t : List Op) (iso : Isolation) (c : α)
    (f : List Op → List Op × α × Option GoError)
    (h : (WithTx env t iso c f).2.2 = none) :
    env.beginTx t iso = none ∧ (f (t ++ [Op.begin iso])).2.2 = none
    ∧ WithTx env t iso c f =
        ((f (t ++ [Op.begin iso])).1 ++ [Op.commit], (f (t ++ [Op.begin iso])).2.1, none) := by
  unfold WithTx at h ⊢
  cases hb : env.beginTx t iso with
  | some e => simp [hb] at h
  | none =>
    rcases hf : f (t ++ [Op.begin iso]) with ⟨t1, a, r⟩
    cases r with
    | some e => simp [hb, hf] at h
    | none =>
      simp only [hb, hf] at h ⊢
      simp [h]

theorem create_ok (env : Env) (t : List Op) (event : WriteEvent)
    (h : (backend.create env t event).2.2 = none) :
    ∃ tinc, resourceVersionAtomicInc env
        (t ++ [Op.begin .ReadCommitted, Op.exec (.sqlResourceInsert event (env.uuidNew t)),
          Op.exec (.sqlResourceHistoryInsert event (env.uuidNew t))]) event.Key
        = (tinc, (backend.create env t event).2.1, none)
      ∧ backend.create env t event =
          (tinc ++ [Op.exec (.sqlResourceHistoryUpdateRV (env.uuidNew t)
                      (backend.create env t event).2.1),
                    Op.exec (.sqlResourceUpdateRV (env.uuidNew t)
                      (backend.create env t event).2.1), Op.commit],
            (backend.create env t event).2.1, none) := by
  unfold backend.create at h ⊢
  obtain ⟨-, hf, heq⟩ := WithTx_ok _ _ _ _ _ h
  rw [heq]
  clear h heq
  simp only at hf ⊢
  split at hf
  · simp at hf
  · split at hf
    · simp at hf
    · split at hf
      · simp at hf
      · rename_i t1 rv hinc
        simp only [List.append_assoc, List.singleton_append, List.cons_append,
          List.nil_append] at hinc hf ⊢
        split at hf
        · simp at hf
        · split at hf
          · simp at hf
          · rename_i h1 h2
            refine ⟨t1, ?_, ?_⟩ <;> simp_all

theorem update_ok (env : Env) (t : List Op) (event : WriteEvent)
    (h : (backend.update env t event).2.2 = none) :
    ∃ tinc, resourceVersionAtomicInc env
        (t ++ [Op.begin .ReadCommitted, Op.exec (.sqlResourceUpdate event (env.uuidNew t)),
          Op.exec (.sqlResourceHistoryInsert event (env.uuidNew t))]) event.Key
        = (tinc, (backend.update env t event).2.1, none)
      ∧ backend.update env t event =
          (tinc ++ [Op.exec (.sqlResourceHistoryUpdateRV (env.uuidNew t)
                      (backend.update env t event).2.1),
                    Op.exec (.sqlResourceUpdateRV (env.uuidNew t)
                      (backend.update env t event).2.1), Op.commit],
            (backend.update env t event).2.1, none) := by
  unfold backend.update at h ⊢
  obtain ⟨-, hf, heq⟩ := WithTx_ok _ _ _ _ _ h
  rw [heq]
  clear h heq
  simp only at hf ⊢
  split at hf
  · simp at hf
  · split at hf
    · simp at hf
    · split at hf
      · simp at hf
      · rename_i t1 rv hinc
        simp only [List.append_assoc, List.singleton_append, List.cons_append,
          List.nil_append] at hinc hf ⊢
        split at hf
        · simp at hf
        · split at hf
          · simp at hf
          · rename_i h1 h2
            refine ⟨t1, ?_, ?_⟩ <;> simp_all

theorem delete_ok (env : Env) (t : List Op) (event : WriteEvent)
    (h : (backend.delete env t event).2.2 = none) :
    ∃ tinc, resourceVersionAtomicInc env
        (t ++ [Op.begin .ReadCommitted, Op.exec (.sqlResourceDelete event (env.uuidNew t)),
          Op.exec (.sqlResourceHistoryInsert event (env.uuidNew t))]) event.Key
        = (tinc, (backend.delete env t event).2.1, none)
      ∧ backend.delete env t event =
          (tinc ++ [Op.exec (.sqlResourceHistoryUpdateRV (env.uuidNew t)
                      (backend.delete env t event).2.1), Op.commit],
            (backend.delete env t event).2.1, none) := by
  unfold backend.delete at h ⊢
  obtain ⟨-, hf, heq⟩ := WithTx_ok _ _ _ _ _ h
  rw [heq]
  clear h heq
  simp only at hf ⊢
  split at hf
  · simp at hf
  · split at hf
    · simp at hf
    · split at hf
      · simp at hf
      · rename_i t1 rv hinc
        simp only [List.append_assoc, List.singleton_append, List.cons_append,
          List.nil_append] at hinc hf ⊢
        split at hf
        · simp at hf
        · rename_i h1
          refine ⟨t1, ?_, ?_⟩ <;> simp_all

theorem atomicInc_log (env : Env) (t : List Op) (key : ResourceKey) :
    ∃ ext, (resourceVersionAtomicInc env t key).1 = t ++ ext
      ∧ ext.any Op.isCurrentStamp = false := by
  unfold resourceVersionAtomicInc
  simp only
  repeat' split
  all_goals
    simp only [List.append_assoc]
    exact ⟨_, rfl, by simp [Op.isCurrentStamp]⟩

theorem WithTx_log {α : Type} (env : Env) (t : List Op) (iso : Isolation) (c : α)
    (f : List Op → List Op × α × Option GoError) (p : Op → Bool)
    (hf : ∃ ext, (f (t ++ [Op.begin iso])).1 = t ++ [Op.begin iso] ++ ext ∧ ext.any p = false)
    (hc : p Op.commit = false) (hr : p Op.rollback = false) :
    ∃ ext, (WithTx env t iso c f).1 = t ++ Op.begin iso :: ext ∧ ext.any p = false := by
  obtain ⟨ext, h1, h2⟩ := hf
  unfold WithTx
  cases env.beginTx t iso with
  | some e => exact ⟨[], by simp, by simp⟩
  | none =>
    rcases hfv : f (t ++ [Op.begin iso]) with ⟨t1, a, r⟩
    rw [hfv] at h1
    simp only at h1
    cases r with
    | some e => exact ⟨ext ++ [Op.rollback], by simp [h1], by simp [h2, hr]⟩
    | none => exact ⟨ext ++ [Op.commit], by simp [h1], by simp [h2, hc]⟩

theorem IncreaseRVs_log (env : Env) (t : List Op) (resource group : String) (shard : Nat)
    (rv : Int) :
    ∃ ext, (backend.IncreaseRVs env t resource group shard rv).1
        = t ++ Op.begin .ReadCommitted :: ext
      ∧ ext.any Op.isCurrentStamp = false := by
  unfold backend.IncreaseRVs
  simp only
  apply WithTx_log
  · repeat' split
    all_goals
      simp only [List.append_assoc]
      exact ⟨_, rfl, by simp [Op.isCurrentStamp]⟩
  · rfl
  · rfl

theorem writeEvent_unfold (env : Env) (event : WriteEvent) (w : List Op × Int × Option GoError) :
    (match w with
      | (t1, rv, some err) => (t1, rv, some err)
      | (t1, rv, none) =>
        match backend.IncreaseRVs env t1 event.Key.Resource event.Key.Group
            (computeShard event.Key.Namespace) rv with
        | (t2, some err) =>
          (t2 ++ [Op.logError "failed to increase resource version" err], rv, none)
        | (t2, none) => (t2, rv, none))
      = (if w.2.2 = none then
          (backend.IncreaseRVs env w.1 event.Key.Resource event.Key.Group
              (computeShard event.Key.Namespace) w.2.1).1 ++
            (match (backend.IncreaseRVs env w.1 event.Key.Resource event.Key.Group
                (computeShard event.Key.Namespace) w.2.1).2 with
              | some err => [Op.logError "failed to increase resource version" err]
              | none => [])
         else w.1, w.2.1, w.2.2) := by
  rcases w with ⟨t1, rv, _ | err⟩
  · simp only [if_true]
    rcases backend.IncreaseRVs env t1 event.Key.Resource event.Key.Group
        (computeShard event.Key.Namespace) rv with ⟨t2, _ | e⟩ <;> simp
  · simp

/-! ## Write pipeline: claims -/

/-- C4 (failing input): an ADDED write on a shard without counter row, where the
insert of the counter row succeeds and the read-only re-read fails with the driver
error `driver: bad connection`.  No later statement is issued (the log ends with
the re-read, the mutex release and the rollback), but the error handed to the
caller is `increment resource version: fetching RV after read`, which does not wrap
the driver error: `errors.Is` is false. -/
theorem create_reread_failure_hides_cause :
    backend.WriteEvent envRereadFails [] addA =
      ([Op.begin .ReadCommitted,
        Op.exec (.sqlResourceInsert addA "guid-1"),
        Op.exec (.sqlResourceHistoryInsert addA "guid-1"),
        Op.lock,
        Op.queryRow (.sqlResourceVersionGet "grp" "res" 77 false),
        Op.exec (.sqlResourceVersionInsert "grp" "res" 77),
        Op.queryRow (.sqlResourceVersionGet "grp" "res" 77 true),
        Op.unlock,
        Op.rollback],
       0, some (.wrap "increment resource version" (.errorf "fetching RV after read")))
    ∧ envRereadFails.queryRowVersion
        [Op.begin .ReadCommitted,
          Op.exec (.sqlResourceInsert addA "guid-1"),
          Op.exec (.sqlResourceHistoryInsert addA "guid-1"),
          Op.lock,
          Op.queryRow (.sqlResourceVersionGet "grp" "res" 77 false),
          Op.exec (.sqlResourceVersionInsert "grp" "res" 77)]
        (.sqlResourceVersionGet "grp" "res" 77 true)
        = .error (.sentinel "driver: bad connection")
    ∧ errorsIs (.wrap "increment resource version" (.errorf "fetching RV after read"))
        (.sentinel "driver: bad connection") = false :=
  ⟨by decide, rfl, by decide⟩

/-- C5: a successful write of a supported type returns the version that
`resourceVersionAtomicInc` produced inside the same transaction, right after the
current-state statement and the history insert, both issued with the guid drawn for
this write; and the statement that follows the increment is the history version
stamp carrying that guid and that version. -/
theorem write_returns_ledger_version (env : Env) (t : List Op) (event : WriteEvent)
    (hok : (backend.WriteEvent env t event).2.2 = none) :
    (event.Type_ = .ADDED →
      StampedWrite env t event (env.uuidNew t) (.sqlResourceInsert event (env.uuidNew t))
        (backend.WriteEvent env t event).1 (backend.WriteEvent env t event).2.1)
    ∧ (event.Type_ = .MODIFIED →
      StampedWrite env t event (env.uuidNew t) (.sqlResourceUpdate event (env.uuidNew t))
        (backend.WriteEvent env t event).1 (backend.WriteEvent env t event).2.1)
    ∧ (event.Type_ = .DELETED →
      StampedWrite env t event (env.uuidNew t) (.sqlResourceDelete event (env.uuidNew t))
        (backend.WriteEvent env t event).1 (backend.WriteEvent env t event).2.1) := by
  unfold backend.WriteEvent at hok ⊢
  simp only [writeEvent_unfold] at hok ⊢
  refine ⟨?_, ?_, ?_⟩ <;> intro hty <;> rw [hty] at hok ⊢ <;> simp only at hok ⊢
  · obtain ⟨tinc, hinc, heq⟩ := create_ok env t event hok
    obtain ⟨ext, hext, -⟩ := IncreaseRVs_log env (backend.create env t event).1
      event.Key.Resource event.Key.Group (computeShard event.Key.Namespace)
      (backend.create env t event).2.1
    rw [if_pos hok, hext, congrArg Prod.fst heq]
    exact ⟨tinc, _, hinc,
      by simp only [List.append_assoc, List.cons_append, List.nil_append]; rfl⟩
  · obtain ⟨tinc, hinc, heq⟩ := update_ok env t event hok
    obtain ⟨ext, hext, -⟩ := IncreaseRVs_log env (backend.update env t event).1
      event.Key.Resource event.Key.Group (computeShard event.Key.Namespace)
      (backend.update env t event).2.1
    rw [if_pos hok, hext, congrArg Prod.fst heq]
    exact ⟨tinc, _, hinc,
      by simp only [List.append_assoc, List.cons_append, List.nil_append]; rfl⟩
  · obtain ⟨tinc, hinc, heq⟩ := delete_ok env t event hok
    obtain ⟨ext, hext, -⟩ := IncreaseRVs_log env (backend.delete env t event).1
      event.Key.Resource event.Key.Group (computeShard event.Key.Namespace)
      (backend.delete env t event).2.1
    rw [if_pos hok, hext, congrArg Prod.fst heq]
    exact ⟨tinc, _, hinc,
      by simp only [List.append_assoc, List.cons_append, List.nil_append]; rfl⟩

/-- Witness for C5: the ADDED event `addA` on a database whose counter row is at
version 41. -/
theorem write_returns_ledger_version_witness :
    StampedWrite (envCounter ⟨41, 7⟩) [] addA "guid-1" (.sqlResourceInsert addA "guid-1")
      (backend.WriteEvent (envCounter ⟨41, 7⟩) [] addA).1 42 :=
  (write_returns_ledger_version (envCounter ⟨41, 7⟩) [] addA (by decide)).1 rfl

/-- Counterexample to C6 as stated: the DELETED event `delA`, on a database where
every call succeeds and the counter row is at version 2, is written successfully
with version 3, and its log holds the history version stamp but no version stamp on
the current-state table. -/
theorem delete_issues_no_current_stamp :
    backend.WriteEvent (envCounter ⟨2, 1⟩) [] delA =
      ([Op.begin .ReadCommitted,
        Op.exec (.sqlResourceDelete delA "guid-1"),
        Op.exec (.sqlResourceHistoryInsert delA "guid-1"),
        Op.lock,
        Op.queryRow (.sqlResourceVersionGet "grp" "res" 77 false),
        Op.unlock,
        Op.sleep,
        Op.exec (.sqlResourceVersionUpdate "grp" "res" 77 3),
        Op.exec (.sqlResourceHistoryUpdateRV "guid-1" 3),
        Op.commit,
        Op.begin .ReadCommitted,
        Op.queryRows (.sqlResourceVersionLockShards "res" "grp"),
        Op.commit], 3, none)
    ∧ (backend.WriteEvent (envCounter ⟨2, 1⟩) [] delA).1.any Op.isCurrentStamp = false := by
  decide

/-- C6 (as amended): a successful write of type ADDED or MODIFIED issues, among the
statements it adds to the log, the version stamp on the history table followed by
the version stamp on the current-state table, both for this write's guid and with
the version it returns; a successful write of type DELETED issues the history
version stamp with the version it returns, and adds no version stamp on the
current-state table. -/
theorem write_stamps_by_type (env : Env) (t : List Op) (event : WriteEvent)
    (hok : (backend.WriteEvent env t event).2.2 = none) :
    (event.Type_ = .ADDED ∨ event.Type_ = .MODIFIED →
      ∃ mid post, (backend.WriteEvent env t event).1 =
        t ++ mid ++
          [Op.exec (.sqlResourceHistoryUpdateRV (env.uuidNew t)
              (backend.WriteEvent env t event).2.1),
           Op.exec (.sqlResourceUpdateRV (env.uuidNew t)
              (backend.WriteEvent env t event).2.1)] ++ post)
    ∧ (event.Type_ = .DELETED →
      ∃ mid post, (backend.WriteEvent env t event).1 =
        t ++ mid ++
          [Op.exec (.sqlResourceHistoryUpdateRV (env.uuidNew t)
              (backend.WriteEvent env t event).2.1)] ++ post
        ∧ mid.any Op.isCurrentStamp = false ∧ post.any Op.isCurrentStamp = false) := by
  unfold backend.WriteEvent at hok ⊢
  simp only [writeEvent_unfold] at hok ⊢
  refine ⟨?_, ?_⟩
  · rintro (hty | hty) <;> rw [hty] at hok ⊢ <;> simp only at hok ⊢
    · obtain ⟨tinc, hinc, heq⟩ := create_ok env t event hok
      obtain ⟨ext, hext, -⟩ := IncreaseRVs_log env (backend.create env t event).1
        event.Key.Resource event.Key.Group (computeShard event.Key.Namespace)
        (backend.create env t event).2.1
      obtain ⟨inc, hinc1, -⟩ := atomicInc_log env
        (t ++ [Op.begin .ReadCommitted, Op.exec (.sqlResourceInsert event (env.uuidNew t)),
          Op.exec (.sqlResourceHistoryInsert event (env.uuidNew t))]) event.Key
      rw [hinc] at hinc1
      simp only at hinc1
      rw [if_pos hok, hext, congrArg Prod.fst heq, hinc1]
      exact ⟨[Op.begin .ReadCommitted, Op.exec (.sqlResourceInsert event (env.uuidNew t)),
          Op.exec (.sqlResourceHistoryInsert event (env.uuidNew t))] ++ inc, _,
        by simp only [List.append_assoc, List.cons_append, List.nil_append]; rfl⟩
    · obtain ⟨tinc, hinc, heq⟩ := update_ok env t event hok
      obtain ⟨ext, hext, -⟩ := IncreaseRVs_log env (backend.update env t event).1
        event.Key.Resource event.Key.Group (computeShard event.Key.Namespace)
        (backend.update env t event).2.1
      obtain ⟨inc, hinc1, -⟩ := atomicInc_log env
        (t ++ [Op.begin .ReadCommitted, Op.exec (.sqlResourceUpdate event (env.uuidNew t)),
          Op.exec (.sqlResourceHistoryInsert event (env.uuidNew t))]) event.Key
      rw [hinc] at hinc1
      simp only at hinc1
      rw [if_pos hok, hext, congrArg Prod.fst heq, hinc1]
      exact ⟨[Op.begin .ReadCommitted, Op.exec (.sqlResourceUpdate event (env.uuidNew t)),
          Op.exec (.sqlResourceHistoryInsert event (env.uuidNew t))] ++ inc, _,
        by simp only [List.append_assoc, List.cons_append, List.nil_append]; rfl⟩
  · intro hty
    rw [hty] at hok ⊢
    simp only at hok ⊢
    obtain ⟨tinc, hinc, heq⟩ := delete_ok env t event hok
    obtain ⟨ext, hext, hext2⟩ := IncreaseRVs_log env (backend.delete env t event).1
      event.Key.Resource event.Key.Group (computeShard event.Key.Namespace)
      (backend.delete env t event).2.1
    obtain ⟨inc, hinc1, hinc2⟩ := atomicInc_log env
      (t ++ [Op.begin .ReadCommitted, Op.exec (.sqlResourceDelete event (env.uuidNew t)),
        Op.exec (.sqlResourceHistoryInsert event (env.uuidNew t))]) event.Key
    rw [hinc] at hinc1
    simp only at hinc1
    have hlog : (backend.delete env t event).1 =
        tinc ++ [Op.exec (.sqlResourceHistoryUpdateRV (env.uuidNew t)
          (backend.delete env t event).2.1), Op.commit] := congrArg Prod.fst heq
    rw [if_pos hok, hext]
    generalize (backend.IncreaseRVs env (backend.delete env t event).1 event.Key.Resource
      event.Key.Group (computeShard event.Key.Namespace)
      (backend.delete env t event).2.1).2 = sync
    rw [hlog, hinc1]
    refine ⟨[Op.begin .ReadCommitted, Op.exec (.sqlResourceDelete event (env.uuidNew t)),
        Op.exec (.sqlResourceHistoryInsert event (env.uuidNew t))] ++ inc,
      Op.commit :: Op.begin .ReadCommitted :: ext ++
        (match sync with
          | some err => [Op.logError "failed to increase resource version" err]
          | none => []), ?_, ?_, ?_⟩
    · simp only [List.append_assoc, List.cons_append, List.nil_append]
    · simp [hinc2, Op.isCurrentStamp]
    · cases sync <;> simp [hext2, Op.isCurrentStamp]

/-- Witness for C6: the MODIFIED event `modA` on a database whose counter row is at
version 1 is stamped with version 2 on both tables. -/
theorem write_stamps_by_type_witness :
    ∃ mid post, (backend.WriteEvent (envCounter ⟨1, 1⟩) [] modA).1 =
        [] ++ mid ++
          [Op.exec (.sqlResourceHistoryUpdateRV "guid-1" 2),
           Op.exec (.sqlResourceUpdateRV "guid-1" 2)] ++ post :=
  (write_stamps_by_type (envCounter ⟨1, 1⟩) [] modA (by decide)).1 (Or.inr rfl)

/-- C7: for an event of a supported type, `WriteEvent` returns the very pair
(version, error) that `create`, `update` or `delete` returned, for every database and
so whether the shard synchronization succeeds or fails.  When the write failed the
log is the log of the write: the synchronization is not run.  When the write
succeeded the log is the log of `IncreaseRVs` run on the log of the write with the
event's resource, group, shard and the new version, which begins a transaction,
followed by one error-log entry when `IncreaseRVs` failed. -/
theorem writeEvent_returns_write_result (env : Env) (t : List Op) (event : WriteEvent)
    (w : List Op × Int × Option GoError)
    (hw : (event.Type_ = .ADDED ∧ w = backend.create env t event)
      ∨ (event.Type_ = .MODIFIED ∧ w = backend.update env t event)
      ∨ (event.Type_ = .DELETED ∧ w = backend.delete env t event)) :
    (backend.WriteEvent env t event).2 = w.2
    ∧ (w.2.2 ≠ none → (backend.WriteEvent env t event).1 = w.1)
    ∧ (w.2.2 = none →
        (backend.WriteEvent env t event).1 =
          (backend.IncreaseRVs env w.1 event.Key.Resource event.Key.Group
              (computeShard event.Key.Namespace) w.2.1).1 ++
            (match (backend.IncreaseRVs env w.1 event.Key.Resource event.Key.Group
                (computeShard event.Key.Namespace) w.2.1).2 with
              | some err => [Op.logError "failed to increase resource version" err]
              | none => [])
        ∧ ∃ rest, (backend.IncreaseRVs env w.1 event.Key.Resource event.Key.Group
              (computeShard event.Key.Namespace) w.2.1).1
            = w.1 ++ Op.begin .ReadCommitted :: rest) := by
  have key : backend.WriteEvent env t event =
      (if w.2.2 = none then
          (backend.IncreaseRVs env w.1 event.Key.Resource event.Key.Group
              (computeShard event.Key.Namespace) w.2.1).1 ++
            (match (backend.IncreaseRVs env w.1 event.Key.Resource event.Key.Group
                (computeShard event.Key.Namespace) w.2.1).2 with
              | some err => [Op.logError "failed to increase resource version" err]
              | none => [])
         else w.1, w.2.1, w.2.2) := by
    unfold backend.WriteEvent
    rcases hw with ⟨hty, rfl⟩ | ⟨hty, rfl⟩ | ⟨hty, rfl⟩ <;>
      simp only [hty, writeEvent_unfold]
  rw [key]
  refine ⟨rfl, ?_, ?_⟩
  · intro h
    simp [h]
  · intro h
    refine ⟨by simp [h], ?_⟩
    obtain ⟨ext, hext, -⟩ := IncreaseRVs_log env w.1 event.Key.Resource event.Key.Group
      (computeShard event.Key.Namespace) w.2.1
    exact ⟨ext, hext⟩

/-- Witness for C7: the ADDED event `addA` on a database whose synchronization step
fails is still answered with the result of `create`. -/
theorem writeEvent_returns_write_result_witness :
    (backend.WriteEvent envSyncFails [] addA).2 = (backend.create envSyncFails [] addA).2
    ∧ (backend.WriteEvent envSyncFails [] addA).2 = (42, none) :=
  ⟨(writeEvent_returns_write_result envSyncFails [] addA (backend.create envSyncFails [] addA)
      (Or.inl ⟨rfl, rfl⟩)).1, by decide⟩

/-! ## Read and list engine: claims -/

/-- C8: once the read transaction is open, `ReadResource` issues exactly one statement,
which is the history read for the request (its key and version) when the requested
version is greater than 0 and the current-state read otherwise; so the history read
is among the operations it adds to the log if and only if the version is greater
than 0, and a request with version 0 issues the current-state read. -/
theorem readResource_selects_table (env : Env) (t : List Op) (req : ReadRequest)
    (hb : env.beginTx t .ReadCommittedRO = none) :
    (0 < req.ResourceVersion →
      ∃ fin, fin.isStatement = false ∧ (backend.ReadResource env t req).1 =
        t ++ [Op.begin .ReadCommittedRO, Op.queryRow (.sqlResourceHistoryRead req), fin])
    ∧ (¬ 0 < req.ResourceVersion →
      ∃ fin, fin.isStatement = false ∧ (backend.ReadResource env t req).1 =
        t ++ [Op.begin .ReadCommittedRO, Op.queryRow (.sqlResourceRead req), fin])
    ∧ (Op.queryRow (.sqlResourceHistoryRead req)
          ∈ (backend.ReadResource env t req).1.drop t.length ↔ 0 < req.ResourceVersion)
    ∧ (req.ResourceVersion = 0 →
        Op.queryRow (.sqlResourceRead req) ∈ (backend.ReadResource env t req).1.drop t.length) := by
  have key : ∃ fin, fin.isStatement = false ∧ (backend.ReadResource env t req).1 =
      t ++ [Op.begin .ReadCommittedRO,
        Op.queryRow (if req.ResourceVersion > 0 then .sqlResourceHistoryRead req
          else .sqlResourceRead req), fin] := by
    unfold backend.ReadResource WithTx
    simp only [hb]
    cases env.queryRowRead (t ++ [Op.begin .ReadCommittedRO])
        (if req.ResourceVersion > 0 then Stmt.sqlResourceHistoryRead req
          else Stmt.sqlResourceRead req) with
    | error err =>
      simp only
      split <;> exact ⟨Op.rollback, rfl, by simp⟩
    | ok res =>
      simp only
      cases env.commitTx _ with
      | none => exact ⟨Op.commit, rfl, by simp⟩
      | some e =>
        simp only
        split <;> exact ⟨Op.commit, rfl, by simp⟩
  obtain ⟨fin, hfin, hlog⟩ := key
  have hfin1 : fin ≠ Op.queryRow (.sqlResourceHistoryRead req) := by
    intro h; rw [h] at hfin; simp [Op.isStatement] at hfin
  refine ⟨?_, ?_, ?_, ?_⟩
  · intro h
    exact ⟨fin, hfin, by rw [hlog, if_pos h]⟩
  · intro h
    exact ⟨fin, hfin, by rw [hlog, if_neg h]⟩
  · rw [hlog, List.drop_left]
    by_cases h : 0 < req.ResourceVersion
    · simp [h]
    · simp [h, Ne.symm hfin1]
  · intro h
    rw [hlog, List.drop_left]
    simp [h]

/-- Witness for C8: a read of `keyA` at version 3 issues the history read. -/
theorem readResource_selects_table_witness :
    Op.queryRow (.sqlResourceHistoryRead { Key := keyA, ResourceVersion := 3 })
        ∈ (backend.ReadResource (envCounter ⟨1, 1⟩) [] { Key := keyA, ResourceVersion := 3 }).1.drop
            ([] : List Op).length :=
  (readResource_selects_table (envCounter ⟨1, 1⟩) [] { Key := keyA, ResourceVersion := 3 }
    rfl).2.2.1.mpr (by decide)

/-- C9: `ReadResource` never returns nil.  With the read transaction open: when the
query reports no row, the response carries the not-found result for the requested
key; when the query fails with any other error, the response carries the error
result of that error; and when the query and the commit succeed, the response is
the row that was read, unchanged. -/
theorem readResource_response (env : Env) (t : List Op) (req : ReadRequest) :
    (∃ resp, (backend.ReadResource env t req).2 = some resp)
    ∧ (env.beginTx t .ReadCommittedRO = none →
      (∀ err, env.queryRowRead (t ++ [Op.begin .ReadCommittedRO])
            (if req.ResourceVersion > 0 then .sqlResourceHistoryRead req
              else .sqlResourceRead req) = .error err →
          errorsIs err ErrNoRows = true →
          (backend.ReadResource env t req).2 =
            some { Error := some (.NewNotFoundError req.Key), ResourceVersion := 0, Value := [] })
      ∧ (∀ err, env.queryRowRead (t ++ [Op.begin .ReadCommittedRO])
            (if req.ResourceVersion > 0 then .sqlResourceHistoryRead req
              else .sqlResourceRead req) = .error err →
          errorsIs err ErrNoRows = false →
          (backend.ReadResource env t req).2 =
            some { Error := some (.AsErrorResult err), ResourceVersion := 0, Value := [] })
      ∧ (∀ row, env.queryRowRead (t ++ [Op.begin .ReadCommittedRO])
            (if req.ResourceVersion > 0 then .sqlResourceHistoryRead req
              else .sqlResourceRead req) = .ok row →
          env.commitTx (t ++ [Op.begin .ReadCommittedRO,
            Op.queryRow (if req.ResourceVersion > 0 then .sqlResourceHistoryRead req
              else .sqlResourceRead req)]) = none →
          (backend.ReadResource env t req).2 = some row.ReadResponse)) := by
  refine ⟨?_, ?_⟩
  · unfold backend.ReadResource WithTx
    simp only
    cases env.beginTx t .ReadCommittedRO with
    | some e =>
      simp only
      split <;> exact ⟨_, rfl⟩
    | none =>
      simp only
      cases env.queryRowRead (t ++ [Op.begin .ReadCommittedRO])
          (if req.ResourceVersion > 0 then Stmt.sqlResourceHistoryRead req
            else Stmt.sqlResourceRead req) with
      | error err =>
        simp only
        split <;> exact ⟨_, rfl⟩
      | ok res =>
        simp only
        cases env.commitTx _ with
        | none => exact ⟨_, rfl⟩
        | some e =>
          simp only
          split <;> exact ⟨_, rfl⟩
  · intro hb
    refine ⟨?_, ?_, ?_⟩
    · intro err hq his
      unfold backend.ReadResource WithTx
      simp [hb, hq, his]
    · intro err hq his
      unfold backend.ReadResource WithTx
      simp [hb, hq, his]
    · intro row hq hc
      unfold backend.ReadResource WithTx
      simp only [hb, hq]
      simp only [List.append_assoc, List.singleton_append, List.cons_append,
        List.nil_append] at hc ⊢
      simp [hc]

/-- Witness for C9: on a database whose read queries find no row, the read of `keyA`
answers with the not-found result for `keyA`. -/
theorem readResource_response_witness :
    (backend.ReadResource (envCounter ⟨1, 1⟩) [] { Key := keyA, ResourceVersion := 0 }).2 =
      some { Error := some (.NewNotFoundError keyA), ResourceVersion := 0, Value := [] } :=
  (readResource_response (envCounter ⟨1, 1⟩) [] { Key := keyA, ResourceVersion := 0 }).2 rfl
    |>.1 ErrNoRows rfl (by decide)

/-- C10: for a list request with options whose group and resource are non-empty,
`ListIterator` is `listAtRevision` when the namespace is empty, or the requested
version is greater than 0, or a continuation token is supplied, and is `listLatest`
otherwise; and in that other case its answer differs from that of
`listAtRevision`. -/
theorem listIterator_mode (env : Env) (t : List Op) (req : ListRequest) (opts : ListOptions)
    (cb : ListCallback) (hopts : req.Options = some opts)
    (hg : opts.Key.Group ≠ "") (hr : opts.Key.Resource ≠ "") :
    ((opts.Key.Namespace = "" ∨ 0 < req.ResourceVersion ∨ req.NextPageToken ≠ "") →
      backend.ListIterator env t req cb = backend.listAtRevision env t req opts cb)
    ∧ (¬ (opts.Key.Namespace = "" ∨ 0 < req.ResourceVersion ∨ req.NextPageToken ≠ "") →
      backend.ListIterator env t req cb = backend.listLatest env t req opts cb
      ∧ backend.ListIterator env t req cb ≠ backend.listAtRevision env t req opts cb) := by
  refine ⟨?_, ?_⟩
  · intro h
    unfold backend.ListIterator
    simp only [hopts]
    rw [if_neg (by simp [hg, hr]), if_pos (by simpa using h)]
  · intro h
    have hl : backend.ListIterator env t req cb = backend.listLatest env t req opts cb := by
      unfold backend.ListIterator
      simp only [hopts]
      rw [if_neg (by simp [hg, hr]), if_neg (by simpa using h)]
    refine ⟨hl, ?_⟩
    rw [hl]
    push_neg at h
    obtain ⟨hns, hrv, htok⟩ := h
    have hrv1 : req.ResourceVersion < 1 := by omega
    have hrv0 : ¬ req.ResourceVersion > 0 := by omega
    unfold backend.listLatest backend.listAtRevision
    simp [htok, hns, hrv0, hrv1, listIter.zero]

/-- Witness for C10: a request for namespace `ns1` at version 5 is served at
revision. -/
theorem listIterator_mode_witness :
    backend.ListIterator (envCounter ⟨1, 1⟩) []
        { NextPageToken := "", ResourceVersion := 5, Limit := 0, Options := some ⟨keyA⟩ } cbNone
      = backend.listAtRevision (envCounter ⟨1, 1⟩) []
        { NextPageToken := "", ResourceVersion := 5, Limit := 0, Options := some ⟨keyA⟩ }
        ⟨keyA⟩ cbNone :=
  (listIterator_mode (envCounter ⟨1, 1⟩) []
    { NextPageToken := "", ResourceVersion := 5, Limit := 0, Options := some ⟨keyA⟩ } ⟨keyA⟩
    cbNone rfl (by decide) (by decide)).1 (Or.inr (Or.inl (by decide)))

/-! ## List engine: mode selection and the continuation token -/

theorem listLatest_rejects_namespace (env : Env) (t : List Op) (req : ListRequest)
    (opts : ListOptions) (cb : ListCallback) (hns : opts.Key.Namespace ≠ "")
    (hrv : ¬ 0 < req.ResourceVersion) (htok : req.NextPageToken = "") :
    backend.listLatest env t req opts cb =
      (t, 0, some (.errorf "namespace is not supported in this mode")) := by
  unfold backend.listLatest
  simp [htok, hrv, hns]

/-- C11 (failing input): a list request for group `grp`, resource `res` and the single
namespace `ns1`, with no version and no token, on a database where every call
succeeds.  `ListIterator` hands it to `listLatest`, which rejects every request that
names a namespace: the answer is version 0 with the error `namespace is not
supported in this mode`, and the log stays empty, so no version is fetched, no row
is read and the callback is not run. -/
theorem listIterator_namespaced_latest_rejected :
    backend.ListIterator (envCounter ⟨7, 1⟩) []
        { NextPageToken := "", ResourceVersion := 0, Limit := 0, Options := some ⟨keyA⟩ } cbNone
      = ([], 0, some (.errorf "namespace is not supported in this mode")) := by
  decide

/-- C12: an at-revision list request whose token decodes, and whose explicit version is
non-zero and differs from the version of the token, is answered with version 0 and
the bad-request error, the log unchanged: no query is run and the callback is not
called.  A token that does not decode is answered with version 0 and the wrapped
decoding error, the log unchanged as well. -/
theorem listAtRevision_token_rejected (env : Env) (t : List Op) (req : ListRequest)
    (opts : ListOptions) (cb : ListCallback) (htok : req.NextPageToken ≠ "") :
    (∀ tok, env.GetContinueToken req.NextPageToken = .ok tok →
        req.ResourceVersion ≠ 0 → req.ResourceVersion ≠ tok.ResourceVersion →
        backend.listAtRevision env t req opts cb =
          (t, 0, some (.badRequest "request resource version does not math token")))
    ∧ (∀ err, env.GetContinueToken req.NextPageToken = .error err →
        backend.listAtRevision env t req opts cb =
          (t, 0, some (.wrap "get continue token" err))) := by
  refine ⟨?_, ?_⟩
  · intro tok hdec h0 hne
    unfold backend.listAtRevision
    simp [htok, hdec, h0, hne]
  · intro err hdec
    unfold backend.listAtRevision
    simp [htok, hdec]

/-- Witness for C12: a request at version 7 with a token that decodes to version 5. -/
theorem listAtRevision_token_rejected_witness :
    backend.listAtRevision envTokenMin []
        { NextPageToken := "tok", ResourceVersion := 7, Limit := 0, Options := some ⟨keyA⟩ }
        ⟨keyA⟩ cbNone
      = ([], 0, some (.badRequest "request resource version does not math token")) :=
  (listAtRevision_token_rejected envTokenMin []
    { NextPageToken := "tok", ResourceVersion := 7, Limit := 0, Options := some ⟨keyA⟩ }
    ⟨keyA⟩ cbNone (by decide)).1 ⟨5, 2⟩ rfl (by decide) (by decide)

/-- C13 (failing input): a cross-namespace list request (empty namespace) carrying a
token that decodes to version 5 at offset 2, on a database whose minimum version
over the shards is 9.  The history query is issued at version 9 with offset 2 and
9 is returned to the caller: the version of the token has been overwritten by the
minimum over the shards. -/
theorem listAtRevision_token_version_overwritten :
    envTokenMin.GetContinueToken "tok" = .ok { ResourceVersion := 5, StartOffset := 2 }
    ∧ backend.ListIterator envTokenMin []
        { NextPageToken := "tok", ResourceVersion := 0, Limit := 0, Options := some ⟨keyAll⟩ }
        cbNone
      = ([Op.begin .ReadCommittedRO,
          Op.queryRow (.sqlResourceVersionMin "grp" "res"),
          Op.commit,
          Op.begin .ReadCommittedRO,
          Op.queryRows (.sqlResourceHistoryList 9 maxInt64 2 ⟨keyAll⟩),
          Op.callback,
          Op.commit], 9, none) :=
  ⟨rfl, by decide⟩

/-- C15: a list request without options, or whose group or resource is empty, is
answered with version 0 and an error, the log unchanged: the database is not
touched and the callback is not called. -/
theorem listIterator_missing_key (env : Env) (t : List Op) (req : ListRequest)
    (cb : ListCallback)
    (h : req.Options = none
      ∨ ∃ opts, req.Options = some opts ∧ (opts.Key.Group = "" ∨ opts.Key.Resource = "")) :
    backend.ListIterator env t req cb = (t, 0, some (.errorf "missing group or resource"))
    ∧ (backend.ListIterator env t req cb).2.2 ≠ none := by
  have key : backend.ListIterator env t req cb
      = (t, 0, some (.errorf "missing group or resource")) := by
    unfold backend.ListIterator
    rcases h with h | ⟨opts, h, hk⟩
    · simp [h]
    · simp only [h]
      rw [if_pos hk]
  rw [key]
  exact ⟨rfl, by simp⟩

/-- Witness for C15: a request whose options name the resource `res` but no group. -/
theorem listIterator_missing_key_witness :
    backend.ListIterator (envCounter ⟨7, 1⟩) []
        { NextPageToken := "", ResourceVersion := 0, Limit := 0,
          Options := some ⟨{ Namespace := "ns1", Group := "", Resource := "res", Name := "" }⟩ }
        cbNone
      = ([], 0, some (.errorf "missing group or resource")) :=
  (listIterator_missing_key (envCounter ⟨7, 1⟩) []
    { NextPageToken := "", ResourceVersion := 0, Limit := 0,
      Options := some ⟨{ Namespace := "ns1", Group := "", Resource := "res", Name := "" }⟩ }
    cbNone (Or.inr ⟨_, rfl, Or.inl rfl⟩)).1

theorem wrap64_succ_offset (r : Int) (h0 : 0 ≤ r) (h1 : r < maxInt64) :
    wrap64 (r + 1) = r + 1 := by
  unfold wrap64
  unfold maxInt64 at h1
  have h : (r + 1 + 2 ^ 63) % 2 ^ 64 = r + 1 + 2 ^ 63 := by
    apply Int.emod_eq_of_lt <;> omega
  omega

theorem Next_spec (l : listIter) (row : Except ScanFailure ListRow)
    (rest : List (Except ScanFailure ListRow)) (h : l.rows = row :: rest) :
    l.Next.1 = true ∧ l.Next.2.offset = wrap64 (l.offset + 1) ∧ l.Next.2.listRV = l.listRV
    ∧ l.Next.2.rows = rest := by
  unfold listIter.Next
  rw [h]
  cases row <;> simp

theorem nextTimes_spec (k : Nat) (l : listIter) (hk : k ≤ l.rows.length)
    (h0 : 0 ≤ l.offset) (hmax : l.offset + k ≤ maxInt64) :
    (listIter.nextTimes k l).offset = l.offset + k
    ∧ (listIter.nextTimes k l).listRV = l.listRV
    ∧ (listIter.nextTimes k l).rows = l.rows.drop k := by
  induction k generalizing l with
  | zero => simp [listIter.nextTimes]
  | succ k ih =>
    rcases hrows : l.rows with _ | ⟨row, rest⟩
    · rw [hrows] at hk; simp at hk
    · have hk1 : k ≤ rest.length := by rw [hrows] at hk; simpa using hk
      obtain ⟨-, h1, h2, h3⟩ := Next_spec l row rest hrows
      have hw : wrap64 (l.offset + 1) = l.offset + 1 :=
        wrap64_succ_offset l.offset h0 (by push_cast at hmax; omega)
      rw [hw] at h1
      obtain ⟨g1, g2, g3⟩ := ih l.Next.2 (by rw [h3]; exact hk1) (by rw [h1]; omega)
        (by rw [h1]; push_cast at hmax; omega)
      simp only [listIter.nextTimes]
      refine ⟨?_, ?_, ?_⟩
      · rw [g1, h1]; push_cast; ring
      · rw [g2, h2]
      · rw [g3, h3]; simp

theorem listAtRevision_namespaced_token (env : Env) (t : List Op) (req : ListRequest)
    (opts : ListOptions) (cb : ListCallback) (tok : ContinueToken)
    (rows : List (Except ScanFailure ListRow))
    (hns : opts.Key.Namespace ≠ "") (htok : req.NextPageToken ≠ "")
    (hdec : env.GetContinueToken req.NextPageToken = .ok tok)
    (hrv : req.ResourceVersion = 0 ∨ req.ResourceVersion = tok.ResourceVersion)
    (hpos : 1 ≤ tok.ResourceVersion)
    (hb : env.beginTx t .ReadCommittedRO = none)
    (hq : env.queryRowsList (t ++ [Op.begin .ReadCommittedRO])
      (.sqlResourceHistoryList tok.ResourceVersion
        (if tok.StartOffset > 0 then maxInt64 else 0) tok.StartOffset opts) = .ok rows) :
    (backend.listAtRevision env t req opts cb).2.1 = tok.ResourceVersion
    ∧ ∃ fin, (backend.listAtRevision env t req opts cb).1 =
      t ++ [Op.begin .ReadCommittedRO,
          Op.queryRows (.sqlResourceHistoryList tok.ResourceVersion
            (if tok.StartOffset > 0 then maxInt64 else 0) tok.StartOffset opts),
          Op.callback, fin] := by
  have hcond : ¬ (req.ResourceVersion ≠ 0 ∧ req.ResourceVersion ≠ tok.ResourceVersion) := by
    rcases hrv with h | h <;> simp [h]
  have hlt : ¬ tok.ResourceVersion < 1 := by omega
  unfold backend.listAtRevision WithTx
  simp only [htok, hdec, hns, hb, hq, hcond, hlt, listIter.zero, ne_eq, not_false_eq_true,
    if_true, if_false]
  rcases (cb _).2 with _ | e
  · exact ⟨rfl, Op.commit, by simp⟩
  · exact ⟨rfl, Op.rollback, by simp⟩

/-- C14 (failing input): a cross-namespace listing in two pages on `envTwoPages`.  The
first page has no token; it is served at version 5, the minimum over the shards at
that moment, from offset 0, and its callback consumes two rows, after which the
cursor stands at offset 2 with list version 5 and its token decodes to exactly
that.  When the listing is resumed with this token, after writes have raised the
minimum over the shards to 9, the history query is issued at offset 2 but at
version 9, and 9 is returned: the resumed page is read from another snapshot than
the first. -/
theorem resumed_cross_namespace_listing_changes_version :
    backend.ListIterator envTwoPages []
        { NextPageToken := "", ResourceVersion := 0, Limit := 0, Options := some ⟨keyAll⟩ } cbTwo
      = (logFirstPage, 5, none)
    ∧ (listIter.nextTimes 2 { listIter.zero 5 with rows := rowsABC }).offset = 2
    ∧ (listIter.nextTimes 2 { listIter.zero 5 with rows := rowsABC }).listRV = 5
    ∧ envTwoPages.GetContinueToken
        (listIter.ContinueToken envTwoPages
          (listIter.nextTimes 2 { listIter.zero 5 with rows := rowsABC }))
      = .ok { ResourceVersion := 5, StartOffset := 2 }
    ∧ backend.ListIterator envTwoPages logFirstPage
        { NextPageToken := listIter.ContinueToken envTwoPages
            (listIter.nextTimes 2 { listIter.zero 5 with rows := rowsABC }),
          ResourceVersion := 0, Limit := 0, Options := some ⟨keyAll⟩ } cbNone
      = (logFirstPage ++
          [Op.begin .ReadCommittedRO,
           Op.queryRow (.sqlResourceVersionMin "grp" "res"),
           Op.commit,
           Op.begin .ReadCommittedRO,
           Op.queryRows (.sqlResourceHistoryList 9 maxInt64 2 ⟨keyAll⟩),
           Op.callback,
           Op.commit], 9, none) :=
  ⟨by decide, by decide, by decide, rfl, by decide⟩

/-! ## Change feed: claims -/

theorem poll_loop_valid (t : List Op) (nextRV : Int) (records : List historyPollResponse)
    (hkeys : ∀ rec ∈ records,
      rec.Key.Group ≠ "" ∧ rec.Key.Resource ≠ "" ∧ rec.Key.Name ≠ "")
    (hprev : ∀ rec ∈ records, rec.PreviousRV ≠ none) :
    backend.poll.loop t nextRV records =
      (t ++ records.map (fun rec => Op.send (rec.event (rec.PreviousRV.getD 0))),
        .returned ((records.map (fun rec => rec.ResourceVersion)).getLast?.getD nextRV, none)) := by
  induction records generalizing t nextRV with
  | nil => simp [backend.poll.loop]
  | cons rec rest ih =>
    obtain ⟨h1, h2, h3⟩ := hkeys rec (List.mem_cons_self _ _)
    have hp := hprev rec (List.mem_cons_self _ _)
    obtain ⟨prev, hprev1⟩ := Option.ne_none_iff_exists'.mp hp
    unfold backend.poll.loop
    rw [if_neg (by simp [h1, h2, h3])]
    simp only [hprev1]
    rw [ih _ _ (fun r hr => hkeys r (List.mem_cons_of_mem _ hr))
      (fun r hr => hprev r (List.mem_cons_of_mem _ hr))]
    simp only [List.map_cons, List.append_assoc, List.singleton_append, hprev1, Option.getD_some]
    congr 2
    cases rest with
    | nil => simp
    | cons r2 rest2 =>
      simp only [List.map_cons, List.getLast?_cons_cons]
      rw [List.getLast?_eq_getLast _ (List.cons_ne_nil _ _)]
      simp

/-- C16: when the poll transaction succeeds and every record the query returned has
group, resource and name and a previous version, `poll` sends exactly one event per
record, in the order of the records, each with the record's namespace, group,
resource and name as key, its value, its action as type, its previous version and
its resource version; it returns without error the version of the last record.
The versions of the events are the versions of the records in the same order, so
they increase when the query orders by version. -/
theorem poll_emits_one_event_per_record (env : Env) (t : List Op) (grp res : String)
    (since : Int) (records : List historyPollResponse)
    (hb : env.beginTx t .ReadCommittedRO = none)
    (hq : env.queryPoll (t ++ [Op.begin .ReadCommittedRO])
      (.sqlResourceHistoryPoll res grp since) = .ok records)
    (hc : env.commitTx (t ++ [Op.begin .ReadCommittedRO,
      Op.query (.sqlResourceHistoryPoll res grp since)]) = none)
    (hkeys : ∀ rec ∈ records,
      rec.Key.Group ≠ "" ∧ rec.Key.Resource ≠ "" ∧ rec.Key.Name ≠ "")
    (hprev : ∀ rec ∈ records, rec.PreviousRV ≠ none) :
    (backend.poll env t grp res since).1 =
      t ++ [Op.begin .ReadCommittedRO, Op.query (.sqlResourceHistoryPoll res grp since),
          Op.commit] ++
        records.map (fun rec => Op.send
          { WriteEvent := { Type_ := rec.Action, Key := rec.Key, Value := rec.Value,
                            PreviousRV := rec.PreviousRV.getD 0 },
            ResourceVersion := rec.ResourceVersion })
    ∧ (∃ next, (backend.poll env t grp res since).2 = .returned (next, none))
    ∧ ((backend.poll env t grp res since).1.drop (t.length + 3)).map
        (fun op => match op with
          | .send ev => ev.ResourceVersion
          | _ => 0)
      = records.map (fun rec => rec.ResourceVersion) := by
  have hlog : backend.poll env t grp res since =
      (t ++ [Op.begin .ReadCommittedRO, Op.query (.sqlResourceHistoryPoll res grp since),
          Op.commit] ++
        records.map (fun rec => Op.send (rec.event (rec.PreviousRV.getD 0))),
       .returned ((records.map (fun rec => rec.ResourceVersion)).getLast?.getD 0, none)) := by
    unfold backend.poll WithTx
    simp only [hb, hq]
    simp only [List.append_assoc, List.singleton_append, List.cons_append,
      List.nil_append] at hc ⊢
    simp only [hc]
    rw [poll_loop_valid _ _ _ hkeys hprev]
    simp
  rw [hlog]
  refine ⟨?_, ⟨_, rfl⟩, ?_⟩
  · rfl
  · have hlen : t.length + 3 = (t ++ [Op.begin .ReadCommittedRO,
        Op.query (.sqlResourceHistoryPoll res grp since), Op.commit]).length := by simp
    simp only
    rw [hlen, List.drop_left, List.map_map]
    rfl

/-- Witness for C16: the poll of (`grp`, `res`) since version 4 on `envFeed` sends the
two records of `recordsAB`, at versions 5 and 6. -/
theorem poll_emits_one_event_per_record_witness :
    (backend.poll envFeed [] "grp" "res" 4).1 =
      [] ++ [Op.begin .ReadCommittedRO, Op.query (.sqlResourceHistoryPoll "res" "grp" 4),
          Op.commit] ++
        recordsAB.map (fun rec => Op.send
          { WriteEvent := { Type_ := rec.Action, Key := rec.Key, Value := rec.Value,
                            PreviousRV := rec.PreviousRV.getD 0 },
            ResourceVersion := rec.ResourceVersion }) :=
  (poll_emits_one_event_per_record envFeed [] "grp" "res" 4 recordsAB rfl rfl rfl
    (by simp [recordsAB, keyA]) (by simp [recordsAB])).1

/-! ## Sharding -/

/-- C20: `computeShard` is the 32-bit FNV-1a hash of the bytes of the namespace modulo
the shard count, which is 100; the result is below the shard count; equal
namespaces have equal shards; the empty namespace has shard 61.  The hash is the
standard one: its values on the empty string, `a` and `foobar` are the published
test vectors 0x811c9dc5, 0xe40c292c and 0xbf9cf968. -/
theorem computeShard_spec :
    (∀ ns : String, computeShard ns = fnv32a (stringBytes ns) % NumberOfShards
      ∧ computeShard ns < NumberOfShards)
    ∧ NumberOfShards = 100
    ∧ (∀ ns ns1 : String, ns = ns1 → computeShard ns = computeShard ns1)
    ∧ computeShard "" = 61
    ∧ (∀ bytes : List Nat, fnv32a bytes < 2 ^ 32)
    ∧ fnv32a (stringBytes "") = 0x811c9dc5
    ∧ fnv32a (stringBytes "a") = 0xe40c292c
    ∧ fnv32a (stringBytes "foobar") = 0xbf9cf968 := by
  refine ⟨?_, rfl, ?_, by decide, ?_, by decide, by decide, by decide⟩
  · intro ns
    exact ⟨rfl, Nat.mod_lt _ (by decide)⟩
  · intro ns ns1 h
    rw [h]
  · intro bytes
    unfold fnv32a
    have : ∀ (l : List Nat) (h : Nat), h < 2 ^ 32 →
        l.foldl (fun h b => ((h ^^^ b) * 16777619) % 2 ^ 32) h < 2 ^ 32 := by
      intro l
      induction l with
      | nil => intro h hh; simpa using hh
      | cons b rest ih =>
        intro h _
        simp only [List.foldl_cons]
        exact ih _ (Nat.mod_lt _ (by decide))
    exact this bytes _ (by decide)

/-! ## Change feed: the `since` map -/

theorem goMapGet_set_same {β : Type} (m : List (String × β)) (k : String) (v : β) :
    goMapGet (goMapSet m k v) k = some v := by
  induction m with
  | nil => simp [goMapSet, goMapGet]
  | cons e rest ih =>
    rcases e with ⟨k1, v1⟩
    by_cases h : k1 = k
    · simp [goMapSet, goMapGet, h]
    · simp [goMapSet, goMapGet, h, ih]

theorem goMapGet_set_other {β : Type} (m : List (String × β)) (k k1 : String) (v : β)
    (h : k1 ≠ k) : goMapGet (goMapSet m k v) k1 = goMapGet m k1 := by
  induction m with
  | nil => simp [goMapSet, goMapGet, Ne.symm h]
  | cons e rest ih =>
    rcases e with ⟨k2, v2⟩
    by_cases h2 : k2 = k
    · subst h2
      simp [goMapSet, goMapGet, Ne.symm h]
    · by_cases h3 : k2 = k1
      · subst h3
        simp [goMapSet, goMapGet, h]
      · simp [goMapSet, goMapGet, h2, h3, ih]

theorem get_set_same (m : groupResourceRV) (g r : String) (v : Int) :
    groupResourceRV.get (groupResourceRV.set m g r v) g r = some v := by
  simp [groupResourceRV.get, groupResourceRV.set, goMapGet_set_same]

theorem get_set_other (m : groupResourceRV) (g r g1 r1 : String) (v : Int)
    (h : g1 ≠ g ∨ r1 ≠ r) :
    groupResourceRV.get (groupResourceRV.set m g r v) g1 r1 = groupResourceRV.get m g1 r1 := by
  unfold groupResourceRV.get groupResourceRV.set
  by_cases hg : g1 = g
  · subst hg
    have hr : r1 ≠ r := by
      rcases h with h | h
      · exact absurd rfl h
      · exact h
    rw [goMapGet_set_same]
    simp only [Option.some_bind]
    rw [goMapGet_set_other _ _ _ _ hr]
    cases goMapGet m g1 <;> simp [goMapGet]
  · rw [goMapGet_set_other _ _ _ _ hg]

theorem get_new_group (m : groupResourceRV) (g g1 r1 : String) (h : goMapGet m g = none) :
    groupResourceRV.get (goMapSet m g []) g1 r1 = groupResourceRV.get m g1 r1 := by
  unfold groupResourceRV.get
  by_cases hg : g1 = g
  · subst hg
    rw [goMapGet_set_same, h]
    simp [goMapGet]
  · rw [goMapGet_set_other _ _ _ _ hg]

theorem lastDelivered_set_same (m : groupResourceRV) (g r : String) (v : Int) :
    lastDelivered (groupResourceRV.set m g r v) g r = v := by
  simp [lastDelivered, get_set_same]

theorem lastDelivered_set_other (m : groupResourceRV) (g r g1 r1 : String) (v : Int)
    (h : g1 ≠ g ∨ r1 ≠ r) :
    lastDelivered (groupResourceRV.set m g r v) g1 r1 = lastDelivered m g1 r1 := by
  simp [lastDelivered, get_set_other _ _ _ _ _ _ h]

theorem lastDelivered_new_group (since : groupResourceRV) (g g1 r1 : String) :
    lastDelivered (if (goMapGet since g).isNone then goMapSet since g [] else since) g1 r1
      = lastDelivered since g1 r1 := by
  split
  · rename_i hn
    simp [lastDelivered, get_new_group since g g1 r1 (by simpa using hn)]
  · rfl

theorem lastDelivered_new_entry (m : groupResourceRV) (g r g1 r1 : String) :
    lastDelivered (if (groupResourceRV.get m g r).isNone then groupResourceRV.set m g r 0
      else m) g1 r1 = lastDelivered m g1 r1 := by
  split
  · rename_i hn
    by_cases hp : g1 = g ∧ r1 = r
    · obtain ⟨rfl, rfl⟩ := hp
      rw [lastDelivered_set_same]
      simp only [Option.isNone_iff_eq_none] at hn
      simp [lastDelivered, hn]
    · rw [lastDelivered_set_other _ _ _ _ _ _ (by tauto)]
  · rfl

/-- Creating the missing entries of a pair, as the poller does before it polls the
pair, changes no last delivered version. -/
theorem lastDelivered_entries (since : groupResourceRV) (g r g1 r1 : String) :
    lastDelivered
      (if (groupResourceRV.get
            (if (goMapGet since g).isNone then goMapSet since g [] else since) g r).isNone
        then groupResourceRV.set
            (if (goMapGet since g).isNone then goMapSet since g [] else since) g r 0
        else (if (goMapGet since g).isNone then goMapSet since g [] else since)) g1 r1
      = lastDelivered since g1 r1 := by
  rw [lastDelivered_new_entry, lastDelivered_new_group]

/-! ## Change feed: one pair of one tick -/

theorem poll_loop_ok (t : List Op) (nextRV next : Int) (records : List historyPollResponse)
    (h : (backend.poll.loop t nextRV records).2 = .returned (next, none)) :
    next = (records.map (fun rec => rec.ResourceVersion)).getLast?.getD nextRV := by
  induction records generalizing t nextRV with
  | nil =>
    simp only [backend.poll.loop, Outcome.returned.injEq, Prod.mk.injEq, and_true] at h
    simp [h]
  | cons rec rest ih =>
    unfold backend.poll.loop at h
    split at h
    · simp at h
    · split at h
      · simp at h
      · have := ih _ _ h
        rw [this]
        cases rest with
        | nil => simp
        | cons r2 rest2 =>
          simp only [List.map_cons, List.getLast?_cons_cons]
          rw [List.getLast?_eq_getLast _ (List.cons_ne_nil _ _)]
          simp

theorem poll_loop_log (t : List Op) (nextRV : Int) (records : List historyPollResponse) :
    ∃ ext, (backend.poll.loop t nextRV records).1 = t ++ ext
      ∧ ∀ op ∈ ext, ∃ rec ∈ records, ∃ prev, op = Op.send (rec.event prev) := by
  induction records generalizing t nextRV with
  | nil => exact ⟨[], by simp [backend.poll.loop], by simp⟩
  | cons rec rest ih =>
    unfold backend.poll.loop
    split
    · exact ⟨[], by simp, by simp⟩
    · split
      · exact ⟨[], by simp, by simp⟩
      · rename_i prev _
        obtain ⟨ext, h1, h2⟩ := ih (t ++ [Op.send (rec.event prev)]) rec.ResourceVersion
        refine ⟨Op.send (rec.event prev) :: ext, by simp [h1], ?_⟩
        intro op hop
        rcases List.mem_cons.mp hop with h | h
        · exact ⟨rec, List.mem_cons_self _ _, prev, h⟩
        · obtain ⟨r, hr, p, hp⟩ := h2 op h
          exact ⟨r, List.mem_cons_of_mem _ hr, p, hp⟩

theorem poll_ok (env : Env) (t : List Op) (grp res : String) (since next : Int)
    (records : List historyPollResponse)
    (hq : env.queryPoll (t ++ [Op.begin .ReadCommittedRO])
      (.sqlResourceHistoryPoll res grp since) = .ok records)
    (h : (backend.poll env t grp res since).2 = .returned (next, none)) :
    next = (records.map (fun rec => rec.ResourceVersion)).getLast?.getD 0 := by
  unfold backend.poll WithTx at h
  cases hb : env.beginTx t .ReadCommittedRO with
  | some e => simp [hb] at h
  | none =>
    simp only [hb, hq, List.append_assoc, List.singleton_append, List.cons_append,
      List.nil_append] at h
    cases hc : env.commitTx (t ++ [Op.begin .ReadCommittedRO,
        Op.query (.sqlResourceHistoryPoll res grp since)]) with
    | some e => simp [hc] at h
    | none =>
      simp only [hc] at h
      exact poll_loop_ok _ _ _ _ h

theorem poll_query_error (env : Env) (t : List Op) (grp res : String) (since : Int)
    (err : GoError) (hb : env.beginTx t .ReadCommittedRO = none)
    (hq : env.queryPoll (t ++ [Op.begin .ReadCommittedRO])
      (.sqlResourceHistoryPoll res grp since) = .error err) :
    backend.poll env t grp res since =
      (t ++ [Op.begin .ReadCommittedRO, Op.query (.sqlResourceHistoryPoll res grp since),
          Op.rollback], .returned (0, some (.wrap "poll history" err))) := by
  unfold backend.poll WithTx
  simp [hb, hq]

theorem pollPair_eq (env : Env) (st : pollerState) (g r : String)
    (hnp : st.panicked = false) :
    ∃ since2, (∀ g1 r1, lastDelivered since2 g1 r1 = lastDelivered st.since g1 r1)
      ∧ backend.poller.pollPair env st (g, r) =
        (match backend.poll env st.log g r (lastDelivered st.since g r) with
          | (t1, .panic _) => { log := t1, since := since2, panicked := true }
          | (t1, .returned (_, some err)) =>
            { log := t1 ++ [Op.logError "polling for resource" err], since := since2,
              panicked := false }
          | (t1, .returned (next, none)) =>
            if next > lastDelivered st.since g r then
              { log := t1, since := groupResourceRV.set since2 g r next, panicked := false }
            else { log := t1, since := since2, panicked := false }) := by
  refine ⟨_, lastDelivered_entries st.since g r, ?_⟩
  unfold backend.poller.pollPair
  simp only [hnp, Bool.false_eq_true, if_false, lastDelivered_entries]

theorem pollPair_other (env : Env) (st : pollerState) (p : String × String) (g r : String)
    (h : (g, r) ≠ p) :
    lastDelivered (backend.poller.pollPair env st p).since g r = lastDelivered st.since g r := by
  rcases p with ⟨g0, r0⟩
  have hne : g ≠ g0 ∨ r ≠ r0 := by
    by_contra hc
    push_neg at hc
    exact h (by rw [hc.1, hc.2])
  cases hnp : st.panicked with
  | true => simp [backend.poller.pollPair, hnp]
  | false =>
    obtain ⟨since2, h2, heq⟩ := pollPair_eq env st g0 r0 hnp
    rw [heq]
    rcases backend.poll env st.log g0 r0 (lastDelivered st.since g0 r0) with
      ⟨t1, ⟨next, _ | err⟩ | msg⟩
    · simp only
      split
      · simp only
        rw [lastDelivered_set_other _ _ _ _ _ _ hne, h2]
      · exact h2 g r
    · exact h2 g r
    · exact h2 g r

theorem foldl_pollPair_other (env : Env) (post : List (String × String)) (st : pollerState)
    (g r : String) (h : (g, r) ∉ post) :
    lastDelivered (post.foldl (backend.poller.pollPair env) st).since g r
      = lastDelivered st.since g r := by
  induction post generalizing st with
  | nil => rfl
  | cons p rest ih =>
    simp only [List.foldl_cons]
    rw [ih _ (fun hm => h (List.mem_cons_of_mem _ hm)),
      pollPair_other env st p g r (fun hm => h (hm ▸ List.mem_cons_self _ _))]

theorem sorted_le_getLast (l : List Int) (d : Int) (h : l.Pairwise (fun a b => a ≤ b)) :
    ∀ x ∈ l, x ≤ l.getLast?.getD d := by
  induction l with
  | nil => simp
  | cons a rest ih =>
    intro x hx
    cases rest with
    | nil =>
      have : x = a := by simpa using hx
      simp [this]
    | cons b rest2 =>
      rw [List.getLast?_cons_cons]
      have hp := List.pairwise_cons.mp h
      rcases List.mem_cons.mp hx with hxa | hxr
      · rw [List.getLast?_eq_getLast _ (List.cons_ne_nil _ _)]
        simp only [Option.getD_some]
        rw [hxa]
        exact hp.1 _ (List.getLast_mem _)
      · exact ih hp.2 x hxr

/-! ## Change feed: a whole watch -/

theorem poll_log (env : Env) (t : List Op) (grp res : String) (since : Int) :
    ∃ ext, (backend.poll env t grp res since).1 = t ++ ext
      ∧ ∀ op ∈ ext,
        op = Op.begin .ReadCommittedRO ∨ op = Op.commit ∨ op = Op.rollback
        ∨ op = Op.query (.sqlResourceHistoryPoll res grp since)
        ∨ ∃ records, env.queryPoll (t ++ [Op.begin .ReadCommittedRO])
              (.sqlResourceHistoryPoll res grp since) = .ok records
            ∧ ∃ rec ∈ records, ∃ prev, op = Op.send (rec.event prev) := by
  unfold backend.poll WithTx
  cases env.beginTx t .ReadCommittedRO with
  | some e => exact ⟨[Op.begin .ReadCommittedRO], by simp, by simp⟩
  | none =>
    simp only
    cases hq : env.queryPoll (t ++ [Op.begin .ReadCommittedRO])
        (.sqlResourceHistoryPoll res grp since) with
    | error err =>
      exact ⟨[Op.begin .ReadCommittedRO, Op.query (.sqlResourceHistoryPoll res grp since),
        Op.rollback], by simp, by simp⟩
    | ok records =>
      simp only
      cases env.commitTx _ with
      | some e =>
        exact ⟨[Op.begin .ReadCommittedRO, Op.query (.sqlResourceHistoryPoll res grp since),
          Op.commit], by simp, by simp⟩
      | none =>
        simp only
        simp only [List.append_assoc, List.singleton_append, List.cons_append,
          List.nil_append]
        obtain ⟨ext, h1, h2⟩ := poll_loop_log
          (t ++ [Op.begin .ReadCommittedRO,
            Op.query (.sqlResourceHistoryPoll res grp since), Op.commit]) 0 records
        refine ⟨[Op.begin .ReadCommittedRO, Op.query (.sqlResourceHistoryPoll res grp since),
          Op.commit] ++ ext, by simp [h1], ?_⟩
        intro op hop
        rcases List.mem_append.mp hop with h | h
        · simp only [List.mem_cons, List.mem_singleton, List.not_mem_nil, or_false] at h
          tauto
        · have hsend := h2 op h
          exact Or.inr (Or.inr (Or.inr (Or.inr ⟨records, rfl, hsend⟩)))

theorem pollPair_mono (env : Env) (st : pollerState) (p : String × String) (g r : String) :
    lastDelivered st.since g r ≤ lastDelivered (backend.poller.pollPair env st p).since g r := by
  by_cases hp : (g, r) = p
  · subst hp
    cases hnp : st.panicked with
    | true => simp [backend.poller.pollPair, hnp]
    | false =>
      obtain ⟨since2, h2, heq⟩ := pollPair_eq env st g r hnp
      rw [heq]
      rcases backend.poll env st.log g r (lastDelivered st.since g r) with
        ⟨t1, ⟨next, _ | err⟩ | msg⟩
      · simp only
        split
        · rename_i hgt
          simp only
          rw [lastDelivered_set_same]
          omega
        · exact le_of_eq (h2 g r).symm
      · exact le_of_eq (h2 g r).symm
      · exact le_of_eq (h2 g r).symm
  · exact le_of_eq (pollPair_other env st p g r hp).symm

theorem pollPair_log (env : Env) (st : pollerState) (p : String × String) :
    ∃ ext, (backend.poller.pollPair env st p).log = st.log ++ ext
      ∧ ∀ op ∈ ext,
        op = Op.begin .ReadCommittedRO ∨ op = Op.commit ∨ op = Op.rollback
        ∨ op = Op.query (.sqlResourceHistoryPoll p.2 p.1 (lastDelivered st.since p.1 p.2))
        ∨ (∃ err, op = Op.logError "polling for resource" err)
        ∨ ∃ records, env.queryPoll (st.log ++ [Op.begin .ReadCommittedRO])
              (.sqlResourceHistoryPoll p.2 p.1 (lastDelivered st.since p.1 p.2)) = .ok records
            ∧ ∃ rec ∈ records, ∃ prev, op = Op.send (rec.event prev) := by
  rcases p with ⟨g, r⟩
  cases hnp : st.panicked with
  | true => exact ⟨[], by simp [backend.poller.pollPair, hnp], by simp⟩
  | false =>
    obtain ⟨since2, -, heq⟩ := pollPair_eq env st g r hnp
    obtain ⟨ext, h1, h2⟩ := poll_log env st.log g r (lastDelivered st.since g r)
    have lift : ∀ op ∈ ext,
        op = Op.begin .ReadCommittedRO ∨ op = Op.commit ∨ op = Op.rollback
        ∨ op = Op.query (.sqlResourceHistoryPoll r g (lastDelivered st.since g r))
        ∨ (∃ err, op = Op.logError "polling for resource" err)
        ∨ ∃ records, env.queryPoll (st.log ++ [Op.begin .ReadCommittedRO])
              (.sqlResourceHistoryPoll r g (lastDelivered st.since g r)) = .ok records
            ∧ ∃ rec ∈ records, ∃ prev, op = Op.send (rec.event prev) := by
      intro op hop
      have hcase := h2 op hop
      tauto
    rw [heq]
    rcases hp : backend.poll env st.log g r (lastDelivered st.since g r) with
      ⟨t1, ⟨next, _ | err⟩ | msg⟩
    all_goals
      rw [hp] at h1
      simp only at h1
      subst h1
    · simp only
      split <;> exact ⟨ext, rfl, lift⟩
    · refine ⟨ext ++ [Op.logError "polling for resource" err], by simp, ?_⟩
      intro op hop
      rcases List.mem_append.mp hop with h | h
      · exact lift op h
      · have hlog : ∃ e, op = Op.logError "polling for resource" e := ⟨err, by simpa using h⟩
        tauto
    · exact ⟨ext, rfl, lift⟩

theorem listLatestRVs_log (env : Env) (t : List Op) :
    ∃ ext, (backend.listLatestRVs env t).1 = t ++ ext
      ∧ ∀ op ∈ ext, op = Op.begin .ReadCommittedRO ∨ op = Op.commit ∨ op = Op.rollback
        ∨ op = Op.query .sqlResourceVersionList := by
  unfold backend.listLatestRVs WithTx
  cases env.beginTx t .ReadCommittedRO with
  | some e => exact ⟨[Op.begin .ReadCommittedRO], by simp, by simp⟩
  | none =>
    simp only
    cases env.queryVersionList (t ++ [Op.begin .ReadCommittedRO]) .sqlResourceVersionList with
    | error err =>
      exact ⟨[Op.begin .ReadCommittedRO, Op.query .sqlResourceVersionList, Op.rollback],
        by simp, by simp⟩
    | ok grvs =>
      simp only
      cases env.commitTx _ with
      | some e =>
        exact ⟨[Op.begin .ReadCommittedRO, Op.query .sqlResourceVersionList, Op.commit],
          by simp, by simp⟩
      | none =>
        exact ⟨[Op.begin .ReadCommittedRO, Op.query .sqlResourceVersionList, Op.commit],
          by simp, by simp⟩

theorem foldl_pollPair_mono (env : Env) (ps : List (String × String)) (st : pollerState)
    (g r : String) :
    lastDelivered st.since g r
      ≤ lastDelivered (ps.foldl (backend.poller.pollPair env) st).since g r := by
  induction ps generalizing st with
  | nil => exact le_refl _
  | cons p rest ih =>
    simp only [List.foldl_cons]
    exact le_trans (pollPair_mono env st p g r) (ih _)

theorem tick_mono (env : Env) (st : pollerState) (g r : String) :
    lastDelivered st.since g r ≤ lastDelivered (backend.poller.tick env st).since g r := by
  unfold backend.poller.tick
  split
  · exact le_refl _
  · split
    · exact le_refl _
    · exact foldl_pollPair_mono env _ _ g r

theorem poller_mono (env : Env) (ticks : Nat) (st : pollerState) (g r : String) :
    lastDelivered st.since g r ≤ lastDelivered (backend.poller env st ticks).since g r := by
  induction ticks generalizing st with
  | zero => exact le_refl _
  | succ n ih =>
    unfold backend.poller
    split
    · exact tick_mono env st g r
    · exact le_trans (tick_mono env st g r) (ih _)

theorem pollPair_inv (env : Env) (hdb : PollContract env) (t1 : List Op) (g r : String)
    (v0 : Int) (st : pollerState) (p : String × String) (h : FeedInv t1 g r v0 st) :
    FeedInv t1 g r v0 (backend.poller.pollPair env st p) := by
  obtain ⟨⟨ext, hlog, hgood⟩, hv⟩ := h
  obtain ⟨ext2, hlog2, hops⟩ := pollPair_log env st p
  refine ⟨⟨ext ++ ext2, by rw [hlog2, hlog, List.append_assoc], ?_⟩,
    le_trans hv (pollPair_mono env st p g r)⟩
  intro op hop
  rcases List.mem_append.mp hop with hm | hm
  · exact hgood op hm
  · intro ev hev hg hr
    rcases hops op hm with h | h | h | h | ⟨err, h⟩ | ⟨records, hq, rec, hrec, prev, h⟩
    · rw [h] at hev; cases hev
    · rw [h] at hev; cases hev
    · rw [h] at hev; cases hev
    · rw [h] at hev; cases hev
    · rw [h] at hev; cases hev
    obtain ⟨hnew, hkg, hkr⟩ := hdb _ _ _ _ _ hq rec hrec
    rw [h] at hev
    cases hev
    simp only [historyPollResponse.event] at hg hr ⊢
    rw [hkg] at hg
    rw [hkr] at hr
    rw [hg, hr] at hnew
    omega

theorem foldl_pollPair_inv (env : Env) (hdb : PollContract env) (t1 : List Op) (g r : String)
    (v0 : Int) (ps : List (String × String)) (st : pollerState) (h : FeedInv t1 g r v0 st) :
    FeedInv t1 g r v0 (ps.foldl (backend.poller.pollPair env) st) := by
  induction ps generalizing st with
  | nil => exact h
  | cons p rest ih =>
    simp only [List.foldl_cons]
    exact ih _ (pollPair_inv env hdb t1 g r v0 st p h)

theorem FeedInv_grow (t1 : List Op) (g r : String) (v0 : Int) (st : pollerState)
    (log : List Op) (ext2 : List Op) (panicked : Bool) (h : FeedInv t1 g r v0 st)
    (hlog : log = st.log ++ ext2) (hext : ∀ op ∈ ext2, ∀ ev, op ≠ Op.send ev) :
    FeedInv t1 g r v0 { log := log, since := st.since, panicked := panicked } := by
  obtain ⟨⟨ext, hl, hgood⟩, hv⟩ := h
  refine ⟨⟨ext ++ ext2, by simp only [hlog, hl, List.append_assoc], ?_⟩, hv⟩
  intro op hop
  rcases List.mem_append.mp hop with hm | hm
  · exact hgood op hm
  · intro ev hev
    exact absurd hev (hext op hm ev)

theorem tick_inv (env : Env) (hdb : PollContract env) (t1 : List Op) (g r : String)
    (v0 : Int) (st : pollerState) (h : FeedInv t1 g r v0 st) :
    FeedInv t1 g r v0 (backend.poller.tick env st) := by
  unfold backend.poller.tick
  obtain ⟨ext, hlog, hops⟩ := listLatestRVs_log env st.log
  have hnosend : ∀ op ∈ ext, ∀ ev, op ≠ Op.send ev := by
    intro op hop ev hev
    rcases hops op hop with h | h | h | h <;> rw [h] at hev <;> cases hev
  split
  · exact h
  · split
    · rename_i tl err heq
      rw [heq] at hlog
      simp only at hlog
      apply FeedInv_grow t1 g r v0 st _ (ext ++ [Op.logError "get the latest resource version" err])
        false h (by rw [hlog, List.append_assoc])
      intro op hop ev hev
      rcases List.mem_append.mp hop with hm | hm
      · exact hnosend op hm ev hev
      · simp only [List.mem_singleton] at hm
        rw [hm] at hev
        cases hev
    · rename_i tl grv heq
      rw [heq] at hlog
      simp only at hlog
      apply foldl_pollPair_inv env hdb
      exact FeedInv_grow t1 g r v0 st _ ext false h hlog hnosend

theorem poller_inv (env : Env) (hdb : PollContract env) (t1 : List Op) (g r : String)
    (v0 : Int) (ticks : Nat) (st : pollerState) (h : FeedInv t1 g r v0 st) :
    FeedInv t1 g r v0 (backend.poller env st ticks) := by
  induction ticks generalizing st with
  | zero =>
    unfold backend.poller
    apply FeedInv_grow t1 g r v0 st _ [Op.closeStream] _ h rfl
    intro op hop ev hev
    simp only [List.mem_singleton] at hop
    rw [hop] at hev
    cases hev
  | succ n ih =>
    unfold backend.poller
    have ht := tick_inv env hdb t1 g r v0 st h
    split
    · apply FeedInv_grow t1 g r v0 (backend.poller.tick env st) _ [Op.closeStream] _ ht rfl
      intro op hop ev hev
      simp only [List.mem_singleton] at hop
      rw [hop] at hev
      cases hev
    · exact ih _ ht

theorem foldl_set_get (rows : List groupResourceVersion) (m0 : groupResourceRV) (g r : String) :
    groupResourceRV.get
        (rows.foldl (fun since grv =>
          groupResourceRV.set since grv.Group grv.Resource grv.ResourceVersion) m0) g r
      = match (rows.filter (fun row => decide (row.Group = g ∧ row.Resource = r))).getLast? with
        | some row => some row.ResourceVersion
        | none => groupResourceRV.get m0 g r := by
  induction rows generalizing m0 with
  | nil => simp
  | cons row rest ih =>
    simp only [List.foldl_cons]
    rw [ih]
    by_cases hp : row.Group = g ∧ row.Resource = r
    · rw [List.filter_cons_of_pos (by simpa using hp)]
      generalize rest.filter (fun row => decide (row.Group = g ∧ row.Resource = r)) = fl
      cases fl with
      | nil =>
        simp only [List.getLast?_nil, List.getLast?_singleton]
        rw [← hp.1, ← hp.2, get_set_same]
      | cons x xs =>
        rw [List.getLast?_cons_cons, List.getLast?_eq_getLast _ (List.cons_ne_nil _ _)]
    · rw [List.filter_cons_of_neg (by simpa using hp)]
      have hne : g ≠ row.Group ∨ r ≠ row.Resource := by
        by_contra hc
        push_neg at hc
        exact hp ⟨hc.1.symm, hc.2.symm⟩
      rw [get_set_other _ _ _ _ _ _ hne]

theorem listLatestRVs_ok (env : Env) (t t1 : List Op) (m : groupResourceRV)
    (rows : List groupResourceVersion)
    (h : backend.listLatestRVs env t = (t1, .ok m))
    (hq : env.queryVersionList (t ++ [Op.begin .ReadCommittedRO]) .sqlResourceVersionList
      = .ok rows) :
    m = rows.foldl (fun since grv =>
      groupResourceRV.set since grv.Group grv.Resource grv.ResourceVersion) [] := by
  unfold backend.listLatestRVs WithTx at h
  cases hb : env.beginTx t .ReadCommittedRO with
  | some e => simp [hb] at h
  | none =>
    simp only [hb, hq, List.append_assoc, List.singleton_append, List.cons_append,
      List.nil_append] at h
    cases hc : env.commitTx (t ++ [Op.begin .ReadCommittedRO,
        Op.query .sqlResourceVersionList]) with
    | some e => simp [hc] at h
    | none =>
      simp only [hc, Prod.mk.injEq, Except.ok.injEq] at h
      exact h.2.symm

theorem envFeed_contract : PollContract envFeed := by
  intro log g r since records hq rec hrec
  simp only [envFeed] at hq
  split at hq
  · rename_i hgr
    simp only [Except.ok.injEq] at hq
    subst hq
    simp only [recordsAB, List.mem_filter, List.mem_cons, List.mem_singleton,
      List.not_mem_nil, or_false, decide_eq_true_eq] at hrec
    obtain ⟨hmem, hlt⟩ := hrec
    rcases hmem with h | h <;> subst h <;> exact ⟨hlt, by simp [keyA, hgr.1], by simp [keyA, hgr.2]⟩
  · simp only [Except.ok.injEq] at hq
    subst hq
    simp at hrec

/-! ## Change feed: a whole tick -/

theorem goMapSet_keys {β : Type} (m : List (String × β)) (k : String) (v : β) (x : String)
    (h : x ∈ (goMapSet m k v).map Prod.fst) : x = k ∨ x ∈ m.map Prod.fst := by
  induction m with
  | nil =>
    simp only [goMapSet, List.map_cons, List.map_nil, List.mem_singleton] at h
    exact Or.inl h
  | cons e rest ih =>
    rcases e with ⟨k1, v1⟩
    unfold goMapSet at h
    split at h
    · simp only [List.map_cons, List.mem_cons] at h ⊢
      tauto
    · simp only [List.map_cons, List.mem_cons] at h ⊢
      rcases h with h | h
      · exact Or.inr (Or.inl h)
      · rcases ih h with h1 | h1
        · exact Or.inl h1
        · exact Or.inr (Or.inr h1)

theorem goMapSet_keys_nodup {β : Type} (m : List (String × β)) (k : String) (v : β)
    (h : (m.map Prod.fst).Nodup) : ((goMapSet m k v).map Prod.fst).Nodup := by
  induction m with
  | nil => simp [goMapSet]
  | cons e rest ih =>
    rcases e with ⟨k1, v1⟩
    simp only [List.map_cons, List.nodup_cons] at h
    unfold goMapSet
    split
    · rename_i hk
      simp only [List.map_cons, List.nodup_cons]
      exact ⟨hk ▸ h.1, h.2⟩
    · rename_i hk
      simp only [List.map_cons, List.nodup_cons]
      refine ⟨?_, ih h.2⟩
      intro hm
      rcases goMapSet_keys rest k v k1 hm with h1 | h1
      · exact hk h1
      · exact h.1 h1

theorem goMapSet_mem {β : Type} (m : List (String × β)) (k : String) (v : β) (e : String × β)
    (h : e ∈ goMapSet m k v) : e = (k, v) ∨ e ∈ m := by
  induction m with
  | nil =>
    simp only [goMapSet, List.mem_singleton] at h
    exact Or.inl h
  | cons e1 rest ih =>
    rcases e1 with ⟨k1, v1⟩
    unfold goMapSet at h
    split at h
    · simp only [List.mem_cons] at h ⊢
      tauto
    · simp only [List.mem_cons] at h ⊢
      rcases h with h | h
      · exact Or.inr (Or.inl h)
      · rcases ih h with h1 | h1
        · exact Or.inl h1
        · exact Or.inr (Or.inr h1)

theorem goMapGet_mem {β : Type} (m : List (String × β)) (k : String) (v : β)
    (h : goMapGet m k = some v) : (k, v) ∈ m := by
  induction m with
  | nil => simp [goMapGet] at h
  | cons e rest ih =>
    rcases e with ⟨k1, v1⟩
    unfold goMapGet at h
    split at h
    · rename_i hk
      simp only [Option.some.injEq] at h
      rw [← hk, ← h]
      exact List.mem_cons_self _ _
    · exact List.mem_cons_of_mem _ (ih h)

theorem set_distinct (m : groupResourceRV) (g r : String) (v : Int)
    (h : (m.map Prod.fst).Nodup ∧ ∀ e ∈ m, (e.2.map Prod.fst).Nodup) :
    ((groupResourceRV.set m g r v).map Prod.fst).Nodup
      ∧ ∀ e ∈ groupResourceRV.set m g r v, (e.2.map Prod.fst).Nodup := by
  unfold groupResourceRV.set
  refine ⟨goMapSet_keys_nodup _ _ _ h.1, ?_⟩
  intro e he
  rcases goMapSet_mem _ _ _ _ he with h1 | h1
  · rw [h1]
    apply goMapSet_keys_nodup
    cases hg : goMapGet m g with
    | none => simp
    | some items => exact h.2 _ (goMapGet_mem _ _ _ hg)
  · exact h.2 e h1

theorem pairs_group (m : groupResourceRV) (g r : String)
    (h : (g, r) ∈ groupResourceRV.pairs m) : g ∈ m.map Prod.fst := by
  unfold groupResourceRV.pairs at h
  simp only [List.mem_flatMap, List.mem_map, Prod.mk.injEq] at h
  obtain ⟨e, he, item, -, hg, -⟩ := h
  exact List.mem_map.mpr ⟨e, he, hg⟩

theorem pairs_nodup (m : groupResourceRV)
    (h : (m.map Prod.fst).Nodup ∧ ∀ e ∈ m, (e.2.map Prod.fst).Nodup) :
    (groupResourceRV.pairs m).Nodup := by
  induction m with
  | nil => simp [groupResourceRV.pairs]
  | cons e rest ih =>
    rcases e with ⟨g, items⟩
    obtain ⟨hk, hi⟩ := h
    simp only [List.map_cons, List.nodup_cons] at hk
    have hrest := ih ⟨hk.2, fun e he => hi e (List.mem_cons_of_mem _ he)⟩
    have hitems := hi (g, items) (List.mem_cons_self _ _)
    have hsplit : groupResourceRV.pairs ((g, items) :: rest)
        = (items.map Prod.fst).map (fun r => (g, r)) ++ groupResourceRV.pairs rest := by
      simp [groupResourceRV.pairs, List.flatMap_cons, List.map_map, Function.comp_def]
    rw [hsplit, List.nodup_append]
    refine ⟨?_, hrest, ?_⟩
    · exact List.Nodup.map (fun a b hab => (Prod.mk.injEq _ _ _ _ ▸ hab).2) hitems
    · intro p hp1 hp2
      obtain ⟨r, -, hr⟩ := List.mem_map.mp hp1
      rw [← hr] at hp2
      exact hk.1 (pairs_group rest g r hp2)

theorem foldl_set_distinct (rows : List groupResourceVersion) (m0 : groupResourceRV)
    (h : (m0.map Prod.fst).Nodup ∧ ∀ e ∈ m0, (e.2.map Prod.fst).Nodup) :
    (groupResourceRV.pairs (rows.foldl (fun since grv =>
      groupResourceRV.set since grv.Group grv.Resource grv.ResourceVersion) m0)).Nodup := by
  induction rows generalizing m0 with
  | nil => exact pairs_nodup m0 h
  | cons row rest ih =>
    simp only [List.foldl_cons]
    exact ih _ (set_distinct m0 _ _ _ h)

theorem listLatestRVs_pairs_nodup (env : Env) (t t1 : List Op) (grv : groupResourceRV)
    (h : backend.listLatestRVs env t = (t1, .ok grv)) :
    (groupResourceRV.pairs grv).Nodup := by
  unfold backend.listLatestRVs at h
  split at h
  · simp at h
  · simp only [Prod.mk.injEq, Except.ok.injEq] at h
    rw [← h.2]
    exact foldl_set_distinct _ [] ⟨by simp, by simp⟩

theorem tick_pairs (env : Env) (st : pollerState) (t1 : List Op) (grv : groupResourceRV)
    (hnp : st.panicked = false) (hlist : backend.listLatestRVs env st.log = (t1, .ok grv)) :
    backend.poller.tick env st
      = (groupResourceRV.pairs grv).foldl (backend.poller.pollPair env)
          { log := t1, since := st.since, panicked := false } := by
  unfold backend.poller.tick
  simp only [hnp, hlist, Bool.false_eq_true, if_false]

theorem pollPair_success (env : Env) (st : pollerState) (g r : String) (next : Int)
    (hnp : st.panicked = false)
    (hok : (backend.poll env st.log g r (lastDelivered st.since g r)).2 = .returned (next, none)) :
    (backend.poller.pollPair env st (g, r)).panicked = false
    ∧ lastDelivered (backend.poller.pollPair env st (g, r)).since g r
        = max (lastDelivered st.since g r) next := by
  obtain ⟨since2, h2, heq⟩ := pollPair_eq env st g r hnp
  rw [heq]
  rcases hp : backend.poll env st.log g r (lastDelivered st.since g r) with ⟨t1, out⟩
  rw [hp] at hok
  simp only at hok
  subst hok
  simp only
  split
  · rename_i hgt
    refine ⟨rfl, ?_⟩
    simp only
    rw [lastDelivered_set_same]
    omega
  · rename_i hgt
    refine ⟨rfl, ?_⟩
    simp only
    rw [h2]
    omega

theorem poll_issues_query (env : Env) (t : List Op) (grp res : String) (since : Int)
    (hb : env.beginTx t .ReadCommittedRO = none) :
    ∃ ext, (backend.poll env t grp res since).1
      = t ++ [Op.begin .ReadCommittedRO, Op.query (.sqlResourceHistoryPoll res grp since)]
          ++ ext := by
  unfold backend.poll WithTx
  simp only [hb]
  cases hq : env.queryPoll (t ++ [Op.begin .ReadCommittedRO])
      (.sqlResourceHistoryPoll res grp since) with
  | error err => exact ⟨[Op.rollback], by simp⟩
  | ok records =>
    simp only
    cases env.commitTx _ with
    | some e => exact ⟨[Op.commit], by simp⟩
    | none =>
      simp only
      obtain ⟨ext, h1, -⟩ := poll_loop_log
        (t ++ [Op.begin .ReadCommittedRO] ++ [Op.query (.sqlResourceHistoryPoll res grp since)]
          ++ [Op.commit]) 0 records
      exact ⟨Op.commit :: ext, by rw [h1]; simp⟩

theorem pollPair_issues_query (env : Env) (st : pollerState) (g r : String)
    (hnp : st.panicked = false) (hb : env.beginTx st.log .ReadCommittedRO = none) :
    ∃ ext, (backend.poller.pollPair env st (g, r)).log
      = st.log ++ [Op.begin .ReadCommittedRO,
          Op.query (.sqlResourceHistoryPoll r g (lastDelivered st.since g r))] ++ ext := by
  obtain ⟨since2, -, heq⟩ := pollPair_eq env st g r hnp
  obtain ⟨ext, h1⟩ := poll_issues_query env st.log g r (lastDelivered st.since g r) hb
  rw [heq]
  rcases hp : backend.poll env st.log g r (lastDelivered st.since g r) with
    ⟨t1, ⟨next, _ | err⟩ | msg⟩
  all_goals
    rw [hp] at h1
    simp only at h1
    subst h1
  · simp only
    split <;> exact ⟨ext, rfl⟩
  · exact ⟨ext ++ [Op.logError "polling for resource" err], by simp⟩
  · exact ⟨ext, rfl⟩

theorem foldl_pollPair_log (env : Env) (ps : List (String × String)) (st : pollerState) :
    ∃ ext, (ps.foldl (backend.poller.pollPair env) st).log = st.log ++ ext
      ∧ Op.closeStream ∉ ext := by
  induction ps generalizing st with
  | nil => exact ⟨[], by simp, by simp⟩
  | cons p rest ih =>
    simp only [List.foldl_cons]
    obtain ⟨ext1, h1, hops⟩ := pollPair_log env st p
    obtain ⟨ext2, h2, hno⟩ := ih (backend.poller.pollPair env st p)
    refine ⟨ext1 ++ ext2, by rw [h2, h1, List.append_assoc], ?_⟩
    intro hm
    rcases List.mem_append.mp hm with hm1 | hm1
    · rcases hops _ hm1 with h | h | h | h | ⟨err, h⟩ | ⟨records, -, rec, -, prev, h⟩ <;> cases h
    · exact hno hm1

theorem tick_no_close (env : Env) (st : pollerState) :
    ∃ ext, (backend.poller.tick env st).log = st.log ++ ext ∧ Op.closeStream ∉ ext := by
  obtain ⟨ext, hlog, hops⟩ := listLatestRVs_log env st.log
  have hno : Op.closeStream ∉ ext := by
    intro hm
    rcases hops _ hm with h | h | h | h <;> cases h
  unfold backend.poller.tick
  split
  · exact ⟨[], by simp, by simp⟩
  · split
    · rename_i tl err heq
      rw [heq] at hlog
      simp only at hlog
      refine ⟨ext ++ [Op.logError "get the latest resource version" err],
        by simp only [hlog, List.append_assoc], ?_⟩
      intro hm
      rcases List.mem_append.mp hm with hm1 | hm1
      · exact hno hm1
      · simp at hm1
    · rename_i tl grv heq
      rw [heq] at hlog
      simp only at hlog
      obtain ⟨ext2, h2, hno2⟩ := foldl_pollPair_log env (groupResourceRV.pairs grv)
        { log := tl, since := st.since, panicked := false }
      refine ⟨ext ++ ext2, by rw [h2]; simp only [hlog, List.append_assoc], ?_⟩
      intro hm
      rcases List.mem_append.mp hm with hm1 | hm1
      · exact hno hm1
      · exact hno2 hm1

theorem foldl_pollPair_panicked (env : Env) (ps : List (String × String)) (st : pollerState)
    (hnp : st.panicked = false)
    (h : (ps.foldl (backend.poller.pollPair env) st).panicked = true) :
    ∃ a p b, ps = a ++ p :: b
      ∧ (a.foldl (backend.poller.pollPair env) st).panicked = false
      ∧ (backend.poller.pollPair env (a.foldl (backend.poller.pollPair env) st) p).panicked
          = true := by
  induction ps generalizing st with
  | nil =>
    simp only [List.foldl_nil] at h
    rw [hnp] at h
    cases h
  | cons p rest ih =>
    simp only [List.foldl_cons] at h
    cases hp : (backend.poller.pollPair env st p).panicked with
    | true => exact ⟨[], p, rest, rfl, hnp, hp⟩
    | false =>
      obtain ⟨a, q, b, h1, h2, h3⟩ := ih _ hp h
      exact ⟨p :: a, q, b, by rw [h1]; rfl, h2, h3⟩

theorem nodup_split (pre post a b : List (String × String)) (p q : String × String)
    (h : (pre ++ p :: post).Nodup) (hpost : post = a ++ q :: b) :
    p ∉ pre ∧ p ∉ post ∧ q ∉ pre ∧ q ≠ p ∧ q ∉ a ∧ q ∉ b := by
  subst hpost
  simp only [List.nodup_append, List.nodup_cons, List.mem_append, List.mem_cons, not_or,
    List.Disjoint] at h
  obtain ⟨-, ⟨⟨hpa, hpq, hpb⟩, -, ⟨hqb, -⟩, hab⟩, hdis⟩ := h
  refine ⟨fun hm => hdis hm (Or.inl rfl), ?_, fun hm => hdis hm (Or.inr (Or.inr (Or.inl rfl))),
    fun hc => hpq hc.symm, fun hm => hab hm (Or.inl rfl), hqb⟩
  simp only [List.mem_append, List.mem_cons, not_or]
  exact ⟨hpa, hpq, hpb⟩

theorem nodup_middle (pre post : List (String × String)) (p : String × String)
    (h : (pre ++ p :: post).Nodup) : p ∉ pre ∧ p ∉ post := by
  simp only [List.nodup_append, List.nodup_cons, List.Disjoint, List.mem_cons] at h
  obtain ⟨-, ⟨hp, -⟩, hdis⟩ := h
  exact ⟨fun hm => hdis hm (Or.inl rfl), hp⟩

/-- C17 (as amended): in a tick whose listing succeeds and reaches the pair, when the
poll of the pair succeeds the version it returns is that of the last record of the
history query (0 with no record), and after the tick the pair's last delivered
version is the greater of its value before the tick and that version.  It is the
highest version among the records when these come in ascending order of version and
are newer than the last delivered version, and it is unchanged by a poll without
record when it is not negative. -/
theorem poller_advances_to_last_record (env : Env) (st stPre : pollerState) (t1 : List Op)
    (grv : groupResourceRV) (pre post : List (String × String)) (g r : String)
    (records : List historyPollResponse) (next : Int)
    (hnp : st.panicked = false)
    (hlist : backend.listLatestRVs env st.log = (t1, .ok grv))
    (hpairs : groupResourceRV.pairs grv = pre ++ (g, r) :: post)
    (hpre : stPre = pre.foldl (backend.poller.pollPair env)
      { log := t1, since := st.since, panicked := false })
    (hprenp : stPre.panicked = false)
    (hq : env.queryPoll (stPre.log ++ [Op.begin .ReadCommittedRO])
      (.sqlResourceHistoryPoll r g (lastDelivered st.since g r)) = .ok records)
    (hok : (backend.poll env stPre.log g r (lastDelivered st.since g r)).2
      = .returned (next, none)) :
    next = (records.map (fun rec => rec.ResourceVersion)).getLast?.getD 0
    ∧ lastDelivered (backend.poller.tick env st).since g r
        = max (lastDelivered st.since g r) next
    ∧ (records ≠ [] →
        records.Pairwise (fun a b => a.ResourceVersion ≤ b.ResourceVersion) →
        (∀ rec ∈ records, lastDelivered st.since g r < rec.ResourceVersion) →
        (∃ rec ∈ records,
          rec.ResourceVersion = lastDelivered (backend.poller.tick env st).since g r)
        ∧ ∀ rec ∈ records,
          rec.ResourceVersion ≤ lastDelivered (backend.poller.tick env st).since g r)
    ∧ (records = [] → 0 ≤ lastDelivered st.since g r →
        lastDelivered (backend.poller.tick env st).since g r = lastDelivered st.since g r) := by
  have hnodup := listLatestRVs_pairs_nodup env st.log t1 grv hlist
  rw [hpairs] at hnodup
  obtain ⟨hgpre, hgpost⟩ := nodup_middle pre post (g, r) hnodup
  have hsame : lastDelivered stPre.since g r = lastDelivered st.since g r := by
    rw [hpre]
    exact foldl_pollPair_other env pre _ g r hgpre
  rw [← hsame] at hq hok
  have hnext := poll_ok env stPre.log g r _ next records hq hok
  have htick : backend.poller.tick env st
      = post.foldl (backend.poller.pollPair env) (backend.poller.pollPair env stPre (g, r)) := by
    rw [tick_pairs env st t1 grv hnp hlist, hpairs, List.foldl_append, List.foldl_cons, ← hpre]
  have hld : lastDelivered (backend.poller.tick env st).since g r
      = max (lastDelivered st.since g r) next := by
    rw [htick, foldl_pollPair_other env post _ g r hgpost,
      (pollPair_success env stPre g r next hprenp hok).2, hsame]
  refine ⟨hnext, hld, ?_, ?_⟩
  · intro hne hsorted hnewer
    have hm : records.map (fun rec => rec.ResourceVersion) ≠ [] := by simpa using hne
    have hlast : ∃ rec ∈ records, rec.ResourceVersion = next := by
      rw [hnext, List.getLast?_eq_getLast _ hm]
      simp only [Option.getD_some]
      obtain ⟨rec, hrec, he⟩ := List.mem_map.mp (List.getLast_mem hm)
      exact ⟨rec, hrec, he⟩
    obtain ⟨rec, hrec, he⟩ := hlast
    have hgt := hnewer rec hrec
    have hmax : max (lastDelivered st.since g r) next = next := by
      rw [he] at hgt
      omega
    rw [hld, hmax]
    refine ⟨⟨rec, hrec, he⟩, ?_⟩
    intro rec1 hrec1
    rw [hnext]
    exact sorted_le_getLast _ 0 (List.pairwise_map.mpr hsorted) _
      (List.mem_map.mpr ⟨rec1, hrec1, rfl⟩)
  · intro hnil h0
    rw [hld, hnext, hnil]
    simp only [List.map_nil, List.getLast?_nil, Option.getD_none]
    omega

/-- Witness for C17: a tick on `envFeed` from the pair (`grp`, `res`) at version 4: the
poll returns the records at versions 5 and 6, and the pair ends the tick at the
greater of 4 and 6. -/
theorem poller_advances_to_last_record_witness :
    (6 : Int) = (recordsAB.map (fun rec => rec.ResourceVersion)).getLast?.getD 0
    ∧ lastDelivered (backend.poller.tick envFeed stateAt4).since "grp" "res"
        = max (lastDelivered stateAt4.since "grp" "res") 6 :=
  ⟨(poller_advances_to_last_record envFeed stateAt4
      { log := [Op.begin .ReadCommittedRO, Op.query .sqlResourceVersionList, Op.commit],
        since := stateAt4.since, panicked := false }
      [Op.begin .ReadCommittedRO, Op.query .sqlResourceVersionList, Op.commit]
      [("grp", [("res", 4)])] [] [] "grp" "res" recordsAB 6 rfl rfl rfl rfl rfl rfl rfl).1,
   (poller_advances_to_last_record envFeed stateAt4
      { log := [Op.begin .ReadCommittedRO, Op.query .sqlResourceVersionList, Op.commit],
        since := stateAt4.since, panicked := false }
      [Op.begin .ReadCommittedRO, Op.query .sqlResourceVersionList, Op.commit]
      [("grp", [("res", 4)])] [] [] "grp" "res" recordsAB 6 rfl rfl rfl rfl rfl rfl rfl).2.1⟩

/-- Counterexample to C17 as stated.  On `envOutOfOrder` the poll of (`grp`, `res`)
since version 4 succeeds with the records at versions 9 and 5, in that order; both
events are sent and the pair ends the tick at version 5, which is not the highest
version among the records.  On `envNoRecords` the pair stands at version -5 and the
poll returns no record; the pair ends the tick at version 0, not at -5. -/
theorem poller_keeps_last_not_highest :
    envOutOfOrder.queryPoll
        [Op.begin .ReadCommittedRO, Op.query .sqlResourceVersionList, Op.commit,
          Op.begin .ReadCommittedRO]
        (.sqlResourceHistoryPoll "res" "grp" 4) = .ok [recordA9, recordA5]
    ∧ (backend.poller.tick envOutOfOrder stateAt4).log =
        [Op.begin .ReadCommittedRO, Op.query .sqlResourceVersionList, Op.commit,
          Op.begin .ReadCommittedRO, Op.query (.sqlResourceHistoryPoll "res" "grp" 4), Op.commit,
          Op.send (recordA9.event 5), Op.send (recordA5.event 0)]
    ∧ recordA9.ResourceVersion = 9
    ∧ lastDelivered (backend.poller.tick envOutOfOrder stateAt4).since "grp" "res" = 5
    ∧ lastDelivered stateBelowZero.since "grp" "res" = -5
    ∧ (backend.poller.tick envNoRecords stateBelowZero).log =
        [Op.begin .ReadCommittedRO, Op.query .sqlResourceVersionList, Op.commit,
          Op.begin .ReadCommittedRO, Op.query (.sqlResourceHistoryPoll "res" "grp" (-5)),
          Op.commit]
    ∧ lastDelivered (backend.poller.tick envNoRecords stateBelowZero).since "grp" "res" = 0 :=
  ⟨rfl, by decide, rfl, by decide, by decide, by decide, by decide⟩

/-- C18: in a tick whose listing succeeds and reaches the pair (`g`, `r`), with the
pairs `post` still to visit, when the history query of the pair fails the iteration
logs the error and does not panic, and no last delivered version changes in it.
The tick then visits every pair of `post` in turn: for each of them reached without
a panic its history query is issued, since that pair's own last delivered version,
and when its poll succeeds its last delivered version ends the tick at the greater
of its previous value and the version the poll returned.  The failing pair ends the
tick where it was.  The tick closes no stream; when the failing pair is the last of
the tick the poller goes on with the next tick from the state the failure left, and
otherwise it goes on whenever the tick has not panicked, a panic being possible only
in the iteration of a pair of `post`. -/
theorem poller_isolates_query_failure (env : Env) (st stPre : pollerState) (t1 : List Op)
    (grv : groupResourceRV) (pre post : List (String × String)) (g r : String) (err : GoError)
    (hnp : st.panicked = false)
    (hlist : backend.listLatestRVs env st.log = (t1, .ok grv))
    (hpairs : groupResourceRV.pairs grv = pre ++ (g, r) :: post)
    (hpre : stPre = pre.foldl (backend.poller.pollPair env)
      { log := t1, since := st.since, panicked := false })
    (hprenp : stPre.panicked = false)
    (hb : env.beginTx stPre.log .ReadCommittedRO = none)
    (hq : env.queryPoll (stPre.log ++ [Op.begin .ReadCommittedRO])
      (.sqlResourceHistoryPoll r g (lastDelivered st.since g r)) = .error err) :
    (backend.poller.pollPair env stPre (g, r)).panicked = false
    ∧ (backend.poller.pollPair env stPre (g, r)).log =
        stPre.log ++ [Op.begin .ReadCommittedRO,
          Op.query (.sqlResourceHistoryPoll r g (lastDelivered st.since g r)),
          Op.rollback,
          Op.logError "polling for resource" (.wrap "poll history" err)]
    ∧ (∀ g1 r1, lastDelivered (backend.poller.pollPair env stPre (g, r)).since g1 r1
        = lastDelivered stPre.since g1 r1)
    ∧ backend.poller.tick env st
        = post.foldl (backend.poller.pollPair env) (backend.poller.pollPair env stPre (g, r))
    ∧ (∀ a b g2 r2, post = a ++ (g2, r2) :: b →
        (a.foldl (backend.poller.pollPair env)
          (backend.poller.pollPair env stPre (g, r))).panicked = false →
        env.beginTx (a.foldl (backend.poller.pollPair env)
          (backend.poller.pollPair env stPre (g, r))).log .ReadCommittedRO = none →
        ∃ ext, (backend.poller.tick env st).log =
          (a.foldl (backend.poller.pollPair env)
            (backend.poller.pollPair env stPre (g, r))).log
          ++ [Op.begin .ReadCommittedRO,
            Op.query (.sqlResourceHistoryPoll r2 g2 (lastDelivered st.since g2 r2))] ++ ext)
    ∧ (∀ a b g2 r2 next, post = a ++ (g2, r2) :: b →
        (a.foldl (backend.poller.pollPair env)
          (backend.poller.pollPair env stPre (g, r))).panicked = false →
        (backend.poll env (a.foldl (backend.poller.pollPair env)
            (backend.poller.pollPair env stPre (g, r))).log g2 r2
          (lastDelivered st.since g2 r2)).2 = .returned (next, none) →
        lastDelivered (backend.poller.tick env st).since g2 r2
          = max (lastDelivered st.since g2 r2) next)
    ∧ lastDelivered (backend.poller.tick env st).since g r = lastDelivered st.since g r
    ∧ Op.closeStream ∉ (backend.poller.tick env st).log.drop st.log.length
    ∧ (post = [] →
        ∀ ticks, backend.poller env st (ticks + 1)
          = backend.poller env (backend.poller.pollPair env stPre (g, r)) ticks)
    ∧ ((backend.poller.tick env st).panicked = false →
        ∀ ticks, backend.poller env st (ticks + 1)
          = backend.poller env (backend.poller.tick env st) ticks)
    ∧ ((backend.poller.tick env st).panicked = true →
        ∃ a p b, post = a ++ p :: b
          ∧ (a.foldl (backend.poller.pollPair env)
              (backend.poller.pollPair env stPre (g, r))).panicked = false
          ∧ (backend.poller.pollPair env (a.foldl (backend.poller.pollPair env)
              (backend.poller.pollPair env stPre (g, r))) p).panicked = true) := by
  have hnodup := listLatestRVs_pairs_nodup env st.log t1 grv hlist
  rw [hpairs] at hnodup
  obtain ⟨hgpre, hgpost⟩ := nodup_middle pre post (g, r) hnodup
  have hother : ∀ g1 r1, (g1, r1) ∉ pre →
      lastDelivered stPre.since g1 r1 = lastDelivered st.since g1 r1 := by
    intro g1 r1 h
    rw [hpre]
    exact foldl_pollPair_other env pre _ g1 r1 h
  have hsame := hother g r hgpre
  rw [← hsame] at hq
  obtain ⟨since2, h2, heq⟩ := pollPair_eq env stPre g r hprenp
  rw [poll_query_error env stPre.log g r _ err hb hq] at heq
  simp only at heq
  have htick : backend.poller.tick env st
      = post.foldl (backend.poller.pollPair env) (backend.poller.pollPair env stPre (g, r)) := by
    rw [tick_pairs env st t1 grv hnp hlist, hpairs, List.foldl_append, List.foldl_cons, ← hpre]
  have hfnp : (backend.poller.pollPair env stPre (g, r)).panicked = false := by rw [heq]
  have hfld : ∀ g1 r1, lastDelivered (backend.poller.pollPair env stPre (g, r)).since g1 r1
      = lastDelivered stPre.since g1 r1 := by
    rw [heq]
    exact h2
  have hreach : ∀ a b g2 r2, post = a ++ (g2, r2) :: b →
      lastDelivered (a.foldl (backend.poller.pollPair env)
          (backend.poller.pollPair env stPre (g, r))).since g2 r2
        = lastDelivered st.since g2 r2 ∧ (g2, r2) ∉ b := by
    intro a b g2 r2 hsplit
    obtain ⟨-, -, hqpre, -, hqa, hqb⟩ := nodup_split pre post a b (g, r) (g2, r2) hnodup hsplit
    rw [foldl_pollPair_other env a _ g2 r2 hqa, hfld, hother g2 r2 hqpre]
    exact ⟨rfl, hqb⟩
  refine ⟨hfnp, ?_, hfld, htick, ?_, ?_, ?_, ?_, ?_, ?_, ?_⟩
  · rw [heq, hsame]
    simp
  · intro a b g2 r2 hsplit hanp hab
    obtain ⟨hld, -⟩ := hreach a b g2 r2 hsplit
    obtain ⟨ext1, h1⟩ := pollPair_issues_query env _ g2 r2 hanp hab
    obtain ⟨ext2, h3, -⟩ := foldl_pollPair_log env b
      (backend.poller.pollPair env (a.foldl (backend.poller.pollPair env)
        (backend.poller.pollPair env stPre (g, r))) (g2, r2))
    refine ⟨ext1 ++ ext2, ?_⟩
    rw [htick, hsplit, List.foldl_append, List.foldl_cons, h3, h1, hld]
    simp only [List.append_assoc]
  · intro a b g2 r2 next hsplit hanp hok
    obtain ⟨hld, hqb⟩ := hreach a b g2 r2 hsplit
    rw [← hld] at hok
    rw [htick, hsplit, List.foldl_append, List.foldl_cons,
      foldl_pollPair_other env b _ g2 r2 hqb,
      (pollPair_success env _ g2 r2 next hanp hok).2, hld]
  · rw [htick, foldl_pollPair_other env post _ g r hgpost, hfld, hsame]
  · obtain ⟨ext, hlog, hno⟩ := tick_no_close env st
    rw [hlog, List.drop_left]
    exact hno
  · intro hnil ticks
    have hlast : backend.poller.tick env st = backend.poller.pollPair env stPre (g, r) := by
      rw [htick, hnil, List.foldl_nil]
    simp [backend.poller, hlast, hfnp]
  · intro h ticks
    simp [backend.poller, h]
  · intro h
    rw [htick] at h
    exact foldl_pollPair_panicked env post _ hfnp h

/-- Witness for C18: a tick on `envOneFails` from the pairs (`grp`, `res`) and
(`grp`, `res2`) at version 4.  The history query of `res` fails; the tick goes on,
issues the history query of `res2` since version 4 and sends its event; `res2` ends
the tick at version 5 and `res` at version 4. -/
theorem poller_isolates_query_failure_witness :
    lastDelivered (backend.poller.tick envOneFails stateTwoPairs).since "grp" "res2"
        = max (lastDelivered stateTwoPairs.since "grp" "res2") 5
    ∧ (backend.poller.tick envOneFails stateTwoPairs).log =
        [Op.begin .ReadCommittedRO, Op.query .sqlResourceVersionList, Op.commit,
          Op.begin .ReadCommittedRO, Op.query (.sqlResourceHistoryPoll "res" "grp" 4),
          Op.rollback,
          Op.logError "polling for resource"
            (.wrap "poll history" (.sentinel "driver: bad connection")),
          Op.begin .ReadCommittedRO, Op.query (.sqlResourceHistoryPoll "res2" "grp" 4),
          Op.commit, Op.send (recordB5.event 0)]
    ∧ lastDelivered (backend.poller.tick envOneFails stateTwoPairs).since "grp" "res" = 4
    ∧ lastDelivered (backend.poller.tick envOneFails stateTwoPairs).since "grp" "res2" = 5 :=
  ⟨(poller_isolates_query_failure envOneFails stateTwoPairs
      { log := [Op.begin .ReadCommittedRO, Op.query .sqlResourceVersionList, Op.commit],
        since := stateTwoPairs.since, panicked := false }
      [Op.begin .ReadCommittedRO, Op.query .sqlResourceVersionList, Op.commit]
      [("grp", [("res", 4), ("res2", 4)])] [] [("grp", "res2")] "grp" "res"
      (.sentinel "driver: bad connection") rfl rfl rfl rfl rfl rfl rfl).2.2.2.2.2.1
      [] [] "grp" "res2" 5 rfl rfl rfl,
    by decide, by decide, by decide⟩

/-! ## Change feed: the version a watch starts from -/

/-- What a watch guarantees relative to the version it starts from.  A watch whose
listing of the latest versions succeeds starts its poller from that listing, so the
last delivered version of a listed pair starts at the version the map of
`listLatestRVs` holds for it, which is that of the last row the version list query
returned for the pair.  In every iteration for the pair the only query issued is the
history poll since the pair's last delivered version at that moment; no tick lowers
a last delivered version, so it never falls below the starting version; and, the
history poll query returning for a pair only records of that pair newer than the
version asked for, every event ever sent for the pair has a resource version above
the starting version. -/
theorem watch_delivers_only_newer (env : Env) (t t1 : List Op) (m : groupResourceRV)
    (g r : String) (v0 : Int) (ticks : Nat)
    (hlist : backend.listLatestRVs env t = (t1, .ok m))
    (hv0 : groupResourceRV.get m g r = some v0) :
    backend.WatchWriteEvents env t ticks
      = (backend.poller env { log := t1, since := m, panicked := false } ticks, none)
    ∧ lastDelivered m g r = v0
    ∧ (∀ rows, env.queryVersionList (t ++ [Op.begin .ReadCommittedRO]) .sqlResourceVersionList
          = .ok rows →
        ((rows.filter (fun row => decide (row.Group = g ∧ row.Resource = r))).getLast?).map
          (fun row => row.ResourceVersion) = some v0)
    ∧ (∀ st : pollerState, ∃ ext,
        (backend.poller.pollPair env st (g, r)).log = st.log ++ ext
        ∧ ∀ stmt, Op.query stmt ∈ ext →
          stmt = .sqlResourceHistoryPoll r g (lastDelivered st.since g r))
    ∧ (∀ st : pollerState,
        lastDelivered st.since g r ≤ lastDelivered (backend.poller.tick env st).since g r)
    ∧ v0 ≤ lastDelivered (backend.WatchWriteEvents env t ticks).1.since g r
    ∧ (PollContract env →
        ∀ ev, Op.send ev ∈ (backend.WatchWriteEvents env t ticks).1.log.drop t1.length →
          ev.WriteEvent.Key.Group = g → ev.WriteEvent.Key.Resource = r →
          v0 < ev.ResourceVersion) := by
  have hw : backend.WatchWriteEvents env t ticks
      = (backend.poller env { log := t1, since := m, panicked := false } ticks, none) := by
    unfold backend.WatchWriteEvents
    rw [hlist]
  have hld : lastDelivered m g r = v0 := by simp [lastDelivered, hv0]
  refine ⟨hw, hld, ?_, ?_, fun st => tick_mono env st g r, ?_, ?_⟩
  · intro rows hq
    have hm := listLatestRVs_ok env t t1 m rows hlist hq
    rw [hm, foldl_set_get] at hv0
    generalize (rows.filter (fun row => decide (row.Group = g ∧ row.Resource = r))).getLast?
      = last at hv0 ⊢
    cases last with
    | none => simp [groupResourceRV.get, goMapGet] at hv0
    | some row =>
      simp only at hv0
      simp only [Option.map_some']
      exact hv0
  · intro st
    obtain ⟨ext, h1, h2⟩ := pollPair_log env st (g, r)
    refine ⟨ext, h1, ?_⟩
    intro stmt hs
    rcases h2 _ hs with h | h | h | h | ⟨err, h⟩ | ⟨records, -, rec, -, prev, h⟩
    · cases h
    · cases h
    · cases h
    · injection h
    · cases h
    · cases h
  · rw [hw]
    have := poller_mono env ticks { log := t1, since := m, panicked := false } g r
    simp only [hld] at this
    exact this
  · intro hdb ev hev hg hr
    rw [hw] at hev
    have hinit : FeedInv t1 g r v0 { log := t1, since := m, panicked := false } :=
      ⟨⟨[], by simp, by simp⟩, le_of_eq hld.symm⟩
    obtain ⟨⟨ext, hlog, hgood⟩, -⟩ := poller_inv env hdb t1 g r v0 ticks _ hinit
    simp only at hev
    rw [hlog, List.drop_left] at hev
    exact hgood _ hev ev rfl hg hr

/-- A watch of two ticks on `envFeed`, where the pair (`grp`, `res`) is listed once,
at version 4: the log of the watch holds, after the listing, the events at versions
5 and 6, once each, and the pair ends at version 6. -/
theorem watch_delivers_only_newer_witness :
    (4 : Int) ≤ lastDelivered (backend.WatchWriteEvents envFeed [] 2).1.since "grp" "res"
    ∧ ((backend.WatchWriteEvents envFeed [] 2).1.log.filterMap
        (fun op => match op with
          | .send ev => some ev.ResourceVersion
          | _ => none)) = [5, 6]
    ∧ lastDelivered (backend.WatchWriteEvents envFeed [] 2).1.since "grp" "res" = 6 :=
  ⟨(watch_delivers_only_newer envFeed []
      [Op.begin .ReadCommittedRO, Op.query .sqlResourceVersionList, Op.commit]
      [("grp", [("res", 4)])] "grp" "res" 4 2 rfl rfl).2.2.2.2.2.1,
    by decide, by decide⟩

/-- C19 (failing input): a watch of two ticks on `envDescending`, whose version list
returns for the pair (`grp`, `res`) a row at version 9 and then a row at version 4,
and whose history holds the records at versions 5 and 6.  The watch starts the pair
at version 4, the version of the last row, not at 9, the latest version listed: its
first poll asks for the history since 4, and the events at versions 5 and 6 are
sent, both at or below the version visible at subscription. -/
theorem watch_starts_below_latest_listed :
    envDescending.queryVersionList [Op.begin .ReadCommittedRO] .sqlResourceVersionList
      = .ok [{ Group := "grp", Resource := "res", ResourceVersion := 9 },
             { Group := "grp", Resource := "res", ResourceVersion := 4 }]
    ∧ (backend.WatchWriteEvents envDescending [] 2).2 = none
    ∧ lastDelivered (backend.WatchWriteEvents envDescending [] 0).1.since "grp" "res" = 4
    ∧ (backend.WatchWriteEvents envDescending [] 2).1.log =
        [Op.begin .ReadCommittedRO, Op.query .sqlResourceVersionList, Op.commit,
          Op.begin .ReadCommittedRO, Op.query .sqlResourceVersionList, Op.commit,
          Op.begin .ReadCommittedRO, Op.query (.sqlResourceHistoryPoll "res" "grp" 4), Op.commit,
          Op.send (recordA5.event 0),
          Op.send (recordA6.event 5),
          Op.begin .ReadCommittedRO, Op.query .sqlResourceVersionList, Op.commit,
          Op.begin .ReadCommittedRO, Op.query (.sqlResourceHistoryPoll "res" "grp" 6), Op.commit,
          Op.closeStream]
    ∧ ((backend.WatchWriteEvents envDescending [] 2).1.log.filterMap
        (fun op => match op with
          | .send ev => some ev.ResourceVersion
          | _ => none)) = [5, 6]
    ∧ (5 : Int) ≤ 9 ∧ (6 : Int) ≤ 9 :=
  ⟨rfl, rfl, by decide, by decide, by decide, by decide, by decide⟩

/-! ## Version ledger: shard synchronization, row creation, the mutex -/

/-- C21 (failing input): `IncreaseRVs("res", "grp", 77, 42)` on a database whose
shard-locking query finds the shards 3 and 77.  The call succeeds, and the one
update it issues is the batch update with the shard numbers 3 and 77 and nothing
else: no group, no resource, no version.  What reaches the database does not
depend on the version passed in at all: for every database and every arguments, the
call with version `v` and the call with version `v1` have the same log and result. -/
theorem increaseRVs_ignores_version :
    backend.IncreaseRVs envShards [] "res" "grp" 77 42 =
      ([Op.begin .ReadCommitted,
        Op.queryRows (.sqlResourceVersionLockShards "res" "grp"),
        Op.exec (.sqlResourceVersionBatchUpdate [3, 77]),
        Op.commit], none)
    ∧ ∀ (env : Env) (t : List Op) (resource group : String) (shard shard1 : Nat) (v v1 : Int),
        backend.IncreaseRVs env t resource group shard v
          = backend.IncreaseRVs env t resource group shard1 v1 :=
  ⟨by decide, fun _ _ _ _ _ _ _ _ => rfl⟩

/-- Counterexample to C24 as stated: the locking read finds an existing counter row
whose version is 0 (epoch hint 5); the counter-row insert is issued all the same,
and no update statement is. -/
theorem atomicInc_zero_row_inserts :
    (envCounter ⟨0, 5⟩).queryRowVersion [Op.lock]
        (Stmt.sqlResourceVersionGet keyA.Group keyA.Resource (computeShard keyA.Namespace) false)
      = .ok { ResourceVersion := 0, CurrentEpoch := 5 }
    ∧ resourceVersionAtomicInc (envCounter ⟨0, 5⟩) [] keyA =
        ([Op.lock,
          Op.queryRow (.sqlResourceVersionGet "grp" "res" 77 false),
          Op.exec (.sqlResourceVersionInsert "grp" "res" 77),
          Op.queryRow (.sqlResourceVersionGet "grp" "res" 77 true),
          Op.unlock], 0, none) :=
  ⟨rfl, by decide⟩

/-- C24 (as amended): `resourceVersionAtomicInc` issues the counter-row insert exactly
when the locking read finds no row or finds a row whose version is 0, and then it
is the statement that follows the locking read; when the locking read finds a row
with a version other than 0, no insert is issued: the mutex is released, the delay
taken, and the one statement that follows is the update carrying
`max(epoch, version+1)` computed from that row. -/
theorem atomicInc_insert_iff (env : Env) (t : List Op) (key : ResourceKey) :
    (Op.exec (.sqlResourceVersionInsert key.Group key.Resource (computeShard key.Namespace))
        ∈ (resourceVersionAtomicInc env t key).1.drop t.length
      ↔ (∃ err, env.queryRowVersion (t ++ [Op.lock])
            (.sqlResourceVersionGet key.Group key.Resource (computeShard key.Namespace) false)
              = .error err ∧ errorsIs err ErrNoRows = true)
        ∨ ∃ e, env.queryRowVersion (t ++ [Op.lock])
            (.sqlResourceVersionGet key.Group key.Resource (computeShard key.Namespace) false)
              = .ok { ResourceVersion := 0, CurrentEpoch := e })
    ∧ (∀ r e, env.queryRowVersion (t ++ [Op.lock])
          (.sqlResourceVersionGet key.Group key.Resource (computeShard key.Namespace) false)
            = .ok { ResourceVersion := r, CurrentEpoch := e } → r ≠ 0 →
        (resourceVersionAtomicInc env t key).1 =
          t ++ [Op.lock, Op.queryRow (.sqlResourceVersionGet key.Group key.Resource
              (computeShard key.Namespace) false), Op.unlock, Op.sleep,
            Op.exec (.sqlResourceVersionUpdate key.Group key.Resource
              (computeShard key.Namespace) (max e (wrap64 (r + 1))))]) := by
  refine ⟨?_, ?_⟩
  · unfold resourceVersionAtomicInc
    simp only
    cases hq : env.queryRowVersion (t ++ [Op.lock])
        (.sqlResourceVersionGet key.Group key.Resource (computeShard key.Namespace) false) with
    | error err =>
      simp only
      by_cases his : errorsIs err ErrNoRows = true
      · simp only [his, if_true]
        repeat' split
        all_goals simp [List.append_assoc, List.drop_left, his]
      · simp only [his, if_false]
        simp [List.append_assoc, List.drop_left, his]
    | ok res =>
      rcases res with ⟨r, e⟩
      simp only
      by_cases hr : r = 0
      · subst hr
        simp only [if_true]
        repeat' split
        all_goals simp [List.append_assoc, List.drop_left]
      · simp only [hr, if_false]
        split <;> simp [List.append_assoc, List.drop_left, hr]
  · intro r e hq hr
    unfold resourceVersionAtomicInc
    simp only [hq, hr, if_false]
    split <;> simp

/-- Witness for C24: on a counter row at version 41 no insert is issued. -/
theorem atomicInc_insert_iff_witness :
    (resourceVersionAtomicInc (envCounter ⟨41, 7⟩) [] keyA).1 =
      [] ++ [Op.lock, Op.queryRow (.sqlResourceVersionGet keyA.Group keyA.Resource
          (computeShard keyA.Namespace) false), Op.unlock, Op.sleep,
        Op.exec (.sqlResourceVersionUpdate keyA.Group keyA.Resource
          (computeShard keyA.Namespace) (max 7 (wrap64 (41 + 1))))] :=
  (atomicInc_insert_iff (envCounter ⟨41, 7⟩) [] keyA).2 41 7 rfl (by decide)

/-- C28: on every path through `resourceVersionAtomicInc` the operations it adds to
the log start with the acquisition of the mutex and hold exactly one acquisition
and exactly one release; and on the existing-row path the release comes before the
contention delay, which comes before the update statement. -/
theorem atomicInc_mutex_released_once (env : Env) (t : List Op) (key : ResourceKey) :
    (∃ ext, (resourceVersionAtomicInc env t key).1 = t ++ Op.lock :: ext
      ∧ ext.count Op.lock = 0 ∧ ext.count Op.unlock = 1)
    ∧ (∀ r e, env.queryRowVersion (t ++ [Op.lock])
          (.sqlResourceVersionGet key.Group key.Resource (computeShard key.Namespace) false)
            = .ok { ResourceVersion := r, CurrentEpoch := e } → r ≠ 0 →
        (resourceVersionAtomicInc env t key).1 =
          t ++ [Op.lock, Op.queryRow (.sqlResourceVersionGet key.Group key.Resource
              (computeShard key.Namespace) false), Op.unlock, Op.sleep,
            Op.exec (.sqlResourceVersionUpdate key.Group key.Resource
              (computeShard key.Namespace) (max e (wrap64 (r + 1))))]) := by
  refine ⟨?_, (atomicInc_insert_iff env t key).2⟩
  unfold resourceVersionAtomicInc
  simp only
  repeat' split
  all_goals
    simp only [List.append_assoc, List.cons_append, List.nil_append]
    exact ⟨_, rfl, by simp [List.count_cons], by simp [List.count_cons]⟩

/-! ## Change feed: records the poll cannot deliver, and the version listing -/

/-- C25 (failing input): the poll of (`grp`, `res`) on a database whose history query
returns one record with no previous resource version (`PreviousRV` nil).  The
statement `*prevRV = int64(0)` writes through the nil pointer: the call panics
after the query, no event is sent, and the poller goroutine that made the call is
marked as panicked. -/
theorem poll_nil_previous_panics :
    backend.poll envNilPrev [] "grp" "res" 4 =
      ([Op.begin .ReadCommittedRO, Op.query (.sqlResourceHistoryPoll "res" "grp" 4),
        Op.commit], .panic "invalid memory address or nil pointer dereference")
    ∧ (backend.poll envNilPrev [] "grp" "res" 4).1.any Op.isSend = false
    ∧ (backend.poller.pollPair envNilPrev stateAt4 ("grp", "res")).panicked = true :=
  ⟨rfl, by decide, by decide⟩

theorem poll_loop_missing_key (t : List Op) (nextRV : Int)
    (pre post : List historyPollResponse) (bad : historyPollResponse)
    (hkeys : ∀ rec ∈ pre, rec.Key.Group ≠ "" ∧ rec.Key.Resource ≠ "" ∧ rec.Key.Name ≠ "")
    (hprev : ∀ rec ∈ pre, rec.PreviousRV ≠ none)
    (hbad : bad.Key.Group = "" ∨ bad.Key.Resource = "" ∨ bad.Key.Name = "") :
    backend.poll.loop t nextRV (pre ++ bad :: post) =
      (t ++ pre.map (fun rec => Op.send (rec.event (rec.PreviousRV.getD 0))),
        .returned ((pre.map (fun rec => rec.ResourceVersion)).getLast?.getD nextRV,
          some (.errorf "missing key in response"))) := by
  induction pre generalizing t nextRV with
  | nil =>
    simp only [List.nil_append, List.map_nil, List.append_nil, List.getLast?_nil,
      Option.getD_none]
    unfold backend.poll.loop
    rw [if_pos hbad]
  | cons rec rest ih =>
    obtain ⟨h1, h2, h3⟩ := hkeys rec (List.mem_cons_self _ _)
    have hp := hprev rec (List.mem_cons_self _ _)
    obtain ⟨prev, hprev1⟩ := Option.ne_none_iff_exists'.mp hp
    simp only [List.cons_append]
    unfold backend.poll.loop
    rw [if_neg (by simp [h1, h2, h3])]
    simp only [hprev1]
    rw [ih _ _ (fun r hr => hkeys r (List.mem_cons_of_mem _ hr))
      (fun r hr => hprev r (List.mem_cons_of_mem _ hr))]
    simp only [List.map_cons, List.append_assoc, List.singleton_append, hprev1, Option.getD_some]
    congr 3
    cases rest with
    | nil => simp
    | cons r2 rest2 =>
      simp only [List.map_cons, List.getLast?_cons_cons]
      rw [List.getLast?_eq_getLast _ (List.cons_ne_nil _ _)]
      simp

theorem pollPair_missing_key (env : Env) (st : pollerState) (g r : String)
    (pre post : List historyPollResponse) (bad : historyPollResponse)
    (hnp : st.panicked = false)
    (hb : env.beginTx st.log .ReadCommittedRO = none)
    (hq : env.queryPoll (st.log ++ [Op.begin .ReadCommittedRO])
      (.sqlResourceHistoryPoll r g (lastDelivered st.since g r)) = .ok (pre ++ bad :: post))
    (hc : env.commitTx (st.log ++ [Op.begin .ReadCommittedRO,
      Op.query (.sqlResourceHistoryPoll r g (lastDelivered st.since g r))]) = none)
    (hkeys : ∀ rec ∈ pre, rec.Key.Group ≠ "" ∧ rec.Key.Resource ≠ "" ∧ rec.Key.Name ≠ "")
    (hprev : ∀ rec ∈ pre, rec.PreviousRV ≠ none)
    (hbad : bad.Key.Group = "" ∨ bad.Key.Resource = "" ∨ bad.Key.Name = "") :
    backend.poll env st.log g r (lastDelivered st.since g r) =
      (st.log ++ [Op.begin .ReadCommittedRO,
          Op.query (.sqlResourceHistoryPoll r g (lastDelivered st.since g r)), Op.commit] ++
        pre.map (fun rec => Op.send (rec.event (rec.PreviousRV.getD 0))),
        .returned ((pre.map (fun rec => rec.ResourceVersion)).getLast?.getD 0,
          some (.errorf "missing key in response")))
    ∧ (backend.poller.pollPair env st (g, r)).log =
        st.log ++ [Op.begin .ReadCommittedRO,
          Op.query (.sqlResourceHistoryPoll r g (lastDelivered st.since g r)), Op.commit] ++
        pre.map (fun rec => Op.send (rec.event (rec.PreviousRV.getD 0))) ++
        [Op.logError "polling for resource" (.errorf "missing key in response")]
    ∧ (backend.poller.pollPair env st (g, r)).panicked = false
    ∧ ∀ g1 r1, lastDelivered (backend.poller.pollPair env st (g, r)).since g1 r1
        = lastDelivered st.since g1 r1 := by
  have hpoll : backend.poll env st.log g r (lastDelivered st.since g r) =
      (st.log ++ [Op.begin .ReadCommittedRO,
          Op.query (.sqlResourceHistoryPoll r g (lastDelivered st.since g r)), Op.commit] ++
        pre.map (fun rec => Op.send (rec.event (rec.PreviousRV.getD 0))),
        .returned ((pre.map (fun rec => rec.ResourceVersion)).getLast?.getD 0,
          some (.errorf "missing key in response"))) := by
    unfold backend.poll WithTx
    simp only [hb, hq]
    simp only [List.append_assoc, List.singleton_append, List.cons_append,
      List.nil_append] at hc ⊢
    simp only [hc]
    rw [poll_loop_missing_key _ _ pre post bad hkeys hprev hbad]
    simp
  obtain ⟨since2, h2, heq⟩ := pollPair_eq env st g r hnp
  rw [hpoll] at heq
  simp only at heq
  refine ⟨hpoll, ?_, ?_, ?_⟩
  · rw [heq]
  · rw [heq]
  · rw [heq]
    exact h2

/-- C26: when the records the history query returns for a pair hold a record whose
group, resource or name is empty, after records that can be delivered, `poll`
returns an error having sent exactly the events of the records before it, in
order, and nothing after; the poller logs the error, does not panic, and leaves
every last delivered version as it was.  A later iteration for the pair therefore
polls since the same version, and when the query returns the same records it sends
the events of the records before the bad one again. -/
theorem poll_missing_key_replays (env : Env) (st st2 : pollerState) (g r : String)
    (pre post : List historyPollResponse) (bad : historyPollResponse)
    (hnp : st.panicked = false)
    (hb : env.beginTx st.log .ReadCommittedRO = none)
    (hq : env.queryPoll (st.log ++ [Op.begin .ReadCommittedRO])
      (.sqlResourceHistoryPoll r g (lastDelivered st.since g r)) = .ok (pre ++ bad :: post))
    (hc : env.commitTx (st.log ++ [Op.begin .ReadCommittedRO,
      Op.query (.sqlResourceHistoryPoll r g (lastDelivered st.since g r))]) = none)
    (hkeys : ∀ rec ∈ pre, rec.Key.Group ≠ "" ∧ rec.Key.Resource ≠ "" ∧ rec.Key.Name ≠ "")
    (hprev : ∀ rec ∈ pre, rec.PreviousRV ≠ none)
    (hbad : bad.Key.Group = "" ∨ bad.Key.Resource = "" ∨ bad.Key.Name = "")
    (hnp2 : st2.panicked = false)
    (hsame : lastDelivered st2.since g r
      = lastDelivered (backend.poller.pollPair env st (g, r)).since g r)
    (hb2 : env.beginTx st2.log .ReadCommittedRO = none)
    (hq2 : env.queryPoll (st2.log ++ [Op.begin .ReadCommittedRO])
      (.sqlResourceHistoryPoll r g (lastDelivered st.since g r)) = .ok (pre ++ bad :: post))
    (hc2 : env.commitTx (st2.log ++ [Op.begin .ReadCommittedRO,
      Op.query (.sqlResourceHistoryPoll r g (lastDelivered st.since g r))]) = none) :
    backend.poll env st.log g r (lastDelivered st.since g r) =
      (st.log ++ [Op.begin .ReadCommittedRO,
          Op.query (.sqlResourceHistoryPoll r g (lastDelivered st.since g r)), Op.commit] ++
        pre.map (fun rec => Op.send (rec.event (rec.PreviousRV.getD 0))),
        .returned ((pre.map (fun rec => rec.ResourceVersion)).getLast?.getD 0,
          some (.errorf "missing key in response")))
    ∧ (backend.poller.pollPair env st (g, r)).log =
        st.log ++ [Op.begin .ReadCommittedRO,
          Op.query (.sqlResourceHistoryPoll r g (lastDelivered st.since g r)), Op.commit] ++
        pre.map (fun rec => Op.send (rec.event (rec.PreviousRV.getD 0))) ++
        [Op.logError "polling for resource" (.errorf "missing key in response")]
    ∧ (backend.poller.pollPair env st (g, r)).panicked = false
    ∧ (∀ g1 r1, lastDelivered (backend.poller.pollPair env st (g, r)).since g1 r1
        = lastDelivered st.since g1 r1)
    ∧ (backend.poller.pollPair env st2 (g, r)).log =
        st2.log ++ [Op.begin .ReadCommittedRO,
          Op.query (.sqlResourceHistoryPoll r g (lastDelivered st.since g r)), Op.commit] ++
        pre.map (fun rec => Op.send (rec.event (rec.PreviousRV.getD 0))) ++
        [Op.logError "polling for resource" (.errorf "missing key in response")] := by
  obtain ⟨h1, h2, h3, h4⟩ :=
    pollPair_missing_key env st g r pre post bad hnp hb hq hc hkeys hprev hbad
  have hsame2 : lastDelivered st2.since g r = lastDelivered st.since g r := by
    rw [hsame, h4]
  rw [← hsame2] at hq2 hc2
  obtain ⟨-, k2, -, -⟩ :=
    pollPair_missing_key env st2 g r pre post bad hnp2 hb2 hq2 hc2 hkeys hprev hbad
  rw [hsame2] at k2
  exact ⟨h1, h2, h3, h4, k2⟩

/-- Witness for C26: on `envBadRecord` the pair (`grp`, `res`) stays at version 4 after
an iteration that met the record without name, and two iterations in a row send
the event at version 5 twice and no other. -/
theorem poll_missing_key_replays_witness :
    (∀ g1 r1,
      lastDelivered (backend.poller.pollPair envBadRecord stateAt4 ("grp", "res")).since g1 r1
        = lastDelivered stateAt4.since g1 r1)
    ∧ ((backend.poller.pollPair envBadRecord
          (backend.poller.pollPair envBadRecord stateAt4 ("grp", "res")) ("grp", "res")).log.filterMap
        (fun op => match op with
          | .send ev => some ev.ResourceVersion
          | _ => none)) = [5, 5] :=
  ⟨(poll_missing_key_replays envBadRecord stateAt4
      (backend.poller.pollPair envBadRecord stateAt4 ("grp", "res")) "grp" "res"
      [recordA5] [recordA7] recordNoName rfl rfl rfl rfl
      (by simp [recordA5, keyA]) (by simp [recordA5]) (Or.inr (Or.inr rfl))
      rfl rfl rfl rfl rfl).2.2.2.1,
    by decide⟩

/-- C27 (failing input): on `envDescending` the version list query returns for the
pair (`grp`, `res`) a row at version 9 and then a row at version 4.  The loop of
`listLatestRVs` assigns `since[grv.Group][grv.Resource] = grv.ResourceVersion` row
after row without comparing, so the map holds 4 for the pair, which is not the
latest (highest) version among its rows, 9. -/
theorem listLatestRVs_not_highest :
    envDescending.queryVersionList [Op.begin .ReadCommittedRO] .sqlResourceVersionList
      = .ok [{ Group := "grp", Resource := "res", ResourceVersion := 9 },
             { Group := "grp", Resource := "res", ResourceVersion := 4 }]
    ∧ backend.listLatestRVs envDescending []
      = ([Op.begin .ReadCommittedRO, Op.query .sqlResourceVersionList, Op.commit],
          .ok [("grp", [("res", 4)])])
    ∧ groupResourceRV.get [("grp", [("res", 4)])] "grp" "res" = some 4
    ∧ (4 : Int) < 9 :=
  ⟨rfl, rfl, by decide, by decide⟩

/-- What the map of `listLatestRVs` holds.  When the call succeeds, its map holds for
each pair that occurs in the rows of the version list query the version of the last
row of that pair, which is the highest among the rows of the pair when these come in
ascending order of version, and it holds no entry for a pair that does not occur. -/
theorem listLatestRVs_keeps_last_row (env : Env) (t t1 : List Op) (m : groupResourceRV)
    (rows : List groupResourceVersion)
    (hlist : backend.listLatestRVs env t = (t1, .ok m))
    (hq : env.queryVersionList (t ++ [Op.begin .ReadCommittedRO]) .sqlResourceVersionList
      = .ok rows) (g r : String) :
    groupResourceRV.get m g r
      = ((rows.filter (fun row => decide (row.Group = g ∧ row.Resource = r))).getLast?).map
          (fun row => row.ResourceVersion)
    ∧ (groupResourceRV.get m g r ≠ none ↔ ∃ row ∈ rows, row.Group = g ∧ row.Resource = r)
    ∧ ((rows.filter (fun row => decide (row.Group = g ∧ row.Resource = r))).Pairwise
          (fun a b => a.ResourceVersion ≤ b.ResourceVersion) →
        ∀ v, groupResourceRV.get m g r = some v →
          ∀ row ∈ rows, row.Group = g → row.Resource = r → row.ResourceVersion ≤ v) := by
  have hm := listLatestRVs_ok env t t1 m rows hlist hq
  have hget : groupResourceRV.get m g r
      = ((rows.filter (fun row => decide (row.Group = g ∧ row.Resource = r))).getLast?).map
          (fun row => row.ResourceVersion) := by
    rw [hm, foldl_set_get]
    generalize (rows.filter (fun row => decide (row.Group = g ∧ row.Resource = r))).getLast?
      = last
    cases last with
    | none => simp [groupResourceRV.get, goMapGet]
    | some row => simp
  refine ⟨hget, ?_, ?_⟩
  · rw [hget]
    simp only [ne_eq, Option.map_eq_none', List.getLast?_eq_none_iff, List.filter_eq_nil_iff,
      decide_eq_true_eq, not_forall, Classical.not_imp, not_not]
    constructor
    · rintro ⟨row, hrow, hp⟩
      exact ⟨row, hrow, hp⟩
    · rintro ⟨row, hrow, hp⟩
      exact ⟨row, hrow, hp⟩
  · intro hsorted v hv row hrow hg hr
    rw [hget] at hv
    have hmem : row ∈ rows.filter (fun row => decide (row.Group = g ∧ row.Resource = r)) := by
      simp [List.mem_filter, hrow, hg, hr]
    have hle := sorted_le_getLast
      ((rows.filter (fun row => decide (row.Group = g ∧ row.Resource = r))).map
        (fun row => row.ResourceVersion)) 0 (List.pairwise_map.mpr hsorted)
      row.ResourceVersion (List.mem_map.mpr ⟨row, hmem, rfl⟩)
    rw [List.getLast?_map] at hle
    rw [hv] at hle
    simpa using hle

/-- The lemma above on `envDescending`, whose version list holds the pair
(`grp`, `res`) twice, at version 9 and then at version 4: the map holds the version
of the last of the two rows. -/
theorem listLatestRVs_keeps_last_row_witness :
    groupResourceRV.get [("grp", [("res", 4)])] "grp" "res"
      = (([({ Group := "grp", Resource := "res", ResourceVersion := 9 } : groupResourceVersion),
            { Group := "grp", Resource := "res", ResourceVersion := 4 }].filter
          (fun row => decide (row.Group = "grp" ∧ row.Resource = "res"))).getLast?).map
          (fun row => row.ResourceVersion) :=
  (listLatestRVs_keeps_last_row envDescending []
    [Op.begin .ReadCommittedRO, Op.query .sqlResourceVersionList, Op.commit]
    [("grp", [("res", 4)])]
    [{ Group := "grp", Resource := "res", ResourceVersion := 9 },
     { Group := "grp", Resource := "res", ResourceVersion := 4 }]
    rfl rfl "grp" "res").1

/-! ## Write pipeline: successive writes -/

theorem writeEvent_added (env : Env) (t : List Op) (event : WriteEvent)
    (h : event.Type_ = .ADDED) :
    (backend.WriteEvent env t event).2 = (backend.create env t event).2 := by
  unfold backend.WriteEvent
  simp only [h, writeEvent_unfold]

theorem writeEvent_modified (env : Env) (t : List Op) (event : WriteEvent)
    (h : event.Type_ = .MODIFIED) :
    (backend.WriteEvent env t event).2 = (backend.update env t event).2 := by
  unfold backend.WriteEvent
  simp only [h, writeEvent_unfold]

theorem writeEvent_deleted (env : Env) (t : List Op) (event : WriteEvent)
    (h : event.Type_ = .DELETED) :
    (backend.WriteEvent env t event).2 = (backend.delete env t event).2 := by
  unfold backend.WriteEvent
  simp only [h, writeEvent_unfold]

theorem atomicInc_insert_version (env : Env) (t : List Op) (key : ResourceKey) (err : GoError)
    (row : resourceVersionResponse)
    (hread : env.queryRowVersion (t ++ [Op.lock]) (ledgerGet key false) = .error err)
    (his : errorsIs err ErrNoRows = true)
    (hre : env.queryRowVersion
      (t ++ [Op.lock, Op.queryRow (ledgerGet key false),
        Op.exec (.sqlResourceVersionInsert key.Group key.Resource (computeShard key.Namespace))])
      (ledgerGet key true) = .ok row)
    (hok : (resourceVersionAtomicInc env t key).2.2 = none) :
    (resourceVersionAtomicInc env t key).2.1 = row.ResourceVersion := by
  unfold ledgerGet at hread hre
  unfold resourceVersionAtomicInc at hok ⊢
  simp only [hread, his, if_true] at hok ⊢
  split at hok
  · simp at hok
  · simp only [List.append_assoc, List.cons_append, List.nil_append] at hre ⊢
    simp [hre]

theorem write_version_existing (env : Env) (t : List Op) (event : WriteEvent) (r e : Int)
    (hty : event.Type_ = .MODIFIED ∨ event.Type_ = .DELETED)
    (hok : (backend.WriteEvent env t event).2.2 = none)
    (hread : env.queryRowVersion (ledgerReadLog env t event) (ledgerGet event.Key false)
      = .ok { ResourceVersion := r, CurrentEpoch := e })
    (hr : r ≠ 0) :
    (backend.WriteEvent env t event).2.1 = max e (wrap64 (r + 1)) := by
  unfold ledgerGet at hread
  rcases hty with hty | hty
  · rw [writeEvent_modified env t event hty] at hok ⊢
    obtain ⟨tinc, hinc, -⟩ := update_ok env t event hok
    have hlog : ledgerReadLog env t event =
        (t ++ [Op.begin .ReadCommitted, Op.exec (.sqlResourceUpdate event (env.uuidNew t)),
          Op.exec (.sqlResourceHistoryInsert event (env.uuidNew t))]) ++ [Op.lock] := by
      simp [ledgerReadLog, hty]
    rw [hlog] at hread
    have hv := atomicInc_existing_version env _ event.Key r e hread hr (by rw [hinc])
    rw [hinc] at hv
    exact hv
  · rw [writeEvent_deleted env t event hty] at hok ⊢
    obtain ⟨tinc, hinc, -⟩ := delete_ok env t event hok
    have hlog : ledgerReadLog env t event =
        (t ++ [Op.begin .ReadCommitted, Op.exec (.sqlResourceDelete event (env.uuidNew t)),
          Op.exec (.sqlResourceHistoryInsert event (env.uuidNew t))]) ++ [Op.lock] := by
      simp [ledgerReadLog, hty]
    rw [hlog] at hread
    have hv := atomicInc_existing_version env _ event.Key r e hread hr (by rw [hinc])
    rw [hinc] at hv
    exact hv

theorem write_version_first (env : Env) (t : List Op) (event : WriteEvent) (err : GoError)
    (row : resourceVersionResponse)
    (hty : event.Type_ = .ADDED)
    (hok : (backend.WriteEvent env t event).2.2 = none)
    (hread : env.queryRowVersion (ledgerReadLog env t event) (ledgerGet event.Key false)
      = .error err)
    (his : errorsIs err ErrNoRows = true)
    (hre : env.queryRowVersion
      (ledgerReadLog env t event ++ [Op.queryRow (ledgerGet event.Key false),
        Op.exec (.sqlResourceVersionInsert event.Key.Group event.Key.Resource
          (computeShard event.Key.Namespace))])
      (ledgerGet event.Key true) = .ok row) :
    (backend.WriteEvent env t event).2.1 = row.ResourceVersion := by
  rw [writeEvent_added env t event hty] at hok ⊢
  obtain ⟨tinc, hinc, -⟩ := create_ok env t event hok
  have hlog : ledgerReadLog env t event =
      (t ++ [Op.begin .ReadCommitted, Op.exec (.sqlResourceInsert event (env.uuidNew t)),
        Op.exec (.sqlResourceHistoryInsert event (env.uuidNew t))]) ++ [Op.lock] := by
    simp [ledgerReadLog, hty]
  rw [hlog] at hread hre
  simp only [List.append_assoc, List.cons_append, List.nil_append] at hre
  have hv := atomicInc_insert_version env _ event.Key err row hread his
    (by simpa only [List.append_assoc, List.cons_append, List.nil_append] using hre)
    (by rw [hinc])
  rw [hinc] at hv
  exact hv

/-- Counterexample to C22 as stated: three successive successful writes of `keyA`
(ADDED, MODIFIED, DELETED) on a ledger database with no counter row, where a new
counter row starts at 1 and the epoch hint is 1700000000000000.  The first write
returns 1; the second returns the epoch hint, not 2; the third returns its
successor, not 3. -/
theorem three_writes_follow_epoch :
    (envLedger 1 1700000000000000).queryRowVersion
        (ledgerReadLog (envLedger 1 1700000000000000) [] addA) (ledgerGet keyA false)
      = .error ErrNoRows
    ∧ (backend.WriteEvent (envLedger 1 1700000000000000) [] addA).2 = (1, none)
    ∧ (backend.WriteEvent (envLedger 1 1700000000000000)
        (backend.WriteEvent (envLedger 1 1700000000000000) [] addA).1 modA).2
        = (1700000000000000, none)
    ∧ (backend.WriteEvent (envLedger 1 1700000000000000)
        (backend.WriteEvent (envLedger 1 1700000000000000)
          (backend.WriteEvent (envLedger 1 1700000000000000) [] addA).1 modA).1 delA).2
        = (1700000000000001, none) :=
  ⟨rfl, by decide, by decide, by decide⟩

/-- C22 (as amended): for three successive successful writes of one key (ADDED, then
MODIFIED, then DELETED) in a shard that had no counter row, where the counter row
the first write inserts is read back at version `v1` (positive, below the largest
`int64`) and the locking reads of the next two writes find the version the write
before returned, with epoch hints `e2` and `e3`: the versions returned are `v1`,
`max(e2, v1+1)` and `max(e3, v2+1)` with `v2` the second one; they are 1, 2 and 3
when `v1` is 1 and the epoch hints do not exceed 2 and 3. -/
theorem three_writes_versions (env : Env) (t : List Op) (ev1 ev2 ev3 : WriteEvent)
    (err : GoError) (v1 e1 e2 e3 : Int)
    (h1 : ev1.Type_ = .ADDED) (h2 : ev2.Type_ = .MODIFIED) (h3 : ev3.Type_ = .DELETED)
    (hk2 : ev2.Key = ev1.Key) (hk3 : ev3.Key = ev1.Key)
    (hok1 : (backend.WriteEvent env t ev1).2.2 = none)
    (hok2 : (backend.WriteEvent env (backend.WriteEvent env t ev1).1 ev2).2.2 = none)
    (hok3 : (backend.WriteEvent env
      (backend.WriteEvent env (backend.WriteEvent env t ev1).1 ev2).1 ev3).2.2 = none)
    (hnorow : env.queryRowVersion (ledgerReadLog env t ev1) (ledgerGet ev1.Key false)
      = .error err)
    (his : errorsIs err ErrNoRows = true)
    (hreread : env.queryRowVersion
      (ledgerReadLog env t ev1 ++ [Op.queryRow (ledgerGet ev1.Key false),
        Op.exec (.sqlResourceVersionInsert ev1.Key.Group ev1.Key.Resource
          (computeShard ev1.Key.Namespace))])
      (ledgerGet ev1.Key true) = .ok { ResourceVersion := v1, CurrentEpoch := e1 })
    (hv1 : 0 < v1) (hv1max : v1 < maxInt64)
    (hread2 : env.queryRowVersion
      (ledgerReadLog env (backend.WriteEvent env t ev1).1 ev2) (ledgerGet ev1.Key false)
      = .ok { ResourceVersion := v1, CurrentEpoch := e2 })
    (hread3 : env.queryRowVersion
      (ledgerReadLog env (backend.WriteEvent env (backend.WriteEvent env t ev1).1 ev2).1 ev3)
      (ledgerGet ev1.Key false)
      = .ok { ResourceVersion := (backend.WriteEvent env (backend.WriteEvent env t ev1).1 ev2).2.1,
              CurrentEpoch := e3 }) :
    (backend.WriteEvent env t ev1).2.1 = v1
    ∧ (backend.WriteEvent env (backend.WriteEvent env t ev1).1 ev2).2.1 = max e2 (v1 + 1)
    ∧ (backend.WriteEvent env
        (backend.WriteEvent env (backend.WriteEvent env t ev1).1 ev2).1 ev3).2.1
      = max e3 (wrap64 ((backend.WriteEvent env (backend.WriteEvent env t ev1).1 ev2).2.1 + 1))
    ∧ (v1 = 1 → e2 ≤ 2 → e3 ≤ 3 →
        (backend.WriteEvent env t ev1).2.1 = 1
        ∧ (backend.WriteEvent env (backend.WriteEvent env t ev1).1 ev2).2.1 = 2
        ∧ (backend.WriteEvent env
            (backend.WriteEvent env (backend.WriteEvent env t ev1).1 ev2).1 ev3).2.1 = 3) := by
  have r1 := write_version_first env t ev1 err _ h1 hok1 hnorow his hreread
  simp only at r1
  rw [← hk2] at hread2
  have r2 := write_version_existing env _ ev2 v1 e2 (Or.inl h2) hok2 hread2 (by omega)
  rw [wrap64_succ v1 hv1 hv1max] at r2
  have hpos : 0 < (backend.WriteEvent env (backend.WriteEvent env t ev1).1 ev2).2.1 := by
    rw [r2]
    have := le_max_right e2 (v1 + 1)
    omega
  rw [← hk3] at hread3
  have r3 := write_version_existing env _ ev3 _ e3 (Or.inr h3) hok3 hread3 (by omega)
  refine ⟨r1, r2, r3, ?_⟩
  intro hv e2le e3le
  have q2 : (backend.WriteEvent env (backend.WriteEvent env t ev1).1 ev2).2.1 = 2 := by
    rw [r2, hv]
    exact max_eq_right (by omega)
  refine ⟨by rw [r1, hv], q2, ?_⟩
  rw [r3, q2]
  have : wrap64 (2 + 1) = 3 := by decide
  rw [this]
  exact max_eq_right (by omega)

/-- Witness for C22: on a ledger database whose new counter rows start at 1 and whose
epoch hint is 0, the three writes of `keyA` return 1, 2 and 3. -/
theorem three_writes_versions_witness :
    (backend.WriteEvent (envLedger 1 0) [] addA).2.1 = 1
    ∧ (backend.WriteEvent (envLedger 1 0) (backend.WriteEvent (envLedger 1 0) [] addA).1 modA).2.1
      = 2
    ∧ (backend.WriteEvent (envLedger 1 0)
        (backend.WriteEvent (envLedger 1 0) (backend.WriteEvent (envLedger 1 0) [] addA).1 modA).1
        delA).2.1 = 3 :=
  (three_writes_versions (envLedger 1 0) [] addA modA delA ErrNoRows 1 0 0 0 rfl rfl rfl rfl rfl
    (by decide) (by decide) (by decide) rfl (by decide) rfl (by decide) (by decide) rfl rfl).2.2.2
    rfl (by decide) (by decide)

/-! ## Write then read -/

theorem tableStep_quiet (s : List CurrentRow × List CurrentRow) (op : Op)
    (h1 : op.writesCurrent = false) (h2 : op.isTxBoundary = false) : tableStep s op = s := by
  cases op with
  | exec stmt => cases stmt <;> simp_all [tableStep, applyCurrent, Op.writesCurrent]
  | _ => simp_all [tableStep, Op.isTxBoundary]

theorem foldl_tableStep_quiet (ext : List Op) (s : List CurrentRow × List CurrentRow)
    (h : ∀ op ∈ ext, op.writesCurrent = false ∧ op.isTxBoundary = false) :
    ext.foldl tableStep s = s := by
  induction ext generalizing s with
  | nil => rfl
  | cons op rest ih =>
    simp only [List.foldl_cons]
    rw [tableStep_quiet s op (h op (List.mem_cons_self _ _)).1 (h op (List.mem_cons_self _ _)).2]
    exact ih s (fun o ho => h o (List.mem_cons_of_mem _ ho))

theorem tableStep_settled (c : List CurrentRow) (op : Op) (h1 : op.writesCurrent = false) :
    tableStep (c, c) op = (c, c) := by
  cases op with
  | exec stmt => cases stmt <;> simp_all [tableStep, applyCurrent, Op.writesCurrent]
  | _ => simp [tableStep]

theorem foldl_tableStep_settled (ext : List Op) (c : List CurrentRow)
    (h : ∀ op ∈ ext, op.writesCurrent = false) : ext.foldl tableStep (c, c) = (c, c) := by
  induction ext with
  | nil => rfl
  | cons op rest ih =>
    simp only [List.foldl_cons]
    rw [tableStep_settled c op (h op (List.mem_cons_self _ _))]
    exact ih (fun o ho => h o (List.mem_cons_of_mem _ ho))

theorem atomicInc_quiet (env : Env) (t : List Op) (key : ResourceKey) :
    ∃ ext, (resourceVersionAtomicInc env t key).1 = t ++ ext
      ∧ ∀ op ∈ ext, op.writesCurrent = false ∧ op.isTxBoundary = false := by
  unfold resourceVersionAtomicInc
  simp only
  repeat' split
  all_goals
    simp only [List.append_assoc]
    exact ⟨_, rfl, by simp [Op.writesCurrent, Op.isTxBoundary]⟩

theorem IncreaseRVs_quiet (env : Env) (t : List Op) (resource group : String) (shard : Nat)
    (rv : Int) :
    ∃ ext, (backend.IncreaseRVs env t resource group shard rv).1
        = t ++ Op.begin .ReadCommitted :: ext
      ∧ ext.any Op.writesCurrent = false := by
  unfold backend.IncreaseRVs
  simp only
  apply WithTx_log
  · repeat' split
    all_goals
      simp only [List.append_assoc]
      exact ⟨_, rfl, by simp [Op.writesCurrent]⟩
  · rfl
  · rfl

theorem currentTable_after_create (t inc tail : List Op) (event : WriteEvent) (guid : String)
    (rv : Int)
    (hinc : ∀ op ∈ inc, op.writesCurrent = false ∧ op.isTxBoundary = false)
    (htail : ∀ op ∈ tail, op.writesCurrent = false) :
    currentTable
        (t ++ [Op.begin .ReadCommitted, Op.exec (.sqlResourceInsert event guid),
            Op.exec (.sqlResourceHistoryInsert event guid)] ++ inc ++
          [Op.exec (.sqlResourceHistoryUpdateRV guid rv), Op.exec (.sqlResourceUpdateRV guid rv),
            Op.commit] ++ tail)
      = (applyCurrent (applyCurrent (currentTable t).1 (.sqlResourceInsert event guid))
            (.sqlResourceUpdateRV guid rv),
         applyCurrent (applyCurrent (currentTable t).1 (.sqlResourceInsert event guid))
            (.sqlResourceUpdateRV guid rv)) := by
  unfold currentTable
  rw [List.foldl_append, List.foldl_append, List.foldl_append, List.foldl_append]
  generalize t.foldl tableStep ([], []) = s0
  have h1 : [Op.begin .ReadCommitted, Op.exec (.sqlResourceInsert event guid),
      Op.exec (.sqlResourceHistoryInsert event guid)].foldl tableStep s0
      = (s0.1, applyCurrent s0.1 (.sqlResourceInsert event guid)) := by
    simp [tableStep, applyCurrent]
  rw [h1, foldl_tableStep_quiet inc _ hinc]
  have h2 : [Op.exec (.sqlResourceHistoryUpdateRV guid rv),
      Op.exec (.sqlResourceUpdateRV guid rv), Op.commit].foldl tableStep
        (s0.1, applyCurrent s0.1 (.sqlResourceInsert event guid))
      = (applyCurrent (applyCurrent s0.1 (.sqlResourceInsert event guid))
            (.sqlResourceUpdateRV guid rv),
         applyCurrent (applyCurrent s0.1 (.sqlResourceInsert event guid))
            (.sqlResourceUpdateRV guid rv)) := by
    simp [tableStep, applyCurrent]
  rw [h2, foldl_tableStep_settled tail _ htail]

theorem readCurrent_stamped (rows : List CurrentRow) (event : WriteEvent) (guid : String)
    (rv : Int) :
    readCurrent (applyCurrent (applyCurrent rows (.sqlResourceInsert event guid))
        (.sqlResourceUpdateRV guid rv)) event.Key
      = .ok { ReadResponse := { Error := none, ResourceVersion := rv, Value := event.Value } } := by
  simp [readCurrent, applyCurrent]

/-- C23: a successful write of type ADDED with value `V`, followed by a read of the
same key with no version, on a database whose current-state read answers from the
current-state table after the log (the row the statements of the log have left for
the key): the read returns exactly `V`, the resource version the write returned,
and no error. -/
theorem added_then_read_round_trip (env : Env) (t : List Op) (event : WriteEvent)
    (hty : event.Type_ = .ADDED)
    (hok : (backend.WriteEvent env t event).2.2 = none)
    (hb : env.beginTx (backend.WriteEvent env t event).1 .ReadCommittedRO = none)
    (hdb : env.queryRowRead ((backend.WriteEvent env t event).1 ++ [Op.begin .ReadCommittedRO])
        (.sqlResourceRead { Key := event.Key, ResourceVersion := 0 })
      = readCurrent
          (currentTable ((backend.WriteEvent env t event).1 ++ [Op.begin .ReadCommittedRO])).2
          event.Key)
    (hc : env.commitTx ((backend.WriteEvent env t event).1 ++ [Op.begin .ReadCommittedRO,
        Op.queryRow (.sqlResourceRead { Key := event.Key, ResourceVersion := 0 })]) = none) :
    (backend.ReadResource env (backend.WriteEvent env t event).1
        { Key := event.Key, ResourceVersion := 0 }).2
      = some { Error := none, ResourceVersion := (backend.WriteEvent env t event).2.1,
               Value := event.Value } := by
  have hsnd := writeEvent_added env t event hty
  have hokc : (backend.create env t event).2.2 = none := by rw [← hsnd]; exact hok
  obtain ⟨tinc, hinc, heq⟩ := create_ok env t event hokc
  obtain ⟨inc, hinc1, hquiet⟩ := atomicInc_quiet env
    (t ++ [Op.begin .ReadCommitted, Op.exec (.sqlResourceInsert event (env.uuidNew t)),
      Op.exec (.sqlResourceHistoryInsert event (env.uuidNew t))]) event.Key
  rw [hinc] at hinc1
  simp only at hinc1
  obtain ⟨ext2, hsync, hext2⟩ := IncreaseRVs_quiet env (backend.create env t event).1
    event.Key.Resource event.Key.Group (computeShard event.Key.Namespace)
    (backend.create env t event).2.1
  have hrv : (backend.WriteEvent env t event).2.1 = (backend.create env t event).2.1 := by
    rw [hsnd]
  have hlog : ∃ tail, (backend.WriteEvent env t event).1 ++ [Op.begin .ReadCommittedRO]
      = t ++ [Op.begin .ReadCommitted, Op.exec (.sqlResourceInsert event (env.uuidNew t)),
            Op.exec (.sqlResourceHistoryInsert event (env.uuidNew t))] ++ inc ++
          [Op.exec (.sqlResourceHistoryUpdateRV (env.uuidNew t) (backend.create env t event).2.1),
            Op.exec (.sqlResourceUpdateRV (env.uuidNew t) (backend.create env t event).2.1),
            Op.commit] ++ tail
      ∧ ∀ op ∈ tail, op.writesCurrent = false := by
    have hc1 : (backend.create env t event).1 = tinc ++
        [Op.exec (.sqlResourceHistoryUpdateRV (env.uuidNew t) (backend.create env t event).2.1),
          Op.exec (.sqlResourceUpdateRV (env.uuidNew t) (backend.create env t event).2.1),
          Op.commit] := congrArg Prod.fst heq
    unfold backend.WriteEvent
    simp only [hty, writeEvent_unfold]
    rw [if_pos hokc, hsync]
    generalize (backend.IncreaseRVs env (backend.create env t event).1 event.Key.Resource
      event.Key.Group (computeShard event.Key.Namespace)
      (backend.create env t event).2.1).2 = sync
    rw [hc1, hinc1]
    refine ⟨Op.begin .ReadCommitted :: ext2 ++
      (match sync with
        | some err => [Op.logError "failed to increase resource version" err]
        | none => []) ++ [Op.begin .ReadCommittedRO], ?_, ?_⟩
    · simp only [List.append_assoc, List.cons_append, List.nil_append]
    · intro op hop
      have hall : ∀ o ∈ ext2, o.writesCurrent = false := by
        intro o ho
        by_contra hcon
        have : ext2.any Op.writesCurrent = true :=
          List.any_eq_true.mpr ⟨o, ho, by simpa using hcon⟩
        rw [hext2] at this
        cases this
      cases sync <;>
        simp only [List.cons_append, List.append_assoc, List.mem_cons, List.mem_append,
          List.mem_singleton, List.not_mem_nil, or_false, false_or] at hop
      · rcases hop with h | h | h
        · rw [h]; rfl
        · exact hall op h
        · rw [h]; rfl
      · rcases hop with h | h | h | h
        · rw [h]; rfl
        · exact hall op h
        · rw [h]; rfl
        · rw [h]; rfl
  obtain ⟨tail, hshape, htail⟩ := hlog
  rw [hshape, currentTable_after_create t inc tail event _ _ hquiet htail] at hdb
  simp only at hdb
  rw [readCurrent_stamped, ← hshape] at hdb
  unfold backend.ReadResource WithTx
  simp only [hb, lt_self_iff_false, gt_iff_lt, if_false, hdb]
  simp only [List.append_assoc, List.singleton_append, List.cons_append,
    List.nil_append] at hc ⊢
  simp [hc, hrv]

/-- Witness for C23: on `envTables`, the event `addA` is written at version 42 and the
read of `keyA` returns its value `[1, 2, 3]` with version 42. -/
theorem added_then_read_round_trip_witness :
    (backend.ReadResource envTables (backend.WriteEvent envTables [] addA).1
        { Key := keyA, ResourceVersion := 0 }).2
      = some { Error := none, ResourceVersion := 42, Value := [1, 2, 3] } :=
  added_then_read_round_trip envTables [] addA rfl (by decide) rfl rfl rfl

/-! ## API group runner: claims -/

theorem Init_loop_ok (cfg : Config) (providers : List Provider) (builders b1 : List AppBuilder)
    (apps a1 : List App)
    (h : APIGroupRunner.Init.loop cfg providers builders apps = .returned (.ok (b1, a1))) :
    a1.length = apps.length + providers.length := by
  induction providers generalizing builders apps with
  | nil =>
    simp only [APIGroupRunner.Init.loop, Outcome.returned.injEq, Except.ok.injEq,
      Prod.mk.injEq] at h
    simp [h.2]
  | cons p rest ih =>
    unfold APIGroupRunner.Init.loop at h
    split at h
    · simp at h
    · split at h
      · simp at h
      · split at h
        · simp at h
        · rw [ih _ _ h]
          simp only [List.length_append, List.length_cons, List.length_nil]
          omega

theorem Init_keeps_apps (r r1 : APIGroupRunner) (cfg : Config) (err : Option GoError)
    (h : APIGroupRunner.Init r cfg = .returned (r1, err)) : r1.apps = r.apps := by
  unfold APIGroupRunner.Init at h
  split at h
  · simp at h
  · simp only [Outcome.returned.injEq, Prod.mk.injEq] at h
    rw [← h.1]
  · simp only [Outcome.returned.injEq, Prod.mk.injEq] at h
    rw [← h.1]

/-- C29 (failing input): a runner made of one provider with an embedded manifest whose
`NewApp` returns the playlist app.  `Init` succeeds and sets the one builder of the
app, for the group-version of the playlist kind; but the apps it has collected stay
in its local slice: the runner still holds no app, and `Run` adds no runnable.
This is so for every runner: `Init` never changes the apps the runner holds, while
on success its loop has collected one app per provider. -/
theorem init_drops_the_apps :
    APIGroupRunner.Init (NewAPIGroupRunner [playlistProvider]) { RestConfig := "rest" }
      = .returned
          ({ providers := [playlistProvider],
             builders := [{ app := playlistApp,
                            gv := { Group := "playlist.grafana.app", Version := "v0alpha1" },
                            kinds := [playlistKind] }],
             apps := [] }, none)
    ∧ APIGroupRunner.Run
        { providers := [playlistProvider],
          builders := [{ app := playlistApp,
                         gv := { Group := "playlist.grafana.app", Version := "v0alpha1" },
                         kinds := [playlistKind] }],
          apps := [] } = []
    ∧ (∀ (r r1 : APIGroupRunner) (cfg : Config) (err : Option GoError),
        APIGroupRunner.Init r cfg = .returned (r1, err) → r1.apps = r.apps)
    ∧ (∀ (cfg : Config) (providers : List Provider) (b1 : List AppBuilder) (a1 : List App),
        APIGroupRunner.Init.loop cfg providers [] [] = .returned (.ok (b1, a1)) →
        a1.length = providers.length) :=
  ⟨rfl, rfl, Init_keeps_apps, fun cfg providers b1 a1 h => by
    simpa using Init_loop_ok cfg providers [] b1 [] a1 h⟩

theorem appendKind_kinds (groups : List (GroupVersion × List Kind)) (kind : Kind)
    (h : ∀ entry ∈ groups, ∀ k ∈ entry.2, k.GroupVersion = entry.1) :
    ∀ entry ∈ appendKind groups kind.GroupVersion kind, ∀ k ∈ entry.2,
      k.GroupVersion = entry.1 := by
  induction groups with
  | nil =>
    intro entry hentry k hk
    simp only [appendKind, List.mem_singleton] at hentry
    subst hentry
    simp only [List.mem_singleton] at hk
    rw [hk]
  | cons e rest ih =>
    rcases e with ⟨gv1, ks⟩
    intro entry hentry k hk
    unfold appendKind at hentry
    split at hentry
    · rename_i hgv
      rcases List.mem_cons.mp hentry with he | he
      · subst he
        rcases List.mem_append.mp hk with hk1 | hk1
        · exact h (gv1, ks) (List.mem_cons_self _ _) k hk1
        · simp only [List.mem_singleton] at hk1
          rw [hk1, hgv]
      · exact h entry (List.mem_cons_of_mem _ he) k hk
    · rcases List.mem_cons.mp hentry with he | he
      · subst he
        exact h (gv1, ks) (List.mem_cons_self _ _) k hk
      · exact ih (fun en hen => h en (List.mem_cons_of_mem _ hen)) entry he k hk

theorem groupKinds_kinds (kinds : List Kind) :
    ∀ entry ∈ groupKinds kinds, ∀ k ∈ entry.2, k.GroupVersion = entry.1 := by
  unfold groupKinds
  have gen : ∀ (l : List Kind) (groups : List (GroupVersion × List Kind)),
      (∀ entry ∈ groups, ∀ k ∈ entry.2, k.GroupVersion = entry.1) →
      ∀ entry ∈ l.foldl (fun groups kind => appendKind groups kind.GroupVersion kind) groups,
        ∀ k ∈ entry.2, k.GroupVersion = entry.1 := by
    intro l
    induction l with
    | nil => intro groups h; simpa using h
    | cons kind rest ih =>
      intro groups h
      simp only [List.foldl_cons]
      exact ih _ (appendKind_kinds groups kind h)
  exact gen kinds [] (by simp)

theorem Init_loop_builders (cfg : Config) (providers : List Provider)
    (builders b1 : List AppBuilder) (apps a1 : List App)
    (hb : ∀ b ∈ builders, ∀ k ∈ b.kinds, k.GroupVersion = b.gv)
    (h : APIGroupRunner.Init.loop cfg providers builders apps = .returned (.ok (b1, a1))) :
    ∀ b ∈ b1, ∀ k ∈ b.kinds, k.GroupVersion = b.gv := by
  induction providers generalizing builders apps with
  | nil =>
    simp only [APIGroupRunner.Init.loop, Outcome.returned.injEq, Except.ok.injEq,
      Prod.mk.injEq] at h
    rw [← h.1]
    exact hb
  | cons p rest ih =>
    unfold APIGroupRunner.Init.loop at h
    split at h
    · simp at h
    · split at h
      · simp at h
      · split at h
        · simp at h
        · rename_i app _
          apply ih _ _ _ h
          intro b hbm k hk
          rcases List.mem_append.mp hbm with hm | hm
          · exact hb b hm k hk
          · obtain ⟨entry, hentry, rfl⟩ := List.mem_map.mp hm
            exact groupKinds_kinds app.ManagedKinds entry hentry k hk

theorem Init_error_keeps_runner (r r1 : APIGroupRunner) (cfg : Config) (err : GoError)
    (h : APIGroupRunner.Init r cfg = .returned (r1, some err)) :
    r1.builders = r.builders ∧ r1.apps = r.apps := by
  unfold APIGroupRunner.Init at h
  split at h
  · simp at h
  · simp only [Outcome.returned.injEq, Prod.mk.injEq] at h
    rw [← h.1]
    exact ⟨rfl, rfl⟩
  · simp at h

theorem Init_not_embedded :
    APIGroupRunner.Init.loop { RestConfig := "rest" } [playlistProvider, fileProvider] [] []
      = .returned (.error (.errorf "unsupported manifest location type: filepath")) := by
  rfl

end UnifiedSql
